import Mathlib

/-!
# IRI parsing and path normalisation of libmget (`libmget/iri.c`)

A shallow embedding of the IRI routines of `libmget/iri.c` and of the robots.txt parser of
`libwget/robots.c`, and theorems about them.

Conventions of the embedding.

* A byte is a `Nat` below 256; a C string is the list of its bytes without the
  terminating NUL.  `cstr` reads the C string that starts a block of memory.
* `char` is taken to be signed, as on the platforms the library is built for
  (`schar` gives the signed value of a byte).
* Memory management (`strdup`, `xmalloc`, `xfree`) is not modelled.
* The character set converter (`iconv`) and the IDN library are outside the
  repository; they are the fields of `Env`.
-/

namespace Iri

/-! ## Bytes and C strings -/

/-- Bytes of an ASCII string literal. -/
def str (s : String) : List Nat := s.toList.map Char.toNat

/-- The C string that starts at the beginning of a block of memory: the bytes before the
first NUL. -/
def cstr (mem : List Nat) : List Nat := mem.takeWhile (fun b => b != 0)

/-- Value of a byte read through a (signed) `char`. -/
def schar (b : Nat) : Int := if b < 128 then (b : Int) else (b : Int) - 256

/-- `isspace` of the C locale: space, `\t`, `\n`, `\v`, `\f`, `\r`. -/
def isspace (c : Nat) : Bool := c == 32 || (9 ≤ c && c ≤ 13)

/-- `isdigit`. -/
def isdigit (c : Nat) : Bool := 48 ≤ c && c ≤ 57

/-- `isxdigit`: `0-9`, `A-F`, `a-f`. -/
def isxdigit (c : Nat) : Bool :=
  (48 ≤ c && c ≤ 57) || (65 ≤ c && c ≤ 70) || (97 ≤ c && c ≤ 102)

/-- `isalnum` of the C locale. -/
def isalnum (c : Nat) : Bool :=
  (48 ≤ c && c ≤ 57) || (65 ≤ c && c ≤ 90) || (97 ≤ c && c ≤ 122)

/-- The in-place lowercasing used by the parser:
`if (*p >= 'A' && *p <= 'Z') *p |= 0x20;`. -/
def lower (c : Nat) : Nat := if 65 ≤ c ∧ c ≤ 90 then c + 32 else c

/-- `strcasecmp` of the C locale on two C strings. -/
def strcasecmp : List Nat → List Nat → Int
  | [], [] => 0
  | [], b :: _ => 0 - (lower b : Int)
  | a :: _, [] => (lower a : Int)
  | a :: as, b :: bs =>
    if lower a = lower b then strcasecmp as bs else (lower a : Int) - (lower b : Int)

/-- Digits part of `atoi`: accumulates decimal digits until the first non-digit. -/
def atoi_digits : List Nat → Int → Int
  | [], acc => acc
  | c :: cs, acc => if isdigit c then atoi_digits cs (acc * 10 + ((c : Int) - 48)) else acc

/-- The decimal number at the start of a string, as `strtol(s, NULL, 10)` reads it before
any range check: white space is skipped, then come an optional sign and the decimal digits
that follow. -/
def decimal_value (s : List Nat) : Int :=
  match s.dropWhile isspace with
  | [] => 0
  | c :: cs =>
    if c = 45 then - atoi_digits cs 0
    else if c = 43 then atoi_digits cs 0
    else atoi_digits (c :: cs) 0

/-- `atoi` of the C library, which returns an `int` of 32 bits: `(int) strtol(s, NULL, 10)`
where `long` has 64 bits.  `strtol` gives the decimal value, limited to the range of
`long`; the conversion to `int` keeps the low 32 bits of it (two's complement), so that
"4294967376" is read as 80. -/
def atoi (s : List Nat) : Int :=
  let v := decimal_value s
  let l : Int :=
    if v > 9223372036854775807 then 9223372036854775807
    else if v < -9223372036854775808 then -9223372036854775808
    else v
  (l + 2147483648) % 4294967296 - 2147483648

/-! ## Character classes (`iri_ctype`) -/

/-- `_iri_isgendelim`: one of `: / ? # [ ] @`. -/
def _iri_isgendelim (c : Nat) : Bool :=
  c == 58 || c == 47 || c == 63 || c == 35 || c == 91 || c == 93 || c == 64

/-- `_iri_issubdelim`: one of `! $ & ' ( ) * + , ; =`. -/
def _iri_issubdelim (c : Nat) : Bool :=
  c == 33 || c == 36 || c == 38 || c == 39 || c == 40 || c == 41 || c == 42 ||
  c == 43 || c == 44 || c == 59 || c == 61

/-- `_iri_isunreserved`: the table entries `- . _ ~`. -/
def _iri_isunreserved (c : Nat) : Bool :=
  c == 45 || c == 46 || c == 95 || c == 126

/-- `mget_iri_isunreserved`: `c > 32 && c < 127 && (isalnum(c) || _iri_isunreserved(c))`
on a signed `char`. -/
def mget_iri_isunreserved (c : Nat) : Bool :=
  decide (schar c > 32) && decide (schar c < 127) && (isalnum c || _iri_isunreserved c)

/-- `mget_iri_isunreserved_path`: as `mget_iri_isunreserved`, with `/` allowed too. -/
def mget_iri_isunreserved_path (c : Nat) : Bool :=
  decide (schar c > 32) && decide (schar c < 127) &&
    (isalnum c || _iri_isunreserved c || c == 47)

/-! ## Percent decoding and character sets -/

/-- `_unhex`: value of a hexadecimal digit. -/
def _unhex (c : Nat) : Nat :=
  if c ≤ 57 then c - 48 else if c ≤ 70 then c - 65 + 10 else c - 97 + 10

/-- `_unescape`: the buffer contents written by the in-place decoder (before the final
NUL) and its return value (`true` when an escape was decoded).  The write position never
passes the read position, so the bytes read are those of the input. -/
def _unescape : List Nat → List Nat × Bool
  | [] => ([], false)
  | [c] => ([c], false)
  | [c, a] => ([c, a], false)
  | c :: a :: b :: rest =>
    if c = 37 ∧ isxdigit a ∧ isxdigit b then
      ((_unhex a * 16 + _unhex b) :: (_unescape rest).1, true)
    else
      (c :: (_unescape (a :: b :: rest)).1, (_unescape (a :: b :: rest)).2)

/-- `mget_str_needs_encoding`: `while (*s > 0) s++; return !!*s;`, true when a byte above
0x7F comes before the end of the string. -/
def mget_str_needs_encoding (s : List Nat) : Bool :=
  match s.dropWhile (fun b => decide (schar b > 0)) with
  | [] => false
  | b :: _ => b != 0

/-- The collaborators outside the repository.
`have_iconv` is the build option `HAVE_ICONV`; `iconv src from to` is the converter
(`none` when it fails); `idn_to_ascii` is the IDN lookup (`none` when it fails or when
the library is built without IDN support). -/
structure Env where
  have_iconv : Bool
  iconv : List Nat → List Nat → List Nat → Option (List Nat)
  idn_to_ascii : List Nat → Option (List Nat)

/-- A build without `iconv` and without IDN support. -/
def Env.plain : Env := ⟨false, fun _ _ _ => none, fun _ => none⟩

/-- `mget_charset_transcode` for a non-NULL `src`: a copy when the two encodings are the
same (or without `iconv`), else the converter's result. -/
def mget_charset_transcode (env : Env) (src : List Nat)
    (src_encoding dst_encoding : Option (List Nat)) : Option (List Nat) :=
  if env.have_iconv then
    let se := src_encoding.getD (str "iso-8859-1")
    let de := dst_encoding.getD (str "iso-8859-1")
    if strcasecmp se de ≠ 0 then
      (env.iconv src se de).map cstr
    else some src
  else some src

/-- `mget_str_to_utf8`. -/
def mget_str_to_utf8 (env : Env) (src : List Nat) (encoding : Option (List Nat)) :
    Option (List Nat) :=
  mget_charset_transcode env src encoding (some (str "utf-8"))

/-! ## The parsed IRI -/

/-- The `scheme` pointer of an IRI: one of the interned strings of `iri_schemes`
(`IRI_SCHEME_HTTP`, `IRI_SCHEME_HTTPS`), or the lowercased scheme text stored in the
IRI's own buffer. -/
inductive Scheme where
  | http
  | https
  | other (name : List Nat)
  deriving DecidableEq, Repr

/-- The string a scheme pointer points to. -/
def Scheme.text : Scheme → List Nat
  | .http => str "http"
  | .https => str "https"
  | .other name => name

/-- The fields of `MGET_IRI` that the parser sets; `none` is the NULL pointer. -/
structure MGET_IRI where
  uri : List Nat
  scheme : Scheme
  userinfo : Option (List Nat)
  host : Option (List Nat)
  port : Option (List Nat)
  resolv_port : Option (List Nat)
  path : Option (List Nat)
  query : Option (List Nat)
  fragment : Option (List Nat)
  connection_part : Option (List Nat)
  host_allocated : Bool
  deriving DecidableEq, Repr

/-! ## `mget_iri_parse`

The parser works on a copy of the URL made with `strcpy`, so the text it scans has no NUL:
`*s` is zero exactly when the rest of the text is the empty list (`headD 0` reads `*s`).
Each component pointer is modelled by the bytes up to the NUL that the parser writes over
the delimiter ending the component. -/

/-- Lines 256-281 of `mget_iri_parse`: skip leading white space, fail on an empty rest,
then unescape and convert to UTF-8.  The result is the string the parser copies into the
IRI.  When the input has a `%` and its unescaped form needs no conversion, `url` is left
pointing at the input. -/
def iri_prepare (env : Env) (url : List Nat) (encoding : Option (List Nat)) :
    Option (List Nat) :=
  let url := (cstr url).dropWhile isspace
  if url = [] then none
  else if url.contains 37 then
    let unesc_url := cstr (_unescape url).1
    if mget_str_needs_encoding unesc_url then
      match mget_str_to_utf8 env unesc_url encoding with
      | some u => some (cstr u)
      | none => some unesc_url
    else some url
  else
    if mget_str_needs_encoding url then
      match mget_str_to_utf8 env url encoding with
      | some s => some (cstr s)
      | none => some url
    else some url

/-- Lines 294-328 of `mget_iri_parse`: scheme detection.  Gives the scheme, its default
port, and the text that follows the scheme (after `:` and a leading `//`). -/
def iri_scheme (url : List Nat) : Scheme × Option (List Nat) × List Nat :=
  let p := url.takeWhile (fun c => !_iri_isgendelim c)
  let s := url.dropWhile (fun c => !_iri_isgendelim c)
  let found : Scheme × Option (List Nat) × List Nat :=
    if s.headD 0 = 58 ∧ s.tail.headD 0 = 47 then
      if strcasecmp (str "http") p = 0 then (Scheme.http, some (str "80"), s.tail)
      else if strcasecmp (str "https") p = 0 then (Scheme.https, some (str "443"), s.tail)
      else (Scheme.other (p.map lower), none, s.tail)
    else (Scheme.http, some (str "80"), url)
  let s := found.2.2
  (found.1, found.2.1, if s.headD 0 = 47 ∧ s.tail.headD 0 = 47 then s.drop 2 else s)

/-- The record of the components found by the scan of lines 330-357. -/
structure Parts where
  authority : List Nat
  path : Option (List Nat)
  query : Option (List Nat)
  fragment : Option (List Nat)
  deriving DecidableEq, Repr

/-- Lines 330-357 of `mget_iri_parse`: authority, then `[path][?query][#fragment]`. -/
def iri_split (s : List Nat) : Parts :=
  let notAuthEnd : Nat → Bool := fun c => c != 47 && c != 63 && c != 35
  let authority := s.takeWhile notAuthEnd
  let s := s.dropWhile notAuthEnd
  let c := s.headD 0
  let s := s.tail
  -- if (c == '/')
  let notPathEnd : Nat → Bool := fun c => c != 63 && c != 35
  let path := if c = 47 then some (s.takeWhile notPathEnd) else none
  let c1 := if c = 47 then (s.dropWhile notPathEnd).headD 0 else c
  let s1 := if c = 47 then (s.dropWhile notPathEnd).tail else s
  -- if (c == '?')
  let notQueryEnd : Nat → Bool := fun c => c != 35
  let query := if c1 = 63 then some (s1.takeWhile notQueryEnd) else none
  let c2 := if c1 = 63 then (s1.dropWhile notQueryEnd).headD 0 else c1
  let s2 := if c1 = 63 then (s1.dropWhile notQueryEnd).tail else s1
  -- if (c == '#')
  let fragment := if c2 = 35 then some s2 else none
  ⟨authority, path, query, fragment⟩

/-- The part of `s` before its last `c` and the part after it (`strrchr`), when `s` has
a `c`. -/
def splitLast (c : Nat) (s : List Nat) : Option (List Nat × List Nat) :=
  if s.contains c then
    some (((s.reverse.dropWhile (fun x => x != c)).tail).reverse,
          (s.reverse.takeWhile (fun x => x != c)).reverse)
  else none

/-- The record of the components of an authority. -/
structure Auth where
  userinfo : Option (List Nat)
  host : Option (List Nat)
  port : Option (List Nat)
  deriving DecidableEq, Repr

/-- Lines 365-370: what follows the first `@` of the authority (`strchr`), or the whole
authority when it has none. -/
def auth_after_userinfo (authority : List Nat) : List Nat :=
  if authority.contains 64 then (authority.dropWhile (fun c => c != 64)).tail
  else authority

/-- Lines 371-386: the host and the text left after it.  After `[` the host runs to the
last `]` (to the end when there is none); otherwise it runs to the first `:`. -/
def auth_host (s : List Nat) : List Nat × List Nat :=
  if s.headD 0 = 91 then
    match splitLast 93 s.tail with
    | some (h, r) => (h, r)
    | none => (s.tail, [])
  else (s.takeWhile (fun c => c != 58), s.dropWhile (fun c => c != 58))

/-- Lines 387-392: the port is what follows a `:` right after the host, kept when it is
not empty and, if the scheme has a default port, differs from it as a string and as a
number. -/
def auth_port (default_port : Option (List Nat)) (s : List Nat) : Option (List Nat) :=
  if s.headD 0 = 58 ∧ s.tail ≠ [] ∧
      (default_port = none ∨
        (some s.tail ≠ default_port ∧ atoi s.tail ≠ atoi (default_port.getD []))) then
    some s.tail
  else none

/-- Lines 363-394 of `mget_iri_parse`: userinfo, host and port of the authority. -/
def iri_authority (default_port : Option (List Nat)) (authority : List Nat) : Auth :=
  if authority = [] then ⟨none, none, none⟩
  else
    ⟨if authority.contains 64 then some (authority.takeWhile (fun c => c != 64)) else none,
      some (auth_host (auth_after_userinfo authority)).1,
      auth_port default_port (auth_host (auth_after_userinfo authority)).2⟩

/-- Lines 399-429 of `mget_iri_parse`: the host is lowercased in place; when it then has a
byte above 0x7F, the IDN lookup replaces it (and `host_allocated` is set) if it
succeeds. -/
def iri_host (env : Env) (host : List Nat) : List Nat × Bool :=
  let h := host.map lower
  if mget_str_needs_encoding h then
    match env.idn_to_ascii h with
    | some a => (cstr a, true)
    | none => (h, false)
  else (h, false)

/-- `mget_iri_parse(url, encoding)` for a non-NULL `url`; `none` is the NULL result. -/
def mget_iri_parse (env : Env) (url : List Nat) (encoding : Option (List Nat)) :
    Option MGET_IRI :=
  match iri_prepare env url encoding with
  | none => none
  | some url =>
    let sc := iri_scheme url
    let default_port := sc.2.1
    let parts := iri_split sc.2.2
    let auth := iri_authority default_port parts.authority
    let resolv_port := if auth.port.isSome then auth.port else default_port
    match auth.host with
    | some h =>
      some ⟨url, sc.1, auth.userinfo, some (iri_host env h).1, auth.port, resolv_port,
        parts.path, parts.query, parts.fragment, none, (iri_host env h).2⟩
    | none =>
      if sc.1 = Scheme.http ∨ sc.1 = Scheme.https then none
      else
        some ⟨url, sc.1, auth.userinfo, none, auth.port, resolv_port,
          parts.path, parts.query, parts.fragment, none, false⟩

/-! ## `_normalize_path` -/

/-- Byte at index `i` of a buffer holding a C string: the bytes of the list, then the
terminating NUL. -/
def rd (buf : List Nat) (i : Nat) : Nat := buf.getD i 0

/-- The state of `_normalize_path`: the buffer that `path` points to, the write position
`p1` and the read position `p2` (both as offsets from `path`). -/
structure NState where
  buf : List Nat
  p1 : Nat
  p2 : Nat
  deriving DecidableEq, Repr

/-- The first loop of `_normalize_path` (lines 484-504): skip `/`, `./`, `../` and a final
`.` or `..` at the beginning of the path.  Gives the new `p2`; each round moves `p2`
forward, `fuel` bounds the number of rounds. -/
def skip_loop (buf : List Nat) : Nat → Nat → Nat
  | 0, p2 => p2
  | fuel + 1, p2 =>
    if rd buf p2 = 47 then skip_loop buf fuel (p2 + 1)
    else if rd buf p2 = 46 then
      if rd buf (p2 + 1) = 47 then skip_loop buf fuel (p2 + 2)
      else if rd buf (p2 + 1) = 46 then
        if rd buf (p2 + 2) = 47 then skip_loop buf fuel (p2 + 3)
        else if rd buf (p2 + 2) = 0 then skip_loop buf fuel (p2 + 2)
        else p2
      else if rd buf (p2 + 1) = 0 then skip_loop buf fuel (p2 + 1)
      else p2
    else p2

/-- The loop `while (p1 > path && *--p1 != '/');`: go one level up. -/
def pop_level (buf : List Nat) : Nat → Nat
  | 0 => 0
  | p1 + 1 => if rd buf p1 ≠ 47 then pop_level buf p1 else p1

/-- One write `*p1++ = c`. -/
def put (st : NState) (c : Nat) : NState := ⟨st.buf.set st.p1 c, st.p1 + 1, st.p2⟩

/-- The main loop of `_normalize_path` (lines 507-533). -/
def norm_loop : Nat → NState → NState
  | 0, st => st
  | fuel + 1, st =>
    let c := rd st.buf st.p2
    if c = 0 ∨ c = 63 ∨ c = 35 then st
    else if c = 47 then
      if rd st.buf (st.p2 + 1) = 46 then
        if rd st.buf (st.p2 + 2) = 46 ∧ rd st.buf (st.p2 + 3) = 47 then
          -- !strncmp(p2, "/../", 4)
          norm_loop fuel ⟨st.buf, pop_level st.buf st.p1, st.p2 + 3⟩
        else if rd st.buf (st.p2 + 2) = 46 ∧ rd st.buf (st.p2 + 3) = 0 then
          -- !strcmp(p2, "/..")
          let st1 : NState := ⟨st.buf, pop_level st.buf st.p1, st.p2 + 3⟩
          norm_loop fuel (if st1.p1 > 0 then put st1 47 else st1)
        else if rd st.buf (st.p2 + 2) = 47 then
          -- !strncmp(p2, "/./", 3)
          norm_loop fuel ⟨st.buf, st.p1, st.p2 + 2⟩
        else if rd st.buf (st.p2 + 2) = 0 then
          -- !strcmp(p2, "/.")
          let st1 : NState := ⟨st.buf, st.p1, st.p2 + 2⟩
          norm_loop fuel (if st1.p1 > 0 then put st1 47 else st1)
        else
          norm_loop fuel (put ⟨st.buf, st.p1, st.p2 + 1⟩ c)
      else if st.p1 = 0 then
        -- avoid leading slash
        norm_loop fuel ⟨st.buf, st.p1, st.p2 + 1⟩
      else if rd st.buf (st.p2 + 1) = 47 then
        -- double slash to single slash
        norm_loop fuel ⟨st.buf, st.p1, st.p2 + 1⟩
      else
        norm_loop fuel (put ⟨st.buf, st.p1, st.p2 + 1⟩ c)
    else
      norm_loop fuel (put ⟨st.buf, st.p1, st.p2 + 1⟩ c)

/-- The loop `while (*p2) *p1++ = *p2++;` of lines 536-537. -/
def copy_rest : Nat → NState → NState
  | 0, st => st
  | fuel + 1, st =>
    if rd st.buf st.p2 = 0 then st
    else copy_rest fuel (put ⟨st.buf, st.p1, st.p2 + 1⟩ (rd st.buf st.p2))

/-- `_normalize_path(path)`: the buffer as the function leaves it and the value it
returns.  Every round of its loops reads a byte that is not NUL and moves `p2` forward, so
`buf.length + 1` rounds are enough for each loop. -/
def _normalize_path (buf : List Nat) : List Nat × Nat :=
  let fuel := buf.length + 1
  let st := norm_loop fuel ⟨buf, 0, skip_loop buf fuel 0⟩
  if st.p1 ≠ st.p2 then
    let st2 := copy_rest fuel st
    (st2.buf.set st2.p1 0, st2.p1)
  else (st.buf, st.p1)

/-- The C string left in the buffer by `_normalize_path`. -/
def normalize (path : List Nat) : List Nat := cstr (_normalize_path path).1

/-- The invariant of the loops of `_normalize_path` on the path buffer `P`: the write
position `p1` is not ahead of the read position `p2`; the buffer keeps its size; the bytes
from the read position on are still those of `P`; no NUL of `P` has been read past; and
no byte before the write position is NUL. -/
def NState.ok (P : List Nat) (st : NState) : Prop :=
  st.p1 ≤ st.p2 ∧ st.buf.length = P.length ∧ (∀ i, st.p2 ≤ i → rd st.buf i = rd P i) ∧
  (∀ i, i < st.p2 → rd P i ≠ 0) ∧ (∀ i, i < st.p1 → rd st.buf i ≠ 0)

/-- The segments of the path portion of a buffer: the C string up to its first `?` or
`#`, split on `/`. -/
def path_segments (buf : List Nat) : List (List Nat) :=
  ((cstr buf).takeWhile (fun c => c != 63 && c != 35)).splitOn 47

/-- The bytes of `l` are ASCII bytes other than NUL and `%`. -/
def ascii_text (l : List Nat) : Prop := ∀ c ∈ l, 0 < c ∧ c < 128 ∧ c ≠ 37

/-- No byte of `l` is one of the bytes `cs`. -/
def avoids (l cs : List Nat) : Prop := ∀ c ∈ l, c ∉ cs

instance (l : List Nat) : Decidable (ascii_text l) := by unfold ascii_text; infer_instance

instance (l cs : List Nat) : Decidable (avoids l cs) := by unfold avoids; infer_instance

/-! ## Output buffers

The functions below write into an `mget_buffer_t`.  The buffer utility is not among the
sources; its functions are modelled by what their names and their use in `iri.c` say. -/

/-- Modelled from the spec: the dynamic buffer utility is outside the sources.  The
fields of `mget_buffer_t` that `iri.c` reads: `data`, the memory of the buffer (a NUL
follows the bytes listed), and `length`, the number of bytes in use. -/
structure mget_buffer_t where
  data : List Nat
  length : Nat
  deriving DecidableEq, Repr

/-- Modelled from the spec: an empty output buffer. -/
def mget_buffer_t.empty : mget_buffer_t := ⟨[], 0⟩

/-- Modelled from the spec: `mget_buffer_memcat(buf, data, length)` appends the given
bytes after the `buf->length` bytes in use and terminates them with NUL. -/
def mget_buffer_memcat (buf : mget_buffer_t) (bytes : List Nat) : mget_buffer_t :=
  ⟨buf.data.take buf.length ++ bytes, buf.length + bytes.length⟩

/-- Modelled from the spec: `mget_buffer_memcpy(buf, data, length)` replaces the contents
of the buffer by the given bytes. -/
def mget_buffer_memcpy (buf : mget_buffer_t) (bytes : List Nat) : mget_buffer_t :=
  mget_buffer_memcat ⟨buf.data, 0⟩ bytes

/-- Modelled from the spec: `mget_buffer_strcat(buf, s)` appends the C string at `s`. -/
def mget_buffer_strcat (buf : mget_buffer_t) (s : List Nat) : mget_buffer_t :=
  mget_buffer_memcat buf (cstr s)

/-- Modelled from the spec: `mget_buffer_strcpy(buf, s)` replaces the contents of the
buffer by the C string at `s`. -/
def mget_buffer_strcpy (buf : mget_buffer_t) (s : List Nat) : mget_buffer_t :=
  mget_buffer_memcpy buf (cstr s)

/-- The uppercase hexadecimal digit of a value below 16. -/
def hexdigit (n : Nat) : Nat := if n < 10 then 48 + n else 55 + n

/-- The text `printf("%%%02X", (unsigned char)c)` produces: `%` and the two uppercase
hexadecimal digits of the byte. -/
def pct (c : Nat) : List Nat := [37, hexdigit (c % 256 / 16), hexdigit (c % 256 % 16)]

/-- Modelled from the spec: `mget_buffer_printf_append2(buf, "%%%02X", (unsigned char)c)`
appends the formatted text. -/
def mget_buffer_printf_append2 (buf : mget_buffer_t) (c : Nat) : mget_buffer_t :=
  mget_buffer_memcat buf (pct c)

/-! ## Escaping -/

/-- The loop shared by `mget_iri_escape`, `mget_iri_escape_path` and
`mget_iri_escape_query`.  `run` holds the bytes between `begin` and `src` (so
`begin != src` is `run ≠ []`); a byte that is not kept flushes the run into the buffer and
is followed there by its replacement, written by `put`; the last run is flushed after the
loop. -/
def escape_loop (keep : Nat → Bool) (put : mget_buffer_t → Nat → mget_buffer_t) :
    List Nat → List Nat → mget_buffer_t → mget_buffer_t
  | [], run, buf => if run ≠ [] then mget_buffer_memcat buf run else buf
  | c :: src, run, buf =>
    if !keep c then
      escape_loop keep put src []
        (put (if run ≠ [] then mget_buffer_memcat buf run else buf) c)
    else escape_loop keep put src (run ++ [c]) buf

/-- `mget_iri_escape(src, buf)`: the buffer after the call (its `data` is returned). -/
def mget_iri_escape (src : List Nat) (buf : mget_buffer_t) : mget_buffer_t :=
  escape_loop mget_iri_isunreserved mget_buffer_printf_append2 (cstr src) [] buf

/-- `mget_iri_escape_path(src, buf)`. -/
def mget_iri_escape_path (src : List Nat) (buf : mget_buffer_t) : mget_buffer_t :=
  escape_loop mget_iri_isunreserved_path mget_buffer_printf_append2 (cstr src) [] buf

/-- `mget_iri_escape_query(src, buf)`: bytes that are unreserved or `=` are kept, a space
is written as `+`, any other byte as `%HH`. -/
def mget_iri_escape_query (src : List Nat) (buf : mget_buffer_t) : mget_buffer_t :=
  escape_loop (fun c => mget_iri_isunreserved c || c == 61)
    (fun b c => if c = 32 then mget_buffer_memcat b [43] else mget_buffer_printf_append2 b c)
    (cstr src) [] buf

/-- `mget_iri_get_escaped_resource(iri, buf)`: the buffer after the call. -/
def mget_iri_get_escaped_resource (iri : MGET_IRI) (buf : mget_buffer_t) : mget_buffer_t :=
  let b1 := match iri.path with
    | some path => mget_iri_escape_path path buf
    | none => buf
  let b2 := match iri.query with
    | some query => mget_iri_escape_query query (mget_buffer_memcat b1 [63])
    | none => b1
  match iri.fragment with
  | some fragment => mget_iri_escape fragment (mget_buffer_memcat b2 [35])
  | none => b2

/-! ## Connection part and reference resolution -/

/-- `_iri_build_connection_part(iri)`: "scheme://host:port" when a port is stored, else
"scheme://host".  Both branches take `strlen(iri->host)`; `none` stands for the read
through a NULL `host`. -/
def _iri_build_connection_part (iri : MGET_IRI) : Option (List Nat) :=
  match iri.host with
  | none => none
  | some host =>
    match iri.port with
    | some port => some (iri.scheme.text ++ str "://" ++ host ++ str ":" ++ port)
    | none => some (iri.scheme.text ++ str "://" ++ host)

/-- `mget_iri_get_connection_part(iri)` for a non-NULL `iri`: the cached string, built on
the first call (the model does not record the update of the cache). -/
def mget_iri_get_connection_part (iri : MGET_IRI) : Option (List Nat) :=
  match iri.connection_part with
  | some c => some c
  | none => _iri_build_connection_part iri

/-- What a call of `mget_iri_relative_to_abs` gives back: `buf->data` (with the buffer as
the call leaves it), the pointer `val` itself, NULL, or no value at all because the call
reads through a NULL pointer (`fault`). -/
inductive Ret where
  | data (buf : mget_buffer_t)
  | val
  | null
  | fault
  deriving DecidableEq, Repr

/-- The string a call with argument `val` returned, when it returned one. -/
def Ret.string (val : List Nat) : Ret → Option (List Nat)
  | .data buf => some (cstr buf.data)
  | .val => some (cstr val)
  | .null => none
  | .fault => none

/-- The prefix of the base path that a relative reference is merged with: the path up to
and including its last `/` (lines 595 and 601-602), nothing when the path is NULL or has
no `/`. -/
def base_dir (path : Option (List Nat)) : List Nat :=
  match path with
  | none => []
  | some p =>
    match splitLast 47 p with
    | some (d, _) => d ++ [47]
    | none => []

/-- `mget_iri_relative_to_abs(base, val, len, buf)`.  `val` is the C string at `val`
(`rd val i` reads `val[i]`), of which the first `len` bytes are the reference
(`len ≤ val.length`); `none` for `base` or `buf` is the NULL pointer. -/
def mget_iri_relative_to_abs (base : Option MGET_IRI) (val : List Nat) (len : Nat)
    (buf : Option mget_buffer_t) : Ret :=
  if rd val 0 = 47 then
    match base with
    | some base =>
      -- char path[len + 1]; strlcpy(path, val, len + 1);
      let path := cstr (val.take len)
      if len ≥ 2 ∧ rd val 1 = 47 then
        -- absolute URI without scheme: //authority/path...
        let path :=
          if (path.drop 2).contains 47 then
            path.take 2 ++ (path.drop 2).takeWhile (fun c => c != 47) ++ [47] ++
              (_normalize_path ((path.drop 2).dropWhile (fun c => c != 47)).tail).1
          else path
        match buf with
        | some buf =>
          Ret.data (mget_buffer_strcat (mget_buffer_strcat
            (mget_buffer_strcpy buf base.scheme.text) (str ":")) path)
        | none => Ret.fault
      else
        -- absolute path
        let path := (_normalize_path path).1
        match mget_iri_get_connection_part base, buf with
        | some conn, some buf =>
          Ret.data (mget_buffer_strcat (mget_buffer_strcat
            (mget_buffer_strcpy buf conn) (str "/")) path)
        | _, _ => Ret.fault
    | none => Ret.null
  else
    -- see if URI begins with a scheme:
    if (val.take len).contains 58 then
      -- absolute URI
      match buf with
      | some buf => Ret.data (mget_buffer_memcpy buf (val.take len))
      | none => Ret.val
    else
      match base with
      | some base =>
        -- relative path
        match mget_iri_get_connection_part base, buf with
        | some conn, some buf =>
          let b := mget_buffer_strcat (mget_buffer_strcpy buf conn) (str "/")
          let tmp_len := b.length
          let b1 := if base_dir base.path ≠ [] then mget_buffer_memcat b (base_dir base.path)
            else b
          let b2 := if len ≠ 0 then mget_buffer_memcat b1 (val.take len) else b1
          let n := _normalize_path (b2.data.drop tmp_len)
          Ret.data ⟨b2.data.take tmp_len ++ n.1, n.2 + tmp_len⟩
        | _, _ => Ret.fault
      | none => if rd val len = 0 then Ret.val else Ret.null

/-- The strings of an IRI are C strings (no NUL inside), and a cached connection part is
the one `_iri_build_connection_part` builds. -/
def MGET_IRI.wf (iri : MGET_IRI) : Prop :=
  (∀ c ∈ iri.scheme.text, c ≠ 0) ∧ (∀ c ∈ iri.host.getD [], c ≠ 0) ∧
  (∀ c ∈ iri.port.getD [], c ≠ 0) ∧ (∀ c ∈ iri.path.getD [], c ≠ 0) ∧
  (iri.connection_part = none ∨ iri.connection_part = _iri_build_connection_part iri)

instance (iri : MGET_IRI) : Decidable iri.wf := by unfold MGET_IRI.wf; infer_instance

/-- The text is a scheme name as `mget_iri_parse` takes one: it is not empty and has no
gen-delim. -/
def scheme_name (s : List Nat) : Prop := s ≠ [] ∧ ∀ c ∈ s, _iri_isgendelim c = false

/-- The string is an absolute URI in the sense of the specification: it begins with a
non-empty scheme name followed by `:`, that is, its first gen-delim is a `:` and does not
come first. -/
def absolute_uri (s : List Nat) : Prop :=
  s.takeWhile (fun c => !_iri_isgendelim c) ≠ [] ∧
    (s.dropWhile (fun c => !_iri_isgendelim c)).head? = some 58

instance (s : List Nat) : Decidable (scheme_name s) := by unfold scheme_name; infer_instance

instance (s : List Nat) : Decidable (absolute_uri s) := by unfold absolute_uri; infer_instance

/-! ## Views of an IRI: host, local path, file name, comparison -/

/-- `strcmp` on two C strings; the bytes compare as `unsigned char`. -/
def strcmp : List Nat → List Nat → Int
  | [], [] => 0
  | [], b :: _ => 0 - (b : Int)
  | a :: _, [] => (a : Int)
  | a :: as, b :: bs => if a = b then strcmp as bs else (a : Int) - (b : Int)

/-- Modelled from the spec: `mget_strcmp` is outside the sources; it is the `strcmp` that
accepts NULL pointers ("NULLs treated consistently"): two NULLs are equal and NULL comes
before every string. -/
def mget_strcmp : Option (List Nat) → Option (List Nat) → Int
  | none, none => 0
  | none, some _ => -1
  | some _, none => 1
  | some a, some b => strcmp a b

/-- Modelled from the spec: `mget_strcasecmp` is outside the sources; it is the
`strcasecmp` that accepts NULL pointers in the same way as `mget_strcmp`. -/
def mget_strcasecmp : Option (List Nat) → Option (List Nat) → Int
  | none, none => 0
  | none, some _ => -1
  | some _, none => 1
  | some a, some b => strcasecmp a b

/-- `mget_utf8_to_str`. -/
def mget_utf8_to_str (env : Env) (src : List Nat) (encoding : Option (List Nat)) :
    Option (List Nat) :=
  mget_charset_transcode env src (some (str "utf-8")) encoding

/-- `mget_iri_get_escaped_host(iri, buf)`: the buffer after the call; `none` stands for
the read through a NULL `host`. -/
def mget_iri_get_escaped_host (iri : MGET_IRI) (buf : mget_buffer_t) :
    Option mget_buffer_t :=
  match iri.host with
  | some host => some (mget_iri_escape host buf)
  | none => none

/-- `mget_iri_get_path(iri, buf, encoding)`: the buffer after the call.  `default_page` is
the global of that name (`none` is NULL); `default_page_length` is its `strlen`, as
`mget_iri_set_defaultpage` keeps it. -/
def mget_iri_get_path (env : Env) (default_page : Option (List Nat)) (iri : MGET_IRI)
    (buf : mget_buffer_t) (encoding : Option (List Nat)) : mget_buffer_t :=
  let b0 := if buf.length ≠ 0 then mget_buffer_memcat buf (str "/") else buf
  let b1 := match iri.path with
    | some path =>
      if mget_strcasecmp encoding (some (str "utf-8")) ≠ 0 then
        match mget_utf8_to_str env (cstr path) encoding with
        | some fname => mget_buffer_strcat b0 fname
        | none => b0
      else mget_buffer_strcat b0 path
    | none => b0
  if (b1.length = 0 ∨ rd b1.data (b1.length - 1) = 47) ∧ default_page.isSome then
    mget_buffer_memcat b1 (cstr (default_page.getD []))
  else b1

/-- `mget_iri_get_query_as_filename(iri, buf, encoding)`: the buffer after the call.  The
loop that writes the query with "%2F" for each `/` runs when the query has a `/`; the
`mget_buffer_strcat(buf, query)` after it is not in an `else` branch. -/
def mget_iri_get_query_as_filename (env : Env) (iri : MGET_IRI) (buf : mget_buffer_t)
    (encoding : Option (List Nat)) : mget_buffer_t :=
  match iri.query with
  | some q =>
    let b0 := mget_buffer_memcat buf (str "?")
    let query : Option (List Nat) :=
      if mget_strcasecmp encoding (some (str "utf-8")) ≠ 0 then
        mget_utf8_to_str env (cstr q) encoding
      else some q
    match query with
    | some query =>
      -- count slashes in query string
      let slashes := (cstr query).count 47
      let b1 :=
        if slashes ≠ 0 then
          escape_loop (fun c => c != 47) (fun b _ => mget_buffer_memcat b (str "%2F"))
            (cstr query) [] b0
        else b0
      mget_buffer_strcat b1 query
    | none => b0
  | none => buf

/-- `mget_iri_get_filename(iri, buf, encoding)`: the buffer after the call.  `fname` is
what follows the last `/` of the path (`strrchr`), or the whole path when it has none. -/
def mget_iri_get_filename (env : Env) (default_page : Option (List Nat)) (iri : MGET_IRI)
    (buf : mget_buffer_t) (encoding : Option (List Nat)) : mget_buffer_t :=
  let b1 := match iri.path with
    | some path =>
      let fname := match splitLast 47 (cstr path) with
        | some (_, f) => f
        | none => cstr path
      if mget_strcasecmp encoding (some (str "utf-8")) ≠ 0 then
        match mget_utf8_to_str env fname encoding with
        | some fname => mget_buffer_strcat buf fname
        | none => buf
      else mget_buffer_strcat buf fname
    | none => buf
  let b2 :=
    if (b1.length = 0 ∨ rd b1.data (b1.length - 1) = 47) ∧ default_page.isSome then
      mget_buffer_memcat b1 (cstr (default_page.getD []))
    else b1
  mget_iri_get_query_as_filename env iri b2 encoding

/-- The value of a `scheme` pointer: one of the interned strings of `iri_schemes` (index
0 is `IRI_SCHEME_HTTP`, index 1 `IRI_SCHEME_HTTPS`), or a pointer into the memory block of
the IRI object at the given address, where the parser leaves the name of any other
scheme. -/
inductive SchemePtr where
  | interned (index : Nat)
  | inside (object : Nat)
  deriving DecidableEq, Repr

/-- The `scheme` pointer of the IRI object at address `object`. -/
def scheme_ptr (object : Nat) : Scheme → SchemePtr
  | .http => .interned 0
  | .https => .interned 1
  | .other _ => .inside object

/-- `mget_iri_compare(iri1, iri2)` for the IRI objects at addresses `a1` and `a2`;
`before p q` is the order `p < q` of two pointers in memory, and `none` stands for the
read through a NULL `host`.  The test `iri1->port != iri2->port` only skips a comparison
of a string with itself, so the ports are compared as strings. -/
def mget_iri_compare (before : SchemePtr → SchemePtr → Bool) (a1 : Nat) (iri1 : MGET_IRI)
    (a2 : Nat) (iri2 : MGET_IRI) : Option Int :=
  if mget_strcasecmp iri1.path iri2.path ≠ 0 then
    some (mget_strcasecmp iri1.path iri2.path)
  else if mget_strcasecmp iri1.query iri2.query ≠ 0 then
    some (mget_strcasecmp iri1.query iri2.query)
  else if scheme_ptr a1 iri1.scheme ≠ scheme_ptr a2 iri2.scheme then
    some (if before (scheme_ptr a1 iri1.scheme) (scheme_ptr a2 iri2.scheme) then -1 else 1)
  else if mget_strcmp iri1.port iri2.port ≠ 0 then
    some (mget_strcmp iri1.port iri2.port)
  else
    match iri1.host, iri2.host with
    | some h1, some h2 => some (strcmp h1 h2)
    | _, _ => none

/-- The reconstruction "scheme://" + host + "/" + escaped_resource that the
specification describes, from a parsed IRI (the text of a NULL host is taken to be
empty). -/
def rebuild_url (iri : MGET_IRI) : List Nat :=
  iri.scheme.text ++ str "://" ++ iri.host.getD [] ++ str "/" ++
    (mget_iri_get_escaped_resource iri mget_buffer_t.empty).data

/-! ## The robots.txt parser (`libwget/robots.c`)

`data` is the text from the current position to the terminating NUL. -/

/-- Modelled from the spec: `wget_strncasecmp_ascii(s1, s2, n)` is outside the sources;
it compares at most `n` bytes of two C strings without regard to the case of ASCII
letters, as `strncasecmp` does in the C locale. -/
def wget_strncasecmp_ascii : List Nat → List Nat → Nat → Int
  | _, _, 0 => 0
  | [], [], _ + 1 => 0
  | [], b :: _, _ + 1 => 0 - (lower b : Int)
  | a :: _, [], _ + 1 => (lower a : Int)
  | a :: as, b :: bs, n + 1 =>
    if lower a = lower b then wget_strncasecmp_ascii as bs n
    else (lower a : Int) - (lower b : Int)

/-- An entry of `robots->paths`. -/
structure ROBOTS_PATH where
  path : List Nat
  len : Nat
  deriving DecidableEq, Repr

/-- The two vectors of a `ROBOTS` value.  A vector that was never created, or that was
freed, is a NULL pointer; it is the empty list here. -/
structure ROBOTS where
  paths : List ROBOTS_PATH
  sitemaps : List (List Nat)
  deriving DecidableEq, Repr

/-- The variables of the loop of `wget_robots_parse`: `collect` and the two vectors. -/
structure RobotsState where
  collect : Nat
  paths : List ROBOTS_PATH
  sitemaps : List (List Nat)
  deriving DecidableEq, Repr

/-- The scan `for (data += n; *data == ' ' || *data == '\t'; data++);`. -/
def skip_blanks (n : Nat) (data : List Nat) : List Nat :=
  (data.drop n).dropWhile (fun c => c == 32 || c == 9)

/-- The scan `for (p = data; *p && !isspace(*p); p++);`: the bytes from `data` to `p`. -/
def token (data : List Nat) : List Nat := data.takeWhile (fun c => !isspace c)

/-- The test of a "User-agent:" line against the client, on the text after the blanks:
`client && !wget_strncasecmp_ascii(data, client, client_length)`, or `*data == '*'`. -/
def agent_test (client : Option (List Nat)) (data : List Nat) : Bool :=
  (match client with
    | some client => decide (wget_strncasecmp_ascii data client client.length = 0)
    | none => false) || data.headD 0 == 42

/-- The body of the loop of `wget_robots_parse` up to the search for the next line: the
new state and the new value of `data`. -/
def robots_line (client : Option (List Nat)) (st : RobotsState) (data : List Nat) :
    RobotsState × List Nat :=
  if st.collect < 2 ∧ wget_strncasecmp_ascii data (str "User-agent:") 11 = 0 then
    if st.collect = 0 then
      let data := skip_blanks 11 data
      if agent_test client data then (⟨1, st.paths, st.sitemaps⟩, data)
      else (st, data)
    else (⟨2, st.paths, st.sitemaps⟩, data)
  else if st.collect = 1 ∧ wget_strncasecmp_ascii data (str "Disallow:") 9 = 0 then
    let data := skip_blanks 9 data
    if data.headD 0 = 13 ∨ data.headD 0 = 10 ∨ data.headD 0 = 0 then
      -- all allowed
      (⟨2, [], st.sitemaps⟩, data)
    else
      (⟨st.collect, st.paths ++ [⟨token data, (token data).length⟩], st.sitemaps⟩, data)
  else if wget_strncasecmp_ascii data (str "Sitemap:") 8 = 0 then
    let data := skip_blanks 8 data
    (⟨st.collect, st.paths, st.sitemaps ++ [token data]⟩, data)
  else (st, data)

/-- The `do ... while (data && *data)` loop of `wget_robots_parse`, with a bound on the
number of rounds: after the body, `data` moves behind the next line feed
(`strchr(data, '\n')`), and the loop ends when there is none or nothing follows it. -/
def robots_loop (client : Option (List Nat)) : Nat → RobotsState → List Nat → RobotsState
  | 0, st, _ => st
  | fuel + 1, st, data =>
    let r := robots_line client st data
    let nl := r.2.dropWhile (fun c => c != 10)
    if nl = [] then r.1
    else if nl.tail = [] then r.1
    else robots_loop client fuel r.1 nl.tail

/-- `wget_robots_parse(data, client)`; `none` is NULL.  Every round of the loop moves
`data` forward, so `strlen(data)` rounds are enough. -/
def wget_robots_parse (data : Option (List Nat)) (client : Option (List Nat)) :
    Option ROBOTS :=
  match data with
  | none => none
  | some data =>
    if cstr data = [] then none
    else
      let st := robots_loop (client.map cstr) (cstr data).length ⟨0, [], []⟩ (cstr data)
      some ⟨st.paths, st.sitemaps⟩

/-! ### The terms in which the specification describes a robots.txt body -/

/-- The lines of a text: the pieces between line feeds (nothing after the last line feed
is not a line). -/
def lines : List Nat → List (List Nat)
  | [] => []
  | c :: s =>
    if c = 10 then [] :: lines s
    else
      match lines s with
      | [] => [[c]]
      | l :: ls => (c :: l) :: ls

/-- The line starts with the directive, letters compared without regard to case. -/
def starts_with (directive line : List Nat) : Bool :=
  decide ((line.take directive.length).map lower = directive.map lower)

/-- The value of a directive line: what follows the directive and the blanks after it. -/
def directive_rest (directive line : List Nat) : List Nat :=
  (line.drop directive.length).dropWhile (fun c => c == 32 || c == 9)

/-- The whitespace-delimited value of a directive line: its value up to the first white
space. -/
def directive_value (directive line : List Nat) : List Nat :=
  (directive_rest directive line).takeWhile (fun c => !isspace c)

/-- The line is a "User-agent:" line for the client: its value has the client name as a
prefix, letters compared without regard to case, or starts with `*`. -/
def agent_matches (client : Option (List Nat)) (line : List Nat) : Bool :=
  starts_with (str "User-agent:") line &&
    ((match client with
      | some client => starts_with client (directive_rest (str "User-agent:") line)
      | none => false) || (directive_rest (str "User-agent:") line).headD 0 == 42)

/-- The line is a "Disallow:" line with an empty value: after the blanks the line ends,
or a carriage return follows. -/
def disallow_empty (line : List Nat) : Bool :=
  starts_with (str "Disallow:") line &&
    (directive_rest (str "Disallow:") line == [] ||
      (directive_rest (str "Disallow:") line).headD 0 == 13)

/-- The collected block: the lines after the first "User-agent:" line for the client and
before the next "User-agent:" line. -/
def collected_block (client : Option (List Nat)) (ls : List (List Nat)) :
    List (List Nat) :=
  ((ls.dropWhile (fun l => !agent_matches client l)).drop 1).takeWhile
    (fun l => !starts_with (str "User-agent:") l)

/-- The effect of one line on the variables of the loop, in terms of the line alone;
`named` says whether a "User-agent:" line is one for the client. -/
def line_step (named : Bool) (st : RobotsState) (line : List Nat) : RobotsState :=
  if st.collect < 2 ∧ starts_with (str "User-agent:") line = true then
    if st.collect = 0 then
      if named then ⟨1, st.paths, st.sitemaps⟩ else st
    else ⟨2, st.paths, st.sitemaps⟩
  else if st.collect = 1 ∧ starts_with (str "Disallow:") line = true then
    if disallow_empty line then ⟨2, [], st.sitemaps⟩
    else ⟨st.collect, st.paths ++ [⟨directive_value (str "Disallow:") line,
      (directive_value (str "Disallow:") line).length⟩], st.sitemaps⟩
  else if starts_with (str "Sitemap:") line = true then
    ⟨st.collect, st.paths, st.sitemaps ++ [directive_value (str "Sitemap:") line]⟩
  else st

/-! ## Theorems -/

/-- C3 (as stated, refuted): parsing "http://Example.COM/a/../b" does not give an IRI
whose path is "b". -/
theorem parse_dotdot_path_not_collapsed :
    ¬ ∃ iri, mget_iri_parse Env.plain (str "http://Example.COM/a/../b") none = some iri ∧
      iri.scheme = Scheme.http ∧ iri.host = some (str "example.com") ∧
      iri.path = some (str "b") ∧ iri.resolv_port = some (str "80") ∧ iri.port = none := by
  rintro ⟨iri, h, -, -, hp, -⟩
  have e : mget_iri_parse Env.plain (str "http://Example.COM/a/../b") none =
      some ⟨str "http://Example.COM/a/../b", Scheme.http, none, some (str "example.com"),
        none, some (str "80"), some (str "a/../b"), none, none, none, false⟩ := by decide
  rw [e] at h
  cases h
  exact absurd hp (by decide)

/-- C3 (amended): parsing "http://Example.COM/a/../b" succeeds with scheme http, host
"example.com", resolv_port "80", no port, and the path stored as written, "a/../b": the
parser does not collapse dot segments. -/
theorem parse_dotdot_path_verbatim (env : Env) (encoding : Option (List Nat)) :
    mget_iri_parse env (str "http://Example.COM/a/../b") encoding =
      some ⟨str "http://Example.COM/a/../b", Scheme.http, none, some (str "example.com"),
        none, some (str "80"), some (str "a/../b"), none, none, none, false⟩ := by
  rfl

/-- C1 (code defect): "http://example.com/foo%41%7a" unescapes to the pure ASCII
"http://example.com/fooAz", but the parser stores the path "foo%41%7a" where parsing the
unescaped URL stores "fooAz"; and "http://example.com/foo%3fbar" is stored with path
"foo%3fbar" and no query, where the unescaped URL has path "foo" and query "bar". -/
theorem parse_percent_escapes_kept (env : Env) (encoding : Option (List Nat)) :
    cstr (_unescape (str "http://example.com/foo%41%7a")).1 = str "http://example.com/fooAz" ∧
    (mget_iri_parse env (str "http://example.com/foo%41%7a") encoding).map (fun i => i.path)
      = some (some (str "foo%41%7a")) ∧
    (mget_iri_parse env (str "http://example.com/fooAz") encoding).map (fun i => i.path)
      = some (some (str "fooAz")) ∧
    cstr (_unescape (str "http://example.com/foo%3fbar")).1 = str "http://example.com/foo?bar" ∧
    (mget_iri_parse env (str "http://example.com/foo%3fbar") encoding).map
      (fun i => (i.path, i.query)) = some (some (str "foo%3fbar"), none) ∧
    (mget_iri_parse env (str "http://example.com/foo?bar") encoding).map
      (fun i => (i.path, i.query)) = some (some (str "foo"), some (str "bar")) :=
  ⟨rfl, rfl, rfl, rfl, rfl, rfl⟩

/-- C4 (code defect): "http://:8080/x" has an empty host, yet the parser returns an IRI
for it, with scheme http, the empty string as host and port "8080"; likewise "http://@/"
is returned with an empty userinfo and an empty host.  Only an empty authority, as in
"http:///x", is rejected. -/
theorem parse_http_empty_host_accepted (env : Env) (encoding : Option (List Nat)) :
    mget_iri_parse env (str "http://:8080/x") encoding =
      some ⟨str "http://:8080/x", Scheme.http, none, some [], some (str "8080"),
        some (str "8080"), some (str "x"), none, none, none, false⟩ ∧
    mget_iri_parse env (str "http://@/") encoding =
      some ⟨str "http://@/", Scheme.http, some [], some [], none,
        some (str "80"), some [], none, none, none, false⟩ ∧
    mget_iri_parse env (str "http:///x") encoding = none :=
  ⟨rfl, rfl, rfl⟩

/-- C9 (code defect): `_normalize_path` turns "a/../.b" into "/.b", and "/.b" into ".b":
applying it twice does not give the result of applying it once. -/
theorem normalize_not_idempotent :
    normalize (str "a/../.b") = str "/.b" ∧
    normalize (normalize (str "a/../.b")) = str ".b" ∧
    normalize (normalize (str "a/../.b")) ≠ normalize (str "a/../.b") := by
  decide

/-- C10 (code defect): `_normalize_path` leaves "a/..?x" as it is, so the path portion
"a/.." of the result still has the segment ".."; likewise "./.?x" becomes ".?x", whose
path portion is the segment ".". -/
theorem normalize_keeps_dot_segment_before_query :
    normalize (str "a/..?x") = str "a/..?x" ∧
    str ".." ∈ path_segments (_normalize_path (str "a/..?x")).1 ∧
    normalize (str "./.?x") = str ".?x" ∧
    str "." ∈ path_segments (_normalize_path (str "./.?x")).1 := by
  decide

/-! ### Host case -/

theorem lower_not_upper (c : Nat) : ¬ (65 ≤ lower c ∧ lower c ≤ 90) := by
  unfold lower
  split <;> omega

theorem iri_host_not_allocated (env : Env) (h : List Nat)
    (hidn : (iri_host env h).2 = false) : (iri_host env h).1 = h.map lower := by
  unfold iri_host at hidn ⊢
  simp only at hidn ⊢
  by_cases hn : mget_str_needs_encoding (List.map lower h) = true
  · rw [if_pos hn] at hidn ⊢
    cases hi : env.idn_to_ascii (List.map lower h) with
    | none => rfl
    | some a => rw [hi] at hidn; cases hidn
  · rw [if_neg hn]

/-- C5: whenever `mget_iri_parse` succeeds with a host present and the IDN conversion was
not applied (`host_allocated` is not set), the stored host has no byte in 'A'..'Z'. -/
theorem parse_host_has_no_uppercase (env : Env) (url : List Nat)
    (encoding : Option (List Nat)) (iri : MGET_IRI) (host : List Nat)
    (hparse : mget_iri_parse env url encoding = some iri)
    (hhost : iri.host = some host) (hidn : iri.host_allocated = false) :
    ∀ c ∈ host, ¬ (65 ≤ c ∧ c ≤ 90) := by
  unfold mget_iri_parse at hparse
  split at hparse
  · cases hparse
  · rename_i u hu
    simp only at hparse
    split at hparse
    · rename_i h0 hh0
      cases hparse
      simp only at hhost hidn
      cases hhost
      rw [iri_host_not_allocated env h0 hidn]
      intro c hc
      rcases List.mem_map.1 hc with ⟨d, -, rfl⟩
      exact lower_not_upper d
    · split at hparse
      · cases hparse
      · cases hparse
        cases hhost

/-- Witness of C5 on "http://Example.COM/a/../b": the stored host "example.com" has no
byte in 'A'..'Z'. -/
theorem parse_host_has_no_uppercase_witness :
    ¬ ∃ c ∈ str "example.com", 65 ≤ c ∧ c ≤ 90 :=
  fun ⟨c, hc, hu⟩ =>
    parse_host_has_no_uppercase Env.plain (str "http://Example.COM/a/../b") none
      ⟨str "http://Example.COM/a/../b", Scheme.http, none, some (str "example.com"),
        none, some (str "80"), some (str "a/../b"), none, none, none, false⟩
      (str "example.com") (by decide) rfl rfl c hc hu

/-! ### Port and default port -/

theorem iri_scheme_default_port (url : List Nat) :
    ((iri_scheme url).1 = Scheme.http → (iri_scheme url).2.1 = some (str "80")) ∧
    ((iri_scheme url).1 = Scheme.https → (iri_scheme url).2.1 = some (str "443")) := by
  unfold iri_scheme
  simp only
  split_ifs <;> simp

theorem auth_port_differs (d s p : List Nat) (h : auth_port (some d) s = some p) :
    p ≠ d ∧ atoi p ≠ atoi d := by
  unfold auth_port at h
  split at h
  · rename_i h2
    simp only [Option.some.injEq] at h
    subst h
    rcases h2 with ⟨-, -, h3⟩
    rcases h3 with h3 | h3
    · cases h3
    · simpa using h3
  · cases h

theorem iri_authority_port (d authority p : List Nat)
    (h : (iri_authority (some d) authority).port = some p) : p ≠ d ∧ atoi p ≠ atoi d := by
  unfold iri_authority at h
  split at h
  · cases h
  · exact auth_port_differs d _ p h

theorem parse_fields (env : Env) (url : List Nat) (encoding : Option (List Nat))
    (iri : MGET_IRI) (hparse : mget_iri_parse env url encoding = some iri) :
    ∃ u, iri_prepare env url encoding = some u ∧ iri.uri = u ∧
      iri.scheme = (iri_scheme u).1 ∧
      iri.port = (iri_authority (iri_scheme u).2.1 (iri_split (iri_scheme u).2.2).authority).port ∧
      iri.path = (iri_split (iri_scheme u).2.2).path ∧
      iri.query = (iri_split (iri_scheme u).2.2).query ∧
      iri.fragment = (iri_split (iri_scheme u).2.2).fragment := by
  unfold mget_iri_parse at hparse
  split at hparse
  · cases hparse
  · rename_i u hu
    refine ⟨u, hu, ?_⟩
    simp only at hparse
    split at hparse
    · cases hparse
      exact ⟨rfl, rfl, rfl, rfl, rfl, rfl⟩
    · split at hparse
      · cases hparse
      · cases hparse
        exact ⟨rfl, rfl, rfl, rfl, rfl, rfl⟩

/-- C6: whenever `mget_iri_parse` succeeds with scheme http or https and stores a port,
that port differs from the default port of the scheme ("80", "443") both as a string and
as an integer; and "https://example.com:443/x" is parsed with no port and resolv_port
"443". -/
theorem parse_port_differs_from_default (env : Env) (url : List Nat)
    (encoding : Option (List Nat)) (iri : MGET_IRI) (port : List Nat)
    (hparse : mget_iri_parse env url encoding = some iri)
    (hport : iri.port = some port) :
    (iri.scheme = Scheme.http → port ≠ str "80" ∧ atoi port ≠ 80) ∧
    (iri.scheme = Scheme.https → port ≠ str "443" ∧ atoi port ≠ 443) ∧
    (mget_iri_parse env (str "https://example.com:443/x") encoding).map
      (fun i => (i.port, i.resolv_port)) = some (none, some (str "443")) := by
  obtain ⟨u, -, -, hs, hp, -⟩ := parse_fields env url encoding iri hparse
  rw [hp] at hport
  rw [hs]
  refine ⟨fun h => ?_, fun h => ?_, rfl⟩
  · rw [(iri_scheme_default_port u).1 h] at hport
    exact iri_authority_port _ _ _ hport
  · rw [(iri_scheme_default_port u).2 h] at hport
    exact iri_authority_port _ _ _ hport

/-- Witness of C6 on "http://example.com:8080/", whose port "8080" is stored. -/
theorem parse_port_differs_from_default_witness :
    (Scheme.http = Scheme.http → str "8080" ≠ str "80" ∧ atoi (str "8080") ≠ 80) ∧
    (Scheme.http = Scheme.https → str "8080" ≠ str "443" ∧ atoi (str "8080") ≠ 443) ∧
    (mget_iri_parse Env.plain (str "https://example.com:443/x") none).map
      (fun i => (i.port, i.resolv_port)) = some (none, some (str "443")) :=
  parse_port_differs_from_default Env.plain (str "http://example.com:8080/") none
    ⟨str "http://example.com:8080/", Scheme.http, none, some (str "example.com"),
      some (str "8080"), some (str "8080"), some [], none, none, none, false⟩
    (str "8080") (by decide) rfl

/-- What the host check of the parser does guarantee: an IRI returned with scheme http
or https has a host pointer that is not NULL (the host text may be empty). -/
theorem parse_http_host_present (env : Env) (url : List Nat)
    (encoding : Option (List Nat)) (iri : MGET_IRI)
    (hparse : mget_iri_parse env url encoding = some iri)
    (hs : iri.scheme = Scheme.http ∨ iri.scheme = Scheme.https) : iri.host ≠ none := by
  unfold mget_iri_parse at hparse
  split at hparse
  · cases hparse
  · simp only at hparse
    split at hparse
    · cases hparse
      simp
    · split at hparse
      · cases hparse
      · rename_i hn
        cases hparse
        exact absurd hs hn

/-! ### Scanning lemmas -/

theorem takeWhile_append_stop (p : Nat → Bool) (l₁ : List Nat) (c : Nat) (l₂ : List Nat)
    (h1 : ∀ x ∈ l₁, p x = true) (hc : p c = false) :
    (l₁ ++ c :: l₂).takeWhile p = l₁ := by
  induction l₁ with
  | nil => simp [List.takeWhile, hc]
  | cons a l ih =>
    have ha : p a = true := h1 a (List.mem_cons_self _ _)
    simp only [List.cons_append, List.takeWhile_cons, ha, if_true]
    rw [ih (fun x hx => h1 x (List.mem_cons_of_mem _ hx))]

theorem dropWhile_append_stop (p : Nat → Bool) (l₁ : List Nat) (c : Nat) (l₂ : List Nat)
    (h1 : ∀ x ∈ l₁, p x = true) (hc : p c = false) :
    (l₁ ++ c :: l₂).dropWhile p = c :: l₂ := by
  induction l₁ with
  | nil => simp [List.dropWhile, hc]
  | cons a l ih =>
    have ha : p a = true := h1 a (List.mem_cons_self _ _)
    simp only [List.cons_append, List.dropWhile_cons, ha, if_true]
    exact ih (fun x hx => h1 x (List.mem_cons_of_mem _ hx))

theorem takeWhile_all (p : Nat → Bool) (l : List Nat) (h : ∀ x ∈ l, p x = true) :
    l.takeWhile p = l := by
  induction l with
  | nil => rfl
  | cons a l ih =>
    have ha : p a = true := h a (List.mem_cons_self _ _)
    simp only [List.takeWhile_cons, ha, if_true]
    rw [ih (fun x hx => h x (List.mem_cons_of_mem _ hx))]

theorem dropWhile_all (p : Nat → Bool) (l : List Nat) (h : ∀ x ∈ l, p x = true) :
    l.dropWhile p = [] := by
  induction l with
  | nil => rfl
  | cons a l ih =>
    have ha : p a = true := h a (List.mem_cons_self _ _)
    simp only [List.dropWhile_cons, ha, if_true]
    exact ih (fun x hx => h x (List.mem_cons_of_mem _ hx))

theorem contains_false (l : List Nat) (c : Nat) (h : ∀ x ∈ l, x ≠ c) :
    l.contains c = false := by
  induction l with
  | nil => rfl
  | cons a l ih =>
    have ha : a ≠ c := h a (List.mem_cons_self _ _)
    have hl := ih (fun x hx => h x (List.mem_cons_of_mem _ hx))
    simp only [List.contains_cons, hl, Bool.or_false]
    simpa using fun e => ha e.symm

theorem cstr_of_no_nul (l : List Nat) (h : ∀ x ∈ l, x ≠ 0) : cstr l = l := by
  unfold cstr
  exact takeWhile_all _ l (fun x hx => by simpa using h x hx)

theorem needs_encoding_ascii (l : List Nat) (h : ∀ x ∈ l, 0 < x ∧ x < 128) :
    mget_str_needs_encoding l = false := by
  unfold mget_str_needs_encoding
  rw [dropWhile_all _ l]
  intro x hx
  have := h x hx
  unfold schar
  simp only [decide_eq_true_eq]
  split <;> omega

theorem unescape_no_percent (l : List Nat) (h : ∀ x ∈ l, x ≠ 37) :
    (_unescape l).1 = l := by
  match l with
  | [] => rfl
  | [c] => rfl
  | [c, a] => rfl
  | c :: a :: b :: rest =>
    have hc : c ≠ 37 := h c (List.mem_cons_self _ _)
    have ih := unescape_no_percent (a :: b :: rest)
      (fun x hx => h x (List.mem_cons_of_mem _ hx))
    unfold _unescape
    simp only [hc, false_and, if_false]
    rw [ih]

/-! ### The stages of the parser on well-behaved input -/

theorem iri_prepare_no_conversion (env : Env) (url : List Nat)
    (encoding : Option (List Nat)) (h0 : ∀ x ∈ url, x ≠ 0)
    (hsp : url.dropWhile isspace = url) (hne : url ≠ [])
    (h1 : mget_str_needs_encoding url = false)
    (h2 : mget_str_needs_encoding (cstr (_unescape url).1) = false) :
    iri_prepare env url encoding = some url := by
  unfold iri_prepare
  simp only [cstr_of_no_nul url h0, hsp, hne, if_false, h1, h2]
  simp

theorem iri_scheme_http (r : List Nat) :
    iri_scheme (str "http://" ++ r) = (Scheme.http, some (str "80"), r) := by
  have e : str "http://" ++ r = 104 :: 116 :: 116 :: 112 :: 58 :: 47 :: 47 :: r := rfl
  have e2 : strcasecmp (str "http") [104, 116, 116, 112] = 0 := by decide
  rw [e]
  unfold iri_scheme
  simp [_iri_isgendelim, e2]

theorem iri_split_full (a p q f : List Nat)
    (ha : avoids a [47, 63, 35]) (hp : avoids p [63, 35]) (hq : avoids q [35]) :
    iri_split (a ++ 47 :: (p ++ 63 :: (q ++ 35 :: f))) = ⟨a, some p, some q, some f⟩ := by
  have ha2 : ∀ x ∈ a, (x != 47 && x != 63 && x != 35) = true := by
    intro x hx
    have := ha x hx
    simp only [List.mem_cons, List.mem_singleton, not_or, List.not_mem_nil,
      or_false] at this
    simp [this.1, this.2.1, this.2.2]
  have hp2 : ∀ x ∈ p, (x != 63 && x != 35) = true := by
    intro x hx
    have := hp x hx
    simp only [List.mem_cons, List.mem_singleton, not_or, List.not_mem_nil,
      or_false] at this
    simp [this.1, this.2]
  have hq2 : ∀ x ∈ q, (x != 35) = true := by
    intro x hx
    have := hq x hx
    simp only [List.mem_cons, List.mem_singleton, not_or, List.not_mem_nil,
      or_false] at this
    simp [this]
  unfold iri_split
  simp only
  rw [takeWhile_append_stop _ a 47 _ ha2 (by decide),
    dropWhile_append_stop _ a 47 _ ha2 (by decide)]
  simp only [List.headD_cons, List.tail_cons, if_true]
  rw [takeWhile_append_stop _ p 63 _ hp2 (by decide),
    dropWhile_append_stop _ p 63 _ hp2 (by decide)]
  simp only [List.headD_cons, List.tail_cons, if_true]
  rw [takeWhile_append_stop _ q 35 _ hq2 (by decide),
    dropWhile_append_stop _ q 35 _ hq2 (by decide)]
  simp only [List.headD_cons, List.tail_cons, if_true]

theorem headD_ne_of_forall (l : List Nat) (c : Nat) (hc : c ≠ 0) (h : ∀ x ∈ l, x ≠ c) :
    l.headD 0 ≠ c := by
  cases l with
  | nil => simpa using fun e => hc e.symm
  | cons a l => simpa using h a (List.mem_cons_self _ _)

theorem iri_authority_host_only (d : Option (List Nat)) (h : List Nat) (hne : h ≠ [])
    (hh : avoids h [64, 58, 91]) :
    iri_authority d h = ⟨none, some h, none⟩ := by
  have h64 : ∀ x ∈ h, x ≠ 64 := fun x hx e => hh x hx (by simp [e])
  have h58 : ∀ x ∈ h, x ≠ 58 := fun x hx e => hh x hx (by simp [e])
  have h91 : ∀ x ∈ h, x ≠ 91 := fun x hx e => hh x hx (by simp [e])
  have hd91 : h.headD 0 ≠ 91 := headD_ne_of_forall h 91 (by decide) h91
  have hc : h.contains 64 = false := contains_false h 64 h64
  have ht : h.takeWhile (fun c => c != 58) = h :=
    takeWhile_all _ h (fun x hx => by simpa using h58 x hx)
  have hdr : h.dropWhile (fun c => c != 58) = [] :=
    dropWhile_all _ h (fun x hx => by simpa using h58 x hx)
  have e1 : auth_after_userinfo h = h := by
    unfold auth_after_userinfo
    rw [hc]
    rfl
  have e2 : auth_host h = (h, []) := by
    unfold auth_host
    rw [if_neg hd91, ht, hdr]
  have e3 : auth_port d [] = none := by
    unfold auth_port
    rw [if_neg]
    rintro ⟨h1, -⟩
    exact absurd h1 (by decide)
  unfold iri_authority
  rw [if_neg hne, e1, e2, hc, e3]
  rfl

theorem lower_ascii (c : Nat) (h : 0 < c ∧ c < 128) : 0 < lower c ∧ lower c < 128 := by
  unfold lower
  split <;> omega

theorem iri_host_ascii (env : Env) (h : List Nat) (hh : ∀ x ∈ h, 0 < x ∧ x < 128) :
    iri_host env h = (h.map lower, false) := by
  have hn : mget_str_needs_encoding (h.map lower) = false := by
    apply needs_encoding_ascii
    intro x hx
    rcases List.mem_map.1 hx with ⟨y, hy, rfl⟩
    exact lower_ascii y (hh y hy)
  unfold iri_host
  simp [hn]

/-! ### Splitting an http URL into its components -/

/-- C2: for a non-empty host `H`, a path `P`, a query `Q` and a fragment `F` made of
ASCII bytes other than NUL and '%', where `H` has none of `/ ? # @ : [`, `P` has no `?`
or `#` and `Q` has no `#`, parsing "http://" + H + "/" + P + "?" + Q + "#" + F succeeds
with scheme http, host `H` lowercased, path `P`, query `Q`, fragment `F`, no userinfo and
no port (and resolv_port "80").  `P`, `Q` and `F` may also be empty. -/
theorem parse_http_url_components (env : Env) (encoding : Option (List Nat))
    (H P Q F : List Nat) (hH : H ≠ [])
    (aH : ascii_text H) (aP : ascii_text P) (aQ : ascii_text Q) (aF : ascii_text F)
    (dH : avoids H (str "/?#@:[")) (dP : avoids P (str "?#")) (dQ : avoids Q (str "#")) :
    mget_iri_parse env (str "http://" ++ H ++ str "/" ++ P ++ str "?" ++ Q ++ str "#" ++ F)
        encoding =
      some ⟨str "http://" ++ H ++ str "/" ++ P ++ str "?" ++ Q ++ str "#" ++ F,
        Scheme.http, none, some (H.map lower), none, some (str "80"),
        some P, some Q, some F, none, false⟩ := by
  have dH2 : avoids H [47, 63, 35, 64, 58, 91] := dH
  have dP2 : avoids P [63, 35] := dP
  have dQ2 : avoids Q [35] := dQ
  have eU : str "http://" ++ H ++ str "/" ++ P ++ str "?" ++ Q ++ str "#" ++ F =
      str "http://" ++ (H ++ 47 :: (P ++ 63 :: (Q ++ 35 :: F))) := by
    have e1 : str "/" = [47] := rfl
    have e2 : str "?" = [63] := rfl
    have e3 : str "#" = [35] := rfl
    rw [e1, e2, e3]
    simp only [List.append_assoc, List.singleton_append, List.cons_append, List.nil_append]
  rw [eU]
  have hpre : ∀ x ∈ str "http://", 0 < x ∧ x < 128 ∧ x ≠ 37 := by decide
  have hU : ∀ x ∈ str "http://" ++ (H ++ 47 :: (P ++ 63 :: (Q ++ 35 :: F))),
      0 < x ∧ x < 128 ∧ x ≠ 37 := by
    intro x hx
    simp only [List.mem_append, List.mem_cons] at hx
    rcases hx with hx | hx | hx | hx | hx | hx | hx | hx
    · exact hpre x hx
    · exact aH x hx
    · subst hx; decide
    · exact aP x hx
    · subst hx; decide
    · exact aQ x hx
    · subst hx; decide
    · exact aF x hx
  have h1 := needs_encoding_ascii _ (fun x hx => ⟨(hU x hx).1, (hU x hx).2.1⟩)
  have h0 : ∀ x ∈ str "http://" ++ (H ++ 47 :: (P ++ 63 :: (Q ++ 35 :: F))), x ≠ 0 :=
    fun x hx => Nat.pos_iff_ne_zero.1 (hU x hx).1
  have hprep := iri_prepare_no_conversion env _ encoding h0 rfl (by
      intro e
      have : (104 : Nat) ∈ str "http://" ++ (H ++ 47 :: (P ++ 63 :: (Q ++ 35 :: F))) :=
        List.mem_append_left _ (by decide)
      rw [e] at this
      cases this) h1 (by
      rw [unescape_no_percent _ (fun x hx => (hU x hx).2.2), cstr_of_no_nul _ h0]
      exact h1)
  have hauth := iri_authority_host_only (some (str "80")) H hH
    (fun x hx hm => dH2 x hx (by
      simp only [List.mem_cons, List.mem_singleton, List.not_mem_nil, or_false] at hm ⊢
      omega))
  have hsplit := iri_split_full H P Q F
    (fun x hx hm => dH2 x hx (by
      simp only [List.mem_cons, List.mem_singleton, List.not_mem_nil, or_false] at hm ⊢
      omega)) dP2 dQ2
  have hhost := iri_host_ascii env H (fun x hx => ⟨(aH x hx).1, (aH x hx).2.1⟩)
  unfold mget_iri_parse
  rw [hprep]
  simp only [iri_scheme_http, hsplit, hauth, hhost]
  rfl

/-- Witness of C2 on "http://Example.COM/a/b?x=1#top". -/
theorem parse_http_url_components_witness :
    mget_iri_parse Env.plain (str "http://" ++ str "Example.COM" ++ str "/" ++ str "a/b" ++
        str "?" ++ str "x=1" ++ str "#" ++ str "top") none =
      some ⟨str "http://" ++ str "Example.COM" ++ str "/" ++ str "a/b" ++ str "?" ++
          str "x=1" ++ str "#" ++ str "top",
        Scheme.http, none, some ((str "Example.COM").map lower), none, some (str "80"),
        some (str "a/b"), some (str "x=1"), some (str "top"), none, false⟩ :=
  parse_http_url_components Env.plain none (str "Example.COM") (str "a/b") (str "x=1")
    (str "top") (by decide) (by decide) (by decide) (by decide) (by decide) (by decide)
    (by decide) (by decide)

/-! ### The stored path -/

theorem span_decomp (p : Nat → Bool) (l : List Nat) :
    (∀ x ∈ l.takeWhile p, p x = true) ∧
    (l.dropWhile p = [] ∨ ∃ c t, l.dropWhile p = c :: t ∧ p c = false) := by
  induction l with
  | nil => exact ⟨fun x hx => (by cases hx), Or.inl rfl⟩
  | cons a l ih =>
    by_cases ha : p a = true
    · simp only [List.takeWhile_cons, List.dropWhile_cons, ha, if_true]
      refine ⟨fun x hx => ?_, ih.2⟩
      rcases List.mem_cons.1 hx with e | hx
      · rw [e]; exact ha
      · exact ih.1 x hx
    · simp only [List.takeWhile_cons, List.dropWhile_cons, ha]
      refine ⟨fun x hx => (by cases hx), Or.inr ⟨a, l, rfl, ?_⟩⟩
      simpa using ha

theorem iri_split_path (s p : List Nat) (h : (iri_split s).path = some p) :
    ∃ auth suf, s = auth ++ 47 :: (p ++ suf) ∧ avoids auth [47, 63, 35] ∧
      avoids p [63, 35] ∧ (suf = [] ∨ suf.head? = some 63 ∨ suf.head? = some 35) := by
  unfold iri_split at h
  simp only at h
  split at h
  swap
  · cases h
  rename_i hc
  simp only [Option.some.injEq] at h
  obtain ⟨hA, hD⟩ := span_decomp (fun c => c != 47 && c != 63 && c != 35) s
  have hs := (List.takeWhile_append_dropWhile (fun c => c != 47 && c != 63 && c != 35) s).symm
  rcases hD with hD | ⟨c, t, hD, -⟩
  · rw [hD] at hc
    exact absurd hc (by decide)
  rw [hD] at hc h hs
  simp only [List.headD_cons] at hc
  simp only [List.tail_cons] at h
  subst hc
  obtain ⟨hP, hS⟩ := span_decomp (fun c => c != 63 && c != 35) t
  have ht := (List.takeWhile_append_dropWhile (fun c => c != 63 && c != 35) t).symm
  rw [h] at hP ht
  refine ⟨List.takeWhile (fun c => c != 47 && c != 63 && c != 35) s,
    List.dropWhile (fun c => c != 63 && c != 35) t, ?_, ?_, ?_, ?_⟩
  · rw [← ht]
    exact hs
  · intro x hx
    have := hA x hx
    simp only [Bool.and_eq_true, bne_iff_ne, ne_eq] at this
    simp only [List.mem_cons, List.mem_singleton, List.not_mem_nil, or_false]
    omega
  · intro x hx
    have := hP x hx
    simp only [Bool.and_eq_true, bne_iff_ne, ne_eq] at this
    simp only [List.mem_cons, List.mem_singleton, List.not_mem_nil, or_false]
    omega
  · rcases hS with hS | ⟨c, t2, hS, hc⟩
    · exact Or.inl hS
    · right
      rw [hS]
      simp only [List.head?_cons, Option.some.injEq]
      simp only [Bool.and_eq_false_iff, bne_eq_false_iff_eq] at hc
      exact hc

/-- C7 (as stated, refuted): "http://example.com//foo" is parsed successfully and its
stored path, "/foo", begins with '/'. -/
theorem parse_path_may_begin_with_slash :
    ∃ iri p, mget_iri_parse Env.plain (str "http://example.com//foo") none = some iri ∧
      iri.path = some p ∧ p = str "/foo" ∧ p.head? = some 47 :=
  ⟨⟨str "http://example.com//foo", Scheme.http, none, some (str "example.com"), none,
      some (str "80"), some (str "/foo"), none, none, none, false⟩, str "/foo",
    by decide, rfl, rfl, rfl⟩

/-- C7 (amended): whenever `mget_iri_parse` succeeds with a path present, the text that
follows the scheme in the stored URI is an authority (without `/`, `?`, `#`), one '/',
the stored path (without `?`, `#`), and a rest that is empty or begins with `?` or `#`:
exactly one '/' is consumed as the delimiter, so the stored path begins with '/' only
when that '/' is directly followed by another one. -/
theorem parse_path_follows_authority_slash (env : Env) (url : List Nat)
    (encoding : Option (List Nat)) (iri : MGET_IRI) (path : List Nat)
    (hparse : mget_iri_parse env url encoding = some iri)
    (hpath : iri.path = some path) :
    ∃ auth suf, (iri_scheme iri.uri).2.2 = auth ++ 47 :: (path ++ suf) ∧
      avoids auth (str "/?#") ∧ avoids path (str "?#") ∧
      (suf = [] ∨ suf.head? = some 63 ∨ suf.head? = some 35) := by
  obtain ⟨u, -, hu, -, -, hp, -⟩ := parse_fields env url encoding iri hparse
  rw [hp] at hpath
  rw [hu]
  exact iri_split_path _ _ hpath

/-- Witness of C7 (amended) on "http://example.com//foo?q": the authority is
"example.com", the stored path "/foo" and the rest "?q". -/
theorem parse_path_follows_authority_slash_witness :
    ∃ auth suf, str "example.com//foo?q" = auth ++ 47 :: (str "/foo" ++ suf) ∧
      avoids auth (str "/?#") ∧ avoids (str "/foo") (str "?#") ∧
      (suf = [] ∨ suf.head? = some 63 ∨ suf.head? = some 35) :=
  parse_path_follows_authority_slash Env.plain (str "http://example.com//foo?q") none
    ⟨str "http://example.com//foo?q", Scheme.http, none, some (str "example.com"), none,
      some (str "80"), some (str "/foo"), some (str "q"), none, none, false⟩
    (str "/foo") (by decide) rfl

/-! ### Bracketed hosts -/

theorem splitLast_append (c : Nat) (a b : List Nat) (hb : ∀ x ∈ b, x ≠ c) :
    splitLast c (a ++ c :: b) = some (a, b) := by
  have hp : ∀ x ∈ b.reverse, (x != c) = true := by
    intro x hx
    simpa using hb x (List.mem_reverse.1 hx)
  have hr : (a ++ c :: b).reverse = b.reverse ++ c :: a.reverse := by simp
  have hc : (a ++ c :: b).contains c = true := by simp
  unfold splitLast
  rw [if_pos hc, hr, takeWhile_append_stop _ _ c _ hp (by simp),
    dropWhile_append_stop _ _ c _ hp (by simp)]
  simp

theorem iri_split_authority (a tail : List Nat) (ha : avoids a [47, 63, 35])
    (ht : tail = [] ∨ tail.head? = some 47 ∨ tail.head? = some 63 ∨ tail.head? = some 35) :
    (iri_split (a ++ tail)).authority = a := by
  have ha2 : ∀ x ∈ a, (x != 47 && x != 63 && x != 35) = true := by
    intro x hx
    have := ha x hx
    simp only [List.mem_cons, List.mem_singleton, not_or, List.not_mem_nil,
      or_false] at this
    simp [this.1, this.2.1, this.2.2]
  unfold iri_split
  simp only
  cases tail with
  | nil =>
    rw [List.append_nil]
    exact takeWhile_all _ a ha2
  | cons c t =>
    apply takeWhile_append_stop _ a c t ha2
    simp only [List.head?_cons, Option.some.injEq] at ht
    rcases ht with ht | ht | ht | ht
    · cases ht
    · subst ht; rfl
    · subst ht; rfl
    · subst ht; rfl

theorem iri_authority_bracket (d l port : List Nat)
    (hl : avoids l [64]) (hp : ∀ c ∈ port, isdigit c = true) (hne : port ≠ [])
    (hs : port ≠ d) (hi : atoi port ≠ atoi d) :
    iri_authority (some d) (91 :: (l ++ 93 :: 58 :: port)) =
      ⟨none, some l, some port⟩ := by
  have hdig : ∀ c ∈ port, 48 ≤ c ∧ c ≤ 57 := by
    intro c hc
    have := hp c hc
    unfold isdigit at this
    simpa using this
  have h64 : ∀ x ∈ 91 :: (l ++ 93 :: 58 :: port), x ≠ 64 := by
    intro x hx
    simp only [List.mem_cons, List.mem_append] at hx
    rcases hx with hx | hx | hx | hx | hx
    · omega
    · intro e
      exact hl x hx (by simp [e])
    · omega
    · omega
    · have := hdig x hx
      omega
  have hc := contains_false _ 64 h64
  have e1 : auth_after_userinfo (91 :: (l ++ 93 :: 58 :: port)) =
      91 :: (l ++ 93 :: 58 :: port) := by
    unfold auth_after_userinfo
    rw [hc]
    rfl
  have h93 : ∀ x ∈ 58 :: port, x ≠ 93 := by
    intro x hx
    rcases List.mem_cons.1 hx with hx | hx
    · omega
    · have := hdig x hx
      omega
  have e2 : auth_host (91 :: (l ++ 93 :: 58 :: port)) = (l, 58 :: port) := by
    unfold auth_host
    simp only [List.headD_cons, List.tail_cons, if_true]
    rw [splitLast_append 93 l (58 :: port) h93]
  have e3 : auth_port (some d) (58 :: port) = some port := by
    unfold auth_port
    rw [if_pos]
    · rfl
    · refine ⟨rfl, hne, Or.inr ⟨?_, hi⟩⟩
      simpa using hs
  unfold iri_authority
  rw [if_neg (by simp), e1, e2, hc, e3]
  rfl

/-- C8 (as stated, refuted): in "http://[%C3%A9]:8080/" (encoding "utf-8") the text
between the brackets is L = "%C3%A9", which has none of `/ ? # @`, and the port "8080" is
not 80; the stored host is the two bytes C3 A9 and not L with 'A'..'Z' lowercased.  And in
"http://[::1]:4294967376/" the digit string D = "4294967376" is not "80" and its decimal
value is not 80, but `atoi` reads it as 80, so no port is stored. -/
theorem parse_bracket_host_unescaped :
    avoids (str "%C3%A9") (str "/?#@") ∧
    (∃ iri, mget_iri_parse Env.plain (str "http://[" ++ str "%C3%A9" ++ str "]:" ++
        str "8080" ++ str "/") (some (str "utf-8")) = some iri ∧
      iri.host = some [195, 169] ∧ iri.host ≠ some ((str "%C3%A9").map lower)) ∧
    str "4294967376" ≠ str "80" ∧ decimal_value (str "4294967376") ≠ 80 ∧
    atoi (str "4294967376") = 80 ∧
    (mget_iri_parse Env.plain (str "http://[" ++ str "::1" ++ str "]:" ++
        str "4294967376" ++ str "/") none).map (fun iri => (iri.host, iri.port)) =
      some (some (str "::1"), none) :=
  ⟨by decide, ⟨⟨str "http://[" ++ [195, 169] ++ str "]:8080/", Scheme.http, none,
      some [195, 169], some (str "8080"), some (str "8080"), some [], none, none, none,
      false⟩, by decide, rfl, by decide⟩, by decide, by decide, by decide, by decide⟩

/-- C8 (amended): for every http URL made of ASCII bytes other than NUL and '%' whose
authority is "[" + L + "]:" + D, where L has none of `/ ? # @` and D is a non-empty digit
string that differs from "80" as text and that `atoi` does not read as 80 (`atoi` returns
an `int` of 32 bits, the low 32 bits of the decimal value), `mget_iri_parse` succeeds and
stores host = L with 'A'..'Z' lowercased and port = D.  The rest of the URL is empty or
begins with `/`, `?` or `#`. -/
theorem parse_bracket_host_port (env : Env) (encoding : Option (List Nat))
    (L D rest : List Nat) (aL : ascii_text L) (aR : ascii_text rest)
    (dL : avoids L (str "/?#@")) (hD : D ≠ []) (dD : ∀ c ∈ D, isdigit c = true)
    (hs : D ≠ str "80") (hi : atoi D ≠ 80)
    (hr : rest = [] ∨ rest.head? = some 47 ∨ rest.head? = some 63 ∨ rest.head? = some 35) :
    ∃ iri, mget_iri_parse env (str "http://" ++ str "[" ++ L ++ str "]:" ++ D ++ rest)
        encoding = some iri ∧
      iri.scheme = Scheme.http ∧ iri.host = some (L.map lower) ∧ iri.port = some D := by
  have dL2 : avoids L [47, 63, 35, 64] := dL
  have hdig : ∀ c ∈ D, 48 ≤ c ∧ c ≤ 57 := by
    intro c hc
    have := dD c hc
    unfold isdigit at this
    simpa using this
  have eU : str "http://" ++ str "[" ++ L ++ str "]:" ++ D ++ rest =
      str "http://" ++ ((91 :: (L ++ 93 :: 58 :: D)) ++ rest) := by
    have e1 : str "[" = [91] := rfl
    have e2 : str "]:" = [93, 58] := rfl
    rw [e1, e2]
    simp only [List.append_assoc, List.singleton_append, List.cons_append, List.nil_append]
  rw [eU]
  have hpre : ∀ x ∈ str "http://", 0 < x ∧ x < 128 ∧ x ≠ 37 := by decide
  have hA : ∀ x ∈ 91 :: (L ++ 93 :: 58 :: D),
      0 < x ∧ x < 128 ∧ x ≠ 37 ∧ x ≠ 47 ∧ x ≠ 63 ∧ x ≠ 35 := by
    intro x hx
    simp only [List.mem_cons, List.mem_append] at hx
    rcases hx with hx | hx | hx | hx | hx
    · omega
    · have h1 := aL x hx
      have h2 := dL2 x hx
      simp only [List.mem_cons, List.mem_singleton, List.not_mem_nil, or_false,
        not_or] at h2
      omega
    · omega
    · omega
    · have := hdig x hx
      omega
  have hU : ∀ x ∈ str "http://" ++ ((91 :: (L ++ 93 :: 58 :: D)) ++ rest),
      0 < x ∧ x < 128 ∧ x ≠ 37 := by
    intro x hx
    rcases List.mem_append.1 hx with hx | hx
    · exact hpre x hx
    rcases List.mem_append.1 hx with hx | hx
    · have := hA x hx
      omega
    · exact aR x hx
  have h1 := needs_encoding_ascii _ (fun x hx => ⟨(hU x hx).1, (hU x hx).2.1⟩)
  have h0 : ∀ x ∈ str "http://" ++ ((91 :: (L ++ 93 :: 58 :: D)) ++ rest), x ≠ 0 :=
    fun x hx => Nat.pos_iff_ne_zero.1 (hU x hx).1
  have hprep := iri_prepare_no_conversion env _ encoding h0 rfl (by
      intro e
      have : (104 : Nat) ∈ str "http://" ++ ((91 :: (L ++ 93 :: 58 :: D)) ++ rest) :=
        List.mem_append_left _ (by decide)
      rw [e] at this
      cases this) h1 (by
      rw [unescape_no_percent _ (fun x hx => (hU x hx).2.2), cstr_of_no_nul _ h0]
      exact h1)
  have hsplit := iri_split_authority (91 :: (L ++ 93 :: 58 :: D)) rest
    (fun x hx hm => by
      have := hA x hx
      simp only [List.mem_cons, List.mem_singleton, List.not_mem_nil, or_false] at hm
      omega) hr
  have hauth := iri_authority_bracket (str "80") L D
    (fun x hx hm => dL2 x hx (by
      simp only [List.mem_cons, List.mem_singleton, List.not_mem_nil, or_false] at hm ⊢
      omega)) dD hD hs hi
  have hhost := iri_host_ascii env L (fun x hx => ⟨(aL x hx).1, (aL x hx).2.1⟩)
  unfold mget_iri_parse
  rw [hprep]
  simp only [iri_scheme_http, hsplit, hauth, hhost]
  exact ⟨_, rfl, rfl, rfl, rfl⟩

/-- Witness of C8 (amended) on "http://[::1]:8080/": host "::1", port "8080". -/
theorem parse_bracket_host_port_witness :
    ∃ iri, mget_iri_parse Env.plain (str "http://" ++ str "[" ++ str "::1" ++ str "]:" ++
        str "8080" ++ str "/") none = some iri ∧
      iri.scheme = Scheme.http ∧ iri.host = some ((str "::1").map lower) ∧
      iri.port = some (str "8080") :=
  parse_bracket_host_port Env.plain none (str "::1") (str "8080") (str "/")
    (by decide) (by decide) (by decide) (by decide) (by decide) (by decide) (by decide)
    (by decide)

/-! ### The loops of `_normalize_path` run to their end -/

theorem rd_lt_of_ne_zero (buf : List Nat) (i : Nat) (h : rd buf i ≠ 0) : i < buf.length := by
  by_contra hlt
  apply h
  unfold rd
  simp [List.getD, List.getElem?_eq_none (Nat.le_of_not_lt hlt)]

theorem put_length (st : NState) (c : Nat) : (put st c).buf.length = st.buf.length := by
  simp [put]

theorem put_p2 (st : NState) (c : Nat) : (put st c).p2 = st.p2 := rfl

theorem skip_loop_stops (buf : List Nat) (fuel p2 : Nat) (h : buf.length < p2 + fuel) :
    ∃ q, skip_loop buf fuel p2 = q ∧ skip_loop buf 1 q = q := by
  induction fuel generalizing p2 with
  | zero =>
    have h0 : rd buf p2 = 0 := by
      by_contra hne
      have := rd_lt_of_ne_zero buf p2 hne
      omega
    exact ⟨p2, rfl, by simp [skip_loop, h0]⟩
  | succ n ih =>
    rw [skip_loop]
    split_ifs with h1 h2 h3 h4 h5 h6 h7
    · exact ih (p2 + 1) (by omega)
    · exact ih (p2 + 2) (by omega)
    · exact ih (p2 + 3) (by omega)
    · have := rd_lt_of_ne_zero buf (p2 + 1) (by omega)
      exact ih (p2 + 2) (by omega)
    · exact ⟨p2, rfl, by simp [skip_loop, h1, h2, h3, h4, h5, h6]⟩
    · exact ih (p2 + 1) (by omega)
    · exact ⟨p2, rfl, by simp [skip_loop, h1, h2, h3, h4, h7]⟩
    · exact ⟨p2, rfl, by simp [skip_loop, h1, h2]⟩

/-- With `buf.length + 1` rounds (counted from the current `p2`) the first loop of
`_normalize_path` stops by itself: one more round leaves `p2` where it is. -/
theorem skip_loop_done (buf : List Nat) (fuel p2 : Nat) (h : buf.length < p2 + fuel) :
    skip_loop buf 1 (skip_loop buf fuel p2) = skip_loop buf fuel p2 := by
  obtain ⟨q, hq, hq1⟩ := skip_loop_stops buf fuel p2 h
  rw [hq]
  exact hq1

/-- With more rounds than bytes left to read, the main loop of `_normalize_path` ends at a
byte that stops it: NUL, `?` or `#`. -/
theorem norm_loop_done (fuel : Nat) (st : NState) (h : st.buf.length < st.p2 + fuel) :
    rd (norm_loop fuel st).buf (norm_loop fuel st).p2 = 0 ∨
    rd (norm_loop fuel st).buf (norm_loop fuel st).p2 = 63 ∨
    rd (norm_loop fuel st).buf (norm_loop fuel st).p2 = 35 := by
  induction fuel generalizing st with
  | zero =>
    left
    by_contra hne
    have := rd_lt_of_ne_zero st.buf st.p2 hne
    omega
  | succ n ih =>
    rw [norm_loop]
    simp only
    by_cases hc : rd st.buf st.p2 = 0 ∨ rd st.buf st.p2 = 63 ∨ rd st.buf st.p2 = 35
    · rw [if_pos hc]
      exact hc
    · rw [if_neg hc]
      split_ifs
      all_goals apply ih
      all_goals simp only [put_length, put_p2]
      all_goals omega

/-- With more rounds than bytes left to read, the copy loop of `_normalize_path` ends at
the terminating NUL. -/
theorem copy_rest_done (fuel : Nat) (st : NState) (h : st.buf.length < st.p2 + fuel) :
    rd (copy_rest fuel st).buf (copy_rest fuel st).p2 = 0 := by
  induction fuel generalizing st with
  | zero =>
    by_contra hne
    have := rd_lt_of_ne_zero st.buf st.p2 hne
    omega
  | succ n ih =>
    rw [copy_rest]
    split_ifs with hc
    · exact hc
    · apply ih
      simp only [put_length, put_p2]
      omega

theorem norm_loop_length (fuel : Nat) (st : NState) :
    (norm_loop fuel st).buf.length = st.buf.length := by
  induction fuel generalizing st with
  | zero => rfl
  | succ n ih =>
    rw [norm_loop]
    simp only
    split_ifs
    all_goals first
      | rfl
      | (rw [ih]; try simp only [put_length])

/-- The number of rounds `_normalize_path` is given, `buf.length + 1`, is enough for each
of its three loops on every buffer: the first loop ends where no further prefix can be
skipped, the main loop at NUL, `?` or `#`, and the copy loop at NUL. -/
theorem normalize_path_loops_end (buf : List Nat) :
    skip_loop buf 1 (skip_loop buf (buf.length + 1) 0) = skip_loop buf (buf.length + 1) 0 ∧
    (rd (norm_loop (buf.length + 1) ⟨buf, 0, skip_loop buf (buf.length + 1) 0⟩).buf
        (norm_loop (buf.length + 1) ⟨buf, 0, skip_loop buf (buf.length + 1) 0⟩).p2 = 0 ∨
      rd (norm_loop (buf.length + 1) ⟨buf, 0, skip_loop buf (buf.length + 1) 0⟩).buf
        (norm_loop (buf.length + 1) ⟨buf, 0, skip_loop buf (buf.length + 1) 0⟩).p2 = 63 ∨
      rd (norm_loop (buf.length + 1) ⟨buf, 0, skip_loop buf (buf.length + 1) 0⟩).buf
        (norm_loop (buf.length + 1) ⟨buf, 0, skip_loop buf (buf.length + 1) 0⟩).p2 = 35) ∧
    rd (copy_rest (buf.length + 1)
          (norm_loop (buf.length + 1) ⟨buf, 0, skip_loop buf (buf.length + 1) 0⟩)).buf
        (copy_rest (buf.length + 1)
          (norm_loop (buf.length + 1) ⟨buf, 0, skip_loop buf (buf.length + 1) 0⟩)).p2 = 0 := by
  refine ⟨skip_loop_done buf _ 0 (by omega), norm_loop_done _ _ ?_, copy_rest_done _ _ ?_⟩
  · simp only
    omega
  · rw [norm_loop_length]
    simp only
    omega

/-! ### Escaping into a buffer -/

theorem memcat_tight (b : mget_buffer_t) (x : List Nat) (ht : b.data.length = b.length) :
    (mget_buffer_memcat b x).data = b.data ++ x ∧
    (mget_buffer_memcat b x).data.length = (mget_buffer_memcat b x).length := by
  unfold mget_buffer_memcat
  simp only [← ht, List.take_length, List.length_append, and_self]

theorem escape_loop_data (keep : Nat → Bool) (put : mget_buffer_t → Nat → mget_buffer_t)
    (enc : Nat → List Nat) (hput : ∀ b c, put b c = mget_buffer_memcat b (enc c))
    (src run : List Nat) (buf : mget_buffer_t) (ht : buf.data.length = buf.length) :
    (escape_loop keep put src run buf).data =
        buf.data ++ run ++ src.flatMap (fun c => if keep c = true then [c] else enc c) ∧
    (escape_loop keep put src run buf).data.length =
        (escape_loop keep put src run buf).length := by
  induction src generalizing run buf with
  | nil =>
    unfold escape_loop
    by_cases hr : run = []
    · simp [hr, ht]
    · simp only [hr, ne_eq, not_false_eq_true, if_true, List.flatMap_nil, List.append_nil]
      exact memcat_tight buf run ht
  | cons c src ih =>
    unfold escape_loop
    by_cases hk : keep c = true
    · simp only [hk, Bool.not_true, Bool.false_eq_true, if_false]
      have h := ih (run ++ [c]) buf ht
      refine ⟨?_, h.2⟩
      rw [h.1]
      simp [hk]
    · simp only [hk, Bool.not_eq_true, Bool.not_false, if_true]
      by_cases hr : run = []
      · simp only [hr, ne_eq, not_true_eq_false, if_false, hput]
        have hm := memcat_tight buf (enc c) ht
        have h := ih [] (mget_buffer_memcat buf (enc c)) hm.2
        refine ⟨?_, h.2⟩
        rw [h.1, hm.1]
        simp [hk]
      · simp only [hr, ne_eq, not_false_eq_true, if_true, hput]
        have hm1 := memcat_tight buf run ht
        have hm := memcat_tight (mget_buffer_memcat buf run) (enc c) hm1.2
        have h := ih [] (mget_buffer_memcat (mget_buffer_memcat buf run) (enc c)) hm.2
        refine ⟨?_, h.2⟩
        rw [h.1, hm.1, hm1.1]
        simp [hk]

theorem escape_path_data (src : List Nat) (buf : mget_buffer_t)
    (ht : buf.data.length = buf.length) :
    (mget_iri_escape_path src buf).data =
        buf.data ++ (cstr src).flatMap
          (fun c => if mget_iri_isunreserved_path c = true then [c] else pct c) ∧
    (mget_iri_escape_path src buf).data.length = (mget_iri_escape_path src buf).length := by
  have h := escape_loop_data mget_iri_isunreserved_path mget_buffer_printf_append2 pct
    (fun _ _ => rfl) (cstr src) [] buf ht
  simpa [mget_iri_escape_path] using h

theorem escape_data (src : List Nat) (buf : mget_buffer_t)
    (ht : buf.data.length = buf.length) :
    (mget_iri_escape src buf).data =
        buf.data ++ (cstr src).flatMap
          (fun c => if mget_iri_isunreserved c = true then [c] else pct c) ∧
    (mget_iri_escape src buf).data.length = (mget_iri_escape src buf).length := by
  have h := escape_loop_data mget_iri_isunreserved mget_buffer_printf_append2 pct
    (fun _ _ => rfl) (cstr src) [] buf ht
  simpa [mget_iri_escape] using h

theorem escape_query_data (src : List Nat) (buf : mget_buffer_t)
    (ht : buf.data.length = buf.length) :
    (mget_iri_escape_query src buf).data =
        buf.data ++ (cstr src).flatMap
          (fun c => if (mget_iri_isunreserved c || c == 61) = true then [c]
            else if c = 32 then [43] else pct c) ∧
    (mget_iri_escape_query src buf).data.length =
        (mget_iri_escape_query src buf).length := by
  have h := escape_loop_data (fun c => mget_iri_isunreserved c || c == 61)
    (fun b c => if c = 32 then mget_buffer_memcat b [43] else mget_buffer_printf_append2 b c)
    (fun c => if c = 32 then [43] else pct c)
    (fun b c => by
      by_cases h32 : c = 32
      · simp [h32]
      · simp [h32, mget_buffer_printf_append2])
    (cstr src) [] buf ht
  simpa [mget_iri_escape_query] using h

theorem empty_tight : mget_buffer_t.empty.data.length = mget_buffer_t.empty.length := rfl

theorem escaped_resource_data (iri : MGET_IRI) :
    (mget_iri_get_escaped_resource iri mget_buffer_t.empty).data =
      (match iri.path with
        | some path => (mget_iri_escape_path path mget_buffer_t.empty).data
        | none => []) ++
      (match iri.query with
        | some query => str "?" ++ (mget_iri_escape_query query mget_buffer_t.empty).data
        | none => []) ++
      (match iri.fragment with
        | some fragment => str "#" ++ (mget_iri_escape fragment mget_buffer_t.empty).data
        | none => []) := by
  have e63 : str "?" = [63] := rfl
  have e35 : str "#" = [35] := rfl
  rw [e63, e35]
  unfold mget_iri_get_escaped_resource
  -- the buffer after the path
  have h1 : ∀ b1 : mget_buffer_t, b1 = (match iri.path with
        | some path => mget_iri_escape_path path mget_buffer_t.empty
        | none => mget_buffer_t.empty) →
      b1.data = (match iri.path with
        | some path => (mget_iri_escape_path path mget_buffer_t.empty).data
        | none => []) ∧ b1.data.length = b1.length := by
    intro b1 hb
    subst hb
    cases iri.path with
    | none => exact ⟨rfl, rfl⟩
    | some path => exact ⟨rfl, (escape_path_data path _ empty_tight).2⟩
  obtain ⟨hd1, ht1⟩ := h1 _ rfl
  generalize (match iri.path with
        | some path => mget_iri_escape_path path mget_buffer_t.empty
        | none => mget_buffer_t.empty) = b1 at hd1 ht1 ⊢
  simp only
  rw [← hd1]
  -- the buffer after the query
  have h2 : ∀ b2 : mget_buffer_t, b2 = (match iri.query with
        | some query => mget_iri_escape_query query (mget_buffer_memcat b1 [63])
        | none => b1) →
      b2.data = b1.data ++ (match iri.query with
        | some query => [63] ++ (mget_iri_escape_query query mget_buffer_t.empty).data
        | none => []) ∧ b2.data.length = b2.length := by
    intro b2 hb
    subst hb
    cases iri.query with
    | none => exact ⟨by simp, ht1⟩
    | some query =>
      have hm := memcat_tight b1 [63] ht1
      have hq := escape_query_data query (mget_buffer_memcat b1 [63]) hm.2
      have hq0 := escape_query_data query mget_buffer_t.empty empty_tight
      refine ⟨?_, hq.2⟩
      simp only
      rw [hq.1, hq0.1, hm.1]
      simp [mget_buffer_t.empty]
  obtain ⟨hd2, ht2⟩ := h2 _ rfl
  generalize (match iri.query with
        | some query => mget_iri_escape_query query (mget_buffer_memcat b1 [63])
        | none => b1) = b2 at hd2 ht2 ⊢
  rw [← hd2]
  cases iri.fragment with
  | none => simp
  | some fragment =>
    have hm := memcat_tight b2 [35] ht2
    have hf := escape_data fragment (mget_buffer_memcat b2 [35]) hm.2
    have hf0 := escape_data fragment mget_buffer_t.empty empty_tight
    simp only
    rw [hf.1, hf0.1, hm.1]
    simp [mget_buffer_t.empty]

/-- C15: with an empty output buffer, `mget_iri_get_escaped_resource` returns
`escape_path(path)` (nothing when the path is absent), followed by "?" and
`escape_query(query)` exactly when a query is present, followed by "#" and
`escape(fragment)` exactly when a fragment is present. -/
theorem escaped_resource_is_path_query_fragment (iri : MGET_IRI) :
    (mget_iri_get_escaped_resource iri mget_buffer_t.empty).data =
      (match iri.path with
        | some path => (mget_iri_escape_path path mget_buffer_t.empty).data
        | none => []) ++
      (match iri.query with
        | some query => str "?" ++ (mget_iri_escape_query query mget_buffer_t.empty).data
        | none => []) ++
      (match iri.fragment with
        | some fragment => str "#" ++ (mget_iri_escape fragment mget_buffer_t.empty).data
        | none => []) := by
  exact escaped_resource_data iri

/-! ### Character classes -/

theorem isunreserved_iff (c : Nat) :
    mget_iri_isunreserved c = true ↔
      (isalnum c = true ∨ c = 45 ∨ c = 46 ∨ c = 95 ∨ c = 126) := by
  unfold mget_iri_isunreserved isalnum _iri_isunreserved schar
  simp only [Bool.and_eq_true, Bool.or_eq_true, decide_eq_true_eq, beq_iff_eq]
  constructor
  · rintro ⟨-, h⟩
    omega
  · intro h
    split <;> omega

theorem isunreserved_path_iff (c : Nat) :
    mget_iri_isunreserved_path c = true ↔
      (isalnum c = true ∨ c = 45 ∨ c = 46 ∨ c = 95 ∨ c = 126 ∨ c = 47) := by
  unfold mget_iri_isunreserved_path isalnum _iri_isunreserved schar
  simp only [Bool.and_eq_true, Bool.or_eq_true, decide_eq_true_eq, beq_iff_eq]
  constructor
  · rintro ⟨-, h⟩
    omega
  · intro h
    split <;> omega

/-- C18: for every NUL-free byte string S, `mget_iri_escape_query` appends to an empty
buffer, byte by byte: the byte itself when it is unreserved (ASCII alphanumeric or one of
`- . _ ~`) or `=`; "+" when it is a space; otherwise `%` and the two uppercase hex digits
of the byte. -/
theorem escape_query_byte_by_byte (S : List Nat) (hS : ∀ c ∈ S, c ≠ 0) :
    (mget_iri_escape_query S mget_buffer_t.empty).data =
      S.flatMap (fun c =>
        if (isalnum c = true ∨ c ∈ str "-._~") ∨ c = 61 then [c]
        else if c = 32 then str "+"
        else pct c) := by
  rw [(escape_query_data S mget_buffer_t.empty empty_tight).1, cstr_of_no_nul S hS]
  have e : str "-._~" = [45, 46, 95, 126] := rfl
  have e2 : str "+" = [43] := rfl
  rw [e, e2]
  simp only [mget_buffer_t.empty, List.nil_append]
  congr 1
  funext c
  have h := isunreserved_iff c
  have hmem : (isalnum c = true ∨ c ∈ [45, 46, 95, 126]) ↔
      (isalnum c = true ∨ c = 45 ∨ c = 46 ∨ c = 95 ∨ c = 126) := by
    simp only [List.mem_cons, List.mem_singleton, List.not_mem_nil, or_false]
  by_cases hu : mget_iri_isunreserved c = true
  · have hc : (isalnum c = true ∨ c ∈ [45, 46, 95, 126]) ∨ c = 61 :=
      Or.inl (hmem.2 (h.1 hu))
    simp only [hu, Bool.true_or, if_true]
    rw [if_pos hc]
  · have hn : ¬ (isalnum c = true ∨ c ∈ [45, 46, 95, 126]) := fun x => hu (h.2 (hmem.1 x))
    by_cases h61 : c = 61
    · simp [h61]
    · have hb : (mget_iri_isunreserved c || c == 61) = false := by
        simp [hu, h61]
      have hc : ¬ ((isalnum c = true ∨ c ∈ [45, 46, 95, 126]) ∨ c = 61) := by
        rintro (x | x)
        · exact hn x
        · exact h61 x
      rw [hb, if_neg hc]
      simp only [Bool.false_eq_true, if_false]

/-- Witness of C18 on "a b=c&d/~": the result is "a+b=c%26d%2F~". -/
theorem escape_query_byte_by_byte_witness :
    (mget_iri_escape_query (str "a b=c&d/~") mget_buffer_t.empty).data = str "a+b=c%26d%2F~" :=
  (escape_query_byte_by_byte (str "a b=c&d/~") (by decide)).trans (by decide)

/-! ### The escaped resource of an http URL with a path -/

theorem iri_split_path_only (a p : List Nat)
    (ha : avoids a [47, 63, 35]) (hp : avoids p [63, 35]) :
    iri_split (a ++ 47 :: p) = ⟨a, some p, none, none⟩ := by
  have ha2 : ∀ x ∈ a, (x != 47 && x != 63 && x != 35) = true := by
    intro x hx
    have := ha x hx
    simp only [List.mem_cons, List.mem_singleton, not_or, List.not_mem_nil,
      or_false] at this
    simp [this.1, this.2.1, this.2.2]
  have hp2 : ∀ x ∈ p, (x != 63 && x != 35) = true := by
    intro x hx
    have := hp x hx
    simp only [List.mem_cons, List.mem_singleton, not_or, List.not_mem_nil,
      or_false] at this
    simp [this.1, this.2]
  unfold iri_split
  simp only
  rw [takeWhile_append_stop _ a 47 _ ha2 (by decide),
    dropWhile_append_stop _ a 47 _ ha2 (by decide)]
  simp only [List.headD_cons, List.tail_cons, if_true]
  rw [takeWhile_all _ p hp2, dropWhile_all _ p hp2]
  rfl

theorem parse_http_host_path (env : Env) (encoding : Option (List Nat))
    (H P : List Nat) (hH : H ≠ []) (aH : ascii_text H) (aP : ascii_text P)
    (dH : avoids H [47, 63, 35, 64, 58, 91]) (dP : avoids P [63, 35]) :
    mget_iri_parse env (str "http://" ++ (H ++ 47 :: P)) encoding =
      some ⟨str "http://" ++ (H ++ 47 :: P), Scheme.http, none, some (H.map lower), none,
        some (str "80"), some P, none, none, none, false⟩ := by
  have hpre : ∀ x ∈ str "http://", 0 < x ∧ x < 128 ∧ x ≠ 37 := by decide
  have hU : ∀ x ∈ str "http://" ++ (H ++ 47 :: P), 0 < x ∧ x < 128 ∧ x ≠ 37 := by
    intro x hx
    simp only [List.mem_append, List.mem_cons] at hx
    rcases hx with hx | hx | hx | hx
    · exact hpre x hx
    · exact aH x hx
    · subst hx; decide
    · exact aP x hx
  have h1 := needs_encoding_ascii _ (fun x hx => ⟨(hU x hx).1, (hU x hx).2.1⟩)
  have h0 : ∀ x ∈ str "http://" ++ (H ++ 47 :: P), x ≠ 0 :=
    fun x hx => Nat.pos_iff_ne_zero.1 (hU x hx).1
  have hprep := iri_prepare_no_conversion env _ encoding h0 rfl (by
      intro e
      have : (104 : Nat) ∈ str "http://" ++ (H ++ 47 :: P) :=
        List.mem_append_left _ (by decide)
      rw [e] at this
      cases this) h1 (by
      rw [unescape_no_percent _ (fun x hx => (hU x hx).2.2), cstr_of_no_nul _ h0]
      exact h1)
  have hauth := iri_authority_host_only (some (str "80")) H hH
    (fun x hx hm => dH x hx (by
      simp only [List.mem_cons, List.mem_singleton, List.not_mem_nil, or_false] at hm ⊢
      omega))
  have hsplit := iri_split_path_only H P
    (fun x hx hm => dH x hx (by
      simp only [List.mem_cons, List.mem_singleton, List.not_mem_nil, or_false] at hm ⊢
      omega)) dP
  have hhost := iri_host_ascii env H (fun x hx => ⟨(aH x hx).1, (aH x hx).2.1⟩)
  unfold mget_iri_parse
  rw [hprep]
  simp only [iri_scheme_http, hsplit, hauth, hhost]
  rfl

theorem escape_path_byte (c : Nat) :
    (if mget_iri_isunreserved_path c = true then [c] else pct c) =
      (if c ∈ str ":[]!$&'()*+,;=" then pct c
        else if c = 47 ∨ isalnum c = true ∨ c ∈ str "-._~" then [c]
        else pct c) := by
  have e1 : str ":[]!$&'()*+,;=" = [58, 91, 93, 33, 36, 38, 39, 40, 41, 42, 43, 44, 59, 61] :=
    rfl
  have e2 : str "-._~" = [45, 46, 95, 126] := rfl
  rw [e1, e2]
  have h := isunreserved_path_iff c
  by_cases hl : c ∈ [58, 91, 93, 33, 36, 38, 39, 40, 41, 42, 43, 44, 59, 61]
  · rw [if_pos hl, if_neg]
    intro hu
    have hu2 := h.1 hu
    simp only [List.mem_cons, List.mem_singleton, List.not_mem_nil, or_false] at hl
    unfold isalnum at hu2
    simp only [Bool.and_eq_true, Bool.or_eq_true, decide_eq_true_eq] at hu2
    omega
  · rw [if_neg hl]
    by_cases hu : mget_iri_isunreserved_path c = true
    · rw [if_pos hu, if_pos]
      rcases h.1 hu with x | x | x | x | x | x
      · exact Or.inr (Or.inl x)
      · exact Or.inr (Or.inr (by simp [x]))
      · exact Or.inr (Or.inr (by simp [x]))
      · exact Or.inr (Or.inr (by simp [x]))
      · exact Or.inr (Or.inr (by simp [x]))
      · exact Or.inl x
    · rw [if_neg hu, if_neg]
      intro x
      apply hu
      apply h.2
      simp only [List.mem_cons, List.mem_singleton, List.not_mem_nil, or_false] at x
      rcases x with x | x | x
      · exact Or.inr (Or.inr (Or.inr (Or.inr (Or.inr x))))
      · exact Or.inl x
      · right
        omega

/-- C16: for every URL "http://example.com/" + P whose path P is ASCII without `%`, `?`,
`#` or NUL, the escaped resource of the parsed IRI is P with every gen-delim `:`, `[`, `]`
and every sub-delim (`! $ & ' ( ) * + , ; =`) replaced by `%` and the two uppercase hex
digits of the byte, and with `/` and the unreserved characters (ASCII alphanumerics and
`- . _ ~`) left unchanged; every other byte is written as `%HH` too. -/
theorem escaped_resource_of_http_path (env : Env) (encoding : Option (List Nat))
    (P : List Nat) (aP : ascii_text P) (dP : avoids P (str "?#")) :
    (mget_iri_parse env (str "http://example.com/" ++ P) encoding).map
        (fun iri => (mget_iri_get_escaped_resource iri mget_buffer_t.empty).data) =
      some (P.flatMap (fun c =>
        if c ∈ str ":[]!$&'()*+,;=" then pct c
        else if c = 47 ∨ isalnum c = true ∨ c ∈ str "-._~" then [c]
        else pct c)) := by
  have eU : str "http://example.com/" ++ P = str "http://" ++ (str "example.com" ++ 47 :: P) :=
    rfl
  have h0 : ∀ c ∈ P, c ≠ 0 := fun c hc => Nat.pos_iff_ne_zero.1 (aP c hc).1
  rw [eU, parse_http_host_path env encoding (str "example.com") P (by decide) (by decide) aP
    (by decide) dP]
  simp only [Option.map_some', Option.some.injEq]
  rw [escaped_resource_data]
  simp only [List.append_nil]
  rw [(escape_path_data P mget_buffer_t.empty empty_tight).1, cstr_of_no_nul P h0]
  simp only [mget_buffer_t.empty, List.nil_append]
  congr 1
  funext c
  exact escape_path_byte c

/-- Witness of C16 on "http://example.com/foo[bar": the escaped resource is
"foo%5Bbar". -/
theorem escaped_resource_of_http_path_witness :
    (mget_iri_parse Env.plain (str "http://example.com/" ++ str "foo[bar") none).map
        (fun iri => (mget_iri_get_escaped_resource iri mget_buffer_t.empty).data) =
      some (str "foo%5Bbar") :=
  (escaped_resource_of_http_path Env.plain none (str "foo[bar") (by decide)
    (by decide)).trans (by decide)

/-! ### Escaped resources that differ from what the unit tests expect -/

/-- C17 (code defect): for "http://example.com/foo@bar" the escaped resource is
"foo%40bar": the '@' of the path is percent-encoded, it is not passed through unchanged
as in "foo@bar". -/
theorem escaped_resource_encodes_at_sign (env : Env) (encoding : Option (List Nat)) :
    (mget_iri_parse env (str "http://example.com/foo@bar") encoding).map
        (fun iri => (mget_iri_get_escaped_resource iri mget_buffer_t.empty).data) =
      some (str "foo%40bar") ∧
    str "foo%40bar" ≠ str "foo@bar" :=
  ⟨rfl, by decide⟩

/-- C19 (code defect): for "http://example.com/foo  bar/?  foo  =  bar  #  foo" the
escaped resource is "foo%20%20bar/?++foo++=++bar++#%20%20foo": each space of the query is
written as "+", not as "%20" (the spaces of the path and of the fragment are written as
"%20"). -/
theorem escaped_resource_query_space_is_plus (env : Env) (encoding : Option (List Nat)) :
    (mget_iri_parse env (str "http://example.com/foo  bar/?  foo  =  bar  #  foo")
        encoding).map
        (fun iri => (iri.query,
          (mget_iri_get_escaped_resource iri mget_buffer_t.empty).data)) =
      some (some (str "  foo  =  bar  "),
        str "foo%20%20bar/?++foo++=++bar++#%20%20foo") ∧
    (mget_iri_escape_query (str "  foo  =  bar  ") mget_buffer_t.empty).data =
      str "++foo++=++bar++" := by
  have hp : mget_iri_parse env (str "http://example.com/foo  bar/?  foo  =  bar  #  foo")
      encoding =
      some ⟨str "http://example.com/foo  bar/?  foo  =  bar  #  foo", Scheme.http, none,
        some (str "example.com"), none, some (str "80"), some (str "foo  bar/"),
        some (str "  foo  =  bar  "), some (str "  foo"), none, false⟩ := rfl
  have he : (mget_iri_get_escaped_resource
      ⟨str "http://example.com/foo  bar/?  foo  =  bar  #  foo", Scheme.http, none,
        some (str "example.com"), none, some (str "80"), some (str "foo  bar/"),
        some (str "  foo  =  bar  "), some (str "  foo"), none, false⟩
      mget_buffer_t.empty).data = str "foo%20%20bar/?++foo++=++bar++#%20%20foo" := by
    decide
  refine ⟨?_, by decide⟩
  rw [hp]
  simp only [Option.map_some']
  rw [he]

/-- C20 (code defect): for "http://example.com/foo?bar=baz#" the escaped resource is
"foo?bar=baz#", and for "http://example.com/a#frag" it is "a#frag": the '#' and the
fragment are part of the escaped resource. -/
theorem escaped_resource_contains_fragment (env : Env) (encoding : Option (List Nat)) :
    (mget_iri_parse env (str "http://example.com/foo?bar=baz#") encoding).map
        (fun iri => (mget_iri_get_escaped_resource iri mget_buffer_t.empty).data) =
      some (str "foo?bar=baz#") ∧
    (mget_iri_parse env (str "http://example.com/a#frag") encoding).map
        (fun iri => (mget_iri_get_escaped_resource iri mget_buffer_t.empty).data) =
      some (str "a#frag") :=
  ⟨rfl, rfl⟩

/-! ### Reference resolution -/

theorem cstr_append_of_no_nul (a b : List Nat) (ha : ∀ x ∈ a, x ≠ 0) :
    cstr (a ++ b) = a ++ cstr b := by
  unfold cstr
  induction a with
  | nil => rfl
  | cons x a ih =>
    have hx : x ≠ 0 := ha x (List.mem_cons_self _ _)
    simp only [List.cons_append, List.takeWhile_cons, bne_iff_ne, ne_eq, hx,
      not_false_eq_true, if_true]
    rw [ih (fun y hy => ha y (List.mem_cons_of_mem _ hy))]

theorem cstr_no_nul (l : List Nat) : ∀ x ∈ cstr l, x ≠ 0 := by
  intro x hx
  have := (span_decomp (fun b => b != 0) l).1 x hx
  simpa using this

theorem cstr_cstr (l : List Nat) : cstr (cstr l) = cstr l :=
  cstr_of_no_nul _ (cstr_no_nul l)

theorem strcpy_eq (buf : mget_buffer_t) (s : List Nat) (hs : ∀ x ∈ s, x ≠ 0) :
    mget_buffer_strcpy buf s = ⟨s, s.length⟩ := by
  unfold mget_buffer_strcpy mget_buffer_memcpy mget_buffer_memcat
  simp [cstr_of_no_nul s hs]

theorem strcat_eq (d s : List Nat) :
    mget_buffer_strcat ⟨d, d.length⟩ s = ⟨d ++ cstr s, (d ++ cstr s).length⟩ := by
  unfold mget_buffer_strcat mget_buffer_memcat
  simp

theorem memcat_eq (d s : List Nat) :
    mget_buffer_memcat ⟨d, d.length⟩ s = ⟨d ++ s, (d ++ s).length⟩ := by
  unfold mget_buffer_memcat
  simp

theorem build_connection_part_eq (iri : MGET_IRI) (host : List Nat)
    (hh : iri.host = some host) :
    _iri_build_connection_part iri = some (iri.scheme.text ++ str "://" ++ host ++
      (match iri.port with
        | some port => str ":" ++ port
        | none => [])) := by
  unfold _iri_build_connection_part
  rw [hh]
  cases iri.port with
  | none => simp
  | some port => simp

theorem connection_part_eq (iri : MGET_IRI) (host : List Nat) (hwf : iri.wf)
    (hh : iri.host = some host) :
    mget_iri_get_connection_part iri = some (iri.scheme.text ++ str "://" ++ host ++
      (match iri.port with
        | some port => str ":" ++ port
        | none => [])) := by
  unfold mget_iri_get_connection_part
  rcases hwf.2.2.2.2 with hc | hc
  · rw [hc]
    exact build_connection_part_eq iri host hh
  · rw [hc, build_connection_part_eq iri host hh]

theorem connection_part_shape (iri : MGET_IRI) (conn : List Nat) (hwf : iri.wf)
    (hc : mget_iri_get_connection_part iri = some conn) :
    (∀ x ∈ conn, x ≠ 0) ∧ ∃ rest, conn = iri.scheme.text ++ 58 :: rest := by
  cases hh : iri.host with
  | none =>
    exfalso
    unfold mget_iri_get_connection_part at hc
    rcases hwf.2.2.2.2 with h | h
    · rw [h] at hc
      simp [_iri_build_connection_part, hh] at hc
    · rw [h] at hc
      simp [_iri_build_connection_part, hh] at hc
  | some host =>
    rw [connection_part_eq iri host hwf hh] at hc
    simp only [Option.some.injEq] at hc
    subst hc
    have e1 : str "://" = [58, 47, 47] := rfl
    have e2 : str ":" = [58] := rfl
    rw [e1, e2]
    constructor
    · intro x hx
      simp only [List.mem_append, List.mem_cons, List.mem_singleton, List.not_mem_nil,
        or_false] at hx
      rcases hx with ((hx | hx) | hx) | hx
      · exact hwf.1 x hx
      · omega
      · exact hwf.2.1 x (by rw [hh]; exact hx)
      · cases hp : iri.port with
        | none => simp [hp] at hx
        | some port =>
          simp only [hp, List.mem_append, List.mem_singleton] at hx
          rcases hx with hx | hx
          · omega
          · exact hwf.2.2.1 x (by rw [hp]; exact hx)
    · exact ⟨47 :: 47 :: (host ++ match iri.port with
        | some port => [58] ++ port
        | none => []), by simp⟩

theorem strcpy_strcat_strcat (buf : mget_buffer_t) (a b c : List Nat)
    (ha : ∀ x ∈ a, x ≠ 0) :
    Ret.string c (Ret.data (mget_buffer_strcat (mget_buffer_strcat
      (mget_buffer_strcpy buf a) b) c)) = some (a ++ cstr b ++ cstr c) := by
  rw [strcpy_eq buf a ha, strcat_eq, strcat_eq]
  unfold Ret.string
  simp only [Option.some.injEq]
  rw [List.append_assoc, cstr_append_of_no_nul _ _ ha,
    cstr_append_of_no_nul _ _ (cstr_no_nul b), cstr_cstr]

theorem take_length_cstr (ref : List Nat) (h0 : ∀ c ∈ ref, c ≠ 0) :
    cstr (ref.take ref.length) = ref := by
  rw [List.take_length, cstr_of_no_nul ref h0]

/-- C12 (amended): for every base IRI that has a host and every reference `ref` (`len` =
its length) that begins with '/' and whose second byte is not '/',
`mget_iri_relative_to_abs` returns
connection_part(base) + "/" + normalize(ref), where normalize is `_normalize_path` and
connection_part(base) is scheme + "://" + host, followed by ":" + port only when a port is
stored. -/
theorem absolute_path_ref_resolution (base : MGET_IRI) (buf : mget_buffer_t)
    (ref host : List Nat) (hwf : base.wf) (hh : base.host = some host)
    (h0 : ∀ c ∈ ref, c ≠ 0) (h1 : rd ref 0 = 47) (h2 : rd ref 1 ≠ 47) :
    mget_iri_get_connection_part base =
      some (base.scheme.text ++ str "://" ++ host ++
        (match base.port with
          | some port => str ":" ++ port
          | none => [])) ∧
    (mget_iri_relative_to_abs (some base) ref ref.length (some buf)).string ref =
      some (base.scheme.text ++ str "://" ++ host ++
        (match base.port with
          | some port => str ":" ++ port
          | none => []) ++ str "/" ++ normalize ref) := by
  have hc := connection_part_eq base host hwf hh
  refine ⟨hc, ?_⟩
  have hn := (connection_part_shape base _ hwf hc).1
  unfold mget_iri_relative_to_abs
  rw [if_pos h1]
  simp only [take_length_cstr ref h0]
  rw [if_neg (fun h => h2 h.2), hc]
  simp only
  have h := strcpy_strcat_strcat buf _ (str "/") (_normalize_path ref).1 hn
  unfold Ret.string at h ⊢
  simp only at h ⊢
  rw [h]
  rfl

/-- C13: for a base IRI and a reference `ref` of length at least 2 that begins with "//"
(`len` = its length), `mget_iri_relative_to_abs` returns base.scheme + ":" + ref', where
ref' is `ref` with the part after the first '/' that follows the authority replaced by
its `_normalize_path` result, and ref' = ref when there is no such '/'.  Here
`ref = "//" + r`; the authority `a` is the part of `r` before its first '/'. -/
theorem network_path_ref_resolution (base : MGET_IRI) (buf : mget_buffer_t)
    (r : List Nat) (hwf : base.wf) (h0 : ∀ c ∈ r, c ≠ 0) :
    (∀ a t, avoids a (str "/") → r = a ++ str "/" ++ t →
      (mget_iri_relative_to_abs (some base) (str "//" ++ r) (str "//" ++ r).length
          (some buf)).string (str "//" ++ r) =
        some (base.scheme.text ++ str ":" ++ (str "//" ++ a ++ str "/" ++ normalize t))) ∧
    (avoids r (str "/") →
      (mget_iri_relative_to_abs (some base) (str "//" ++ r) (str "//" ++ r).length
          (some buf)).string (str "//" ++ r) =
        some (base.scheme.text ++ str ":" ++ (str "//" ++ r))) := by
  have e2 : str "//" ++ r = 47 :: 47 :: r := rfl
  have e1 : str "/" = [47] := rfl
  have ec : str ":" = [58] := rfl
  have hr0 : ∀ c ∈ 47 :: 47 :: r, c ≠ 0 := by
    intro c hc
    simp only [List.mem_cons] at hc
    rcases hc with hc | hc | hc
    · omega
    · omega
    · exact h0 c hc
  have hlen : (47 :: 47 :: r).length ≥ 2 ∧ rd (47 :: 47 :: r) 1 = 47 :=
    ⟨by simp, rfl⟩
  have hstart : rd (47 :: 47 :: r) 0 = 47 := rfl
  rw [e2, e1, ec]
  constructor
  · intro a t ha hr
    have ha2 : ∀ x ∈ a, (x != 47) = true := by
      intro x hx
      have := ha x hx
      simpa using this
    have hr2 : r = a ++ 47 :: t := by
      rw [hr]
      simp
    unfold mget_iri_relative_to_abs
    rw [if_pos hstart]
    simp only [take_length_cstr _ hr0]
    rw [if_pos hlen]
    simp only [List.drop_succ_cons, List.drop_zero, List.take_succ_cons, List.take_zero]
    have hcont : r.contains 47 = true := by
      rw [hr2]
      simp
    rw [if_pos hcont, hr2, takeWhile_append_stop _ a 47 t ha2 (by decide),
      dropWhile_append_stop _ a 47 t ha2 (by decide)]
    simp only [List.tail_cons]
    have h := strcpy_strcat_strcat buf base.scheme.text (str ":")
      ([47, 47] ++ a ++ [47] ++ (_normalize_path t).1) hwf.1
    unfold Ret.string at h ⊢
    simp only at h ⊢
    rw [h]
    have hpre : ∀ x ∈ [47, 47] ++ a ++ [47], x ≠ 0 := by
      intro x hx
      simp only [List.mem_append, List.mem_cons, List.mem_singleton, List.not_mem_nil,
        or_false] at hx
      rcases hx with (hx | hx) | hx
      · omega
      · exact h0 x (by rw [hr2]; exact List.mem_append_left _ hx)
      · omega
    rw [cstr_append_of_no_nul _ _ hpre]
    have e58 : cstr (str ":") = [58] := by decide
    have e3 : str "//" = [47, 47] := rfl
    rw [e58, e3]
    simp [normalize]
  · intro hr
    have hr2 : ∀ x ∈ r, x ≠ 47 := by
      intro x hx
      have := hr x hx
      simpa using this
    unfold mget_iri_relative_to_abs
    rw [if_pos hstart]
    simp only [take_length_cstr _ hr0]
    rw [if_pos hlen]
    simp only [List.drop_succ_cons, List.drop_zero]
    rw [contains_false r 47 hr2]
    simp only [Bool.false_eq_true, if_false]
    have h := strcpy_strcat_strcat buf base.scheme.text (str ":") (47 :: 47 :: r) hwf.1
    unfold Ret.string at h ⊢
    simp only at h ⊢
    rw [h, cstr_of_no_nul _ hr0]
    have e58 : cstr (str ":") = [58] := by decide
    rw [e58]

theorem base_dir_spec (path : Option (List Nat)) :
    (path = none → base_dir path = []) ∧
    (∀ p, path = some p → avoids p (str "/") → base_dir path = []) ∧
    (∀ d r, path = some (d ++ str "/" ++ r) → avoids r (str "/") →
      base_dir path = d ++ str "/") := by
  have e1 : str "/" = [47] := rfl
  rw [e1]
  refine ⟨fun h => by rw [h]; rfl, fun p h hp => ?_, fun d r h hr => ?_⟩
  · rw [h]
    have hs : splitLast 47 p = none := by
      unfold splitLast
      rw [contains_false p 47 (fun x hx => by simpa using hp x hx)]
      rfl
    unfold base_dir
    simp only [hs]
  · rw [h]
    have e : d ++ [47] ++ r = d ++ 47 :: r := by simp
    have hs := splitLast_append 47 d r (fun x hx => by simpa using hr x hx)
    unfold base_dir
    simp only [e, hs]

theorem relative_buffer (buf : mget_buffer_t) (conn dir ref : List Nat) (len : Nat)
    (hn : ∀ x ∈ conn, x ≠ 0) (hl : len = 0 → ref = []) :
    ∃ b2 : mget_buffer_t,
      (if len ≠ 0 then
          mget_buffer_memcat
            (if dir ≠ [] then
              mget_buffer_memcat (mget_buffer_strcat (mget_buffer_strcpy buf conn) (str "/")) dir
            else mget_buffer_strcat (mget_buffer_strcpy buf conn) (str "/"))
            ref
        else
          (if dir ≠ [] then
            mget_buffer_memcat (mget_buffer_strcat (mget_buffer_strcpy buf conn) (str "/")) dir
          else mget_buffer_strcat (mget_buffer_strcpy buf conn) (str "/"))) = b2 ∧
      b2.data = (conn ++ [47]) ++ (dir ++ ref) ∧
      (mget_buffer_strcat (mget_buffer_strcpy buf conn) (str "/")).length =
        (conn ++ [47]).length := by
  have e47 : cstr (str "/") = [47] := by decide
  rw [strcpy_eq buf conn hn, strcat_eq, e47]
  refine ⟨_, rfl, ?_, rfl⟩
  by_cases hd : dir = []
  · by_cases hr : len = 0
    · simp [hd, hr, hl hr]
    · simp only [hd, ne_eq, not_true_eq_false, if_false, hr, not_false_eq_true, if_true,
        memcat_eq, List.nil_append]
  · by_cases hr : len = 0
    · simp only [hd, hr, hl hr, ne_eq, not_false_eq_true, if_true,
        not_true_eq_false, if_false, memcat_eq, List.append_nil]
    · simp only [hd, ne_eq, not_false_eq_true, if_true, hr, memcat_eq, List.append_assoc]

/-- C11 (amended): for every base IRI that has a connection part `conn` (it has a host),
every output buffer and every reference `ref` (`len` = its length) that does not begin with
'/' and contains no ':', `mget_iri_relative_to_abs` returns conn + "/" + N, where N is the
result of `_normalize_path` on dir(base.path) + ref; dir(p) is the prefix of p up to and
including its last '/', and is empty when p is absent or has no '/'. -/
theorem relative_ref_resolution (base : MGET_IRI) (buf : mget_buffer_t)
    (ref conn : List Nat) (hwf : base.wf)
    (hc : mget_iri_get_connection_part base = some conn)
    (h1 : rd ref 0 ≠ 47) (h2 : 58 ∉ ref) :
    (mget_iri_relative_to_abs (some base) ref ref.length (some buf)).string ref =
      some (conn ++ str "/" ++ normalize (base_dir base.path ++ ref)) ∧
    (base.path = none → base_dir base.path = []) ∧
    (∀ p, base.path = some p → avoids p (str "/") → base_dir base.path = []) ∧
    (∀ d r, base.path = some (d ++ str "/" ++ r) → avoids r (str "/") →
      base_dir base.path = d ++ str "/") := by
  refine ⟨?_, base_dir_spec base.path⟩
  have hn := (connection_part_shape base conn hwf hc).1
  have hcol : (ref.take ref.length).contains 58 = false := by
    rw [List.take_length]
    exact contains_false ref 58 (fun x hx e => h2 (e ▸ hx))
  unfold mget_iri_relative_to_abs
  rw [if_neg h1, hcol]
  simp only [Bool.false_eq_true, if_false, hc, List.take_length]
  obtain ⟨b2, hb2, hdata, hlen⟩ := relative_buffer buf conn (base_dir base.path) ref
    ref.length hn List.length_eq_zero.1
  rw [hb2, hlen, hdata]
  unfold Ret.string
  simp only [Option.some.injEq]
  have hn2 : ∀ x ∈ conn ++ [47], x ≠ 0 := by
    intro x hx
    rcases List.mem_append.1 hx with hx | hx
    · exact hn x hx
    · simp only [List.mem_singleton] at hx
      omega
  rw [List.take_left, List.drop_left, cstr_append_of_no_nul _ _ hn2]
  rfl

/-- C14 (as stated, refuted): with no base, the reference "foo" is returned as it is; the
result has no ':' at all, so it does not begin with a scheme name followed by ':'.  With
the base parsed from "://h/p", whose scheme name is empty, the reference "x" resolves to
"://h/x".  And the reference ":x" is returned as it is with any base, here
"http://a/b". -/
theorem resolution_without_base_not_absolute :
    ((mget_iri_relative_to_abs none (str "foo") 3 none).string (str "foo") =
      some (str "foo") ∧
    58 ∉ str "foo" ∧ ¬ absolute_uri (str "foo")) ∧
    (∃ base, mget_iri_parse Env.plain (str "://h/p") none = some base ∧
      base.scheme.text = [] ∧
      (mget_iri_relative_to_abs (some base) (str "x") 1
        (some mget_buffer_t.empty)).string (str "x") = some (str "://h/x") ∧
      ¬ absolute_uri (str "://h/x")) ∧
    (∃ base, mget_iri_parse Env.plain (str "http://a/b") none = some base ∧
      (mget_iri_relative_to_abs (some base) (str ":x") 2
        (some mget_buffer_t.empty)).string (str ":x") = some (str ":x") ∧
      ¬ absolute_uri (str ":x")) :=
  ⟨by decide,
    ⟨⟨str "://h/p", Scheme.other [], none, some (str "h"), none, none, some (str "p"),
      none, none, none, false⟩, rfl, rfl, by decide, by decide⟩,
    ⟨⟨str "http://a/b", Scheme.http, none, some (str "a"), none, some (str "80"),
      some (str "b"), none, none, none, false⟩, rfl, by decide, by decide⟩⟩

/-- The shape of a resolved reference when the base has a connection part and an output
buffer is given: a reference that begins with '/' or has no ':' resolves to a string that
begins with the scheme name of the base followed by ':'; without a base, a reference
without ':' that does not begin with '/' and ends at `val[len]` is returned as it is. -/
theorem resolved_with_connection_part (base : MGET_IRI) (buf : mget_buffer_t)
    (obuf : Option mget_buffer_t) (val conn : List Nat) (len : Nat) (hwf : base.wf)
    (hc : mget_iri_get_connection_part base = some conn) :
    ((rd val 0 = 47 ∨ (val.take len).contains 58 = false) →
      ∃ rest, (mget_iri_relative_to_abs (some base) val len (some buf)).string val =
        some (base.scheme.text ++ str ":" ++ rest)) ∧
    (rd val 0 ≠ 47 → (val.take len).contains 58 = false → rd val len = 0 →
      (mget_iri_relative_to_abs none val len obuf).string val = some (cstr val)) := by
  have ec : str ":" = [58] := rfl
  obtain ⟨hn, rest0, hrest0⟩ := connection_part_shape base conn hwf hc
  constructor
  · intro hcase
    by_cases h1 : rd val 0 = 47
    · unfold mget_iri_relative_to_abs
      rw [if_pos h1]
      simp only
      by_cases h2 : len ≥ 2 ∧ rd val 1 = 47
      · rw [if_pos h2]
        have h := strcpy_strcat_strcat buf base.scheme.text (str ":")
          (if (List.drop 2 (cstr (List.take len val))).contains 47 = true then
            List.take 2 (cstr (List.take len val)) ++
              List.takeWhile (fun c => c != 47) (List.drop 2 (cstr (List.take len val))) ++
              [47] ++
              (_normalize_path (List.dropWhile (fun c => c != 47)
                (List.drop 2 (cstr (List.take len val)))).tail).1
          else cstr (List.take len val)) hwf.1
        unfold Ret.string at h ⊢
        simp only at h ⊢
        rw [h]
        have e58 : cstr (str ":") = str ":" := by decide
        rw [e58]
        exact ⟨_, rfl⟩
      · rw [if_neg h2, hc]
        simp only
        have h := strcpy_strcat_strcat buf conn (str "/")
          (_normalize_path (cstr (List.take len val))).1 hn
        unfold Ret.string at h ⊢
        simp only at h ⊢
        rw [h, hrest0, ec]
        exact ⟨rest0 ++ cstr (str "/") ++ cstr (_normalize_path (cstr (List.take len val))).1,
          by simp⟩
    · have hcol : (val.take len).contains 58 = false := by
        rcases hcase with h | h
        · exact absurd h h1
        · exact h
      unfold mget_iri_relative_to_abs
      rw [if_neg h1, hcol]
      simp only [Bool.false_eq_true, if_false, hc]
      obtain ⟨b2, hb2, hdata, hlen⟩ := relative_buffer buf conn (base_dir base.path)
        (val.take len) len hn (fun h => by rw [h]; rfl)
      rw [hb2, hlen, hdata]
      unfold Ret.string
      simp only [Option.some.injEq]
      have hn2 : ∀ x ∈ conn ++ [47], x ≠ 0 := by
        intro x hx
        rcases List.mem_append.1 hx with hx | hx
        · exact hn x hx
        · simp only [List.mem_singleton] at hx
          omega
      rw [List.take_left, List.drop_left, cstr_append_of_no_nul _ _ hn2, hrest0, ec]
      exact ⟨rest0 ++ [47] ++
        cstr (_normalize_path (base_dir base.path ++ List.take len val)).1, by simp⟩
  · intro h1 hcol hend
    unfold mget_iri_relative_to_abs
    rw [if_neg h1, hcol]
    simp only [Bool.false_eq_true, if_false, hend, if_true]
    rfl

/-- Witness of C11 (amended): the base parsed from "http://a/b/c/d" and the reference "../g" give
"http://a/b/g". -/
theorem relative_ref_resolution_witness :
    (mget_iri_parse Env.plain (str "http://a/b/c/d") none).bind
      (fun base => (mget_iri_relative_to_abs (some base) (str "../g") (str "../g").length
        (some mget_buffer_t.empty)).string (str "../g")) = some (str "http://a/b/g") := by
  have hp : mget_iri_parse Env.plain (str "http://a/b/c/d") none =
      some ⟨str "http://a/b/c/d", Scheme.http, none, some (str "a"), none,
        some (str "80"), some (str "b/c/d"), none, none, none, false⟩ := by decide
  rw [hp]
  exact ((relative_ref_resolution
    ⟨str "http://a/b/c/d", Scheme.http, none, some (str "a"), none,
      some (str "80"), some (str "b/c/d"), none, none, none, false⟩
    mget_buffer_t.empty (str "../g") (str "http://a")
    (by decide) rfl (by decide) (by decide)).1).trans (by decide)

/-- Witness of C12 (amended): the base parsed from "http://a:8080/b/c/" and the reference "/x/./y"
give "http://a:8080/x/y". -/
theorem absolute_path_ref_resolution_witness :
    (mget_iri_parse Env.plain (str "http://a:8080/b/c/") none).bind
      (fun base => (mget_iri_relative_to_abs (some base) (str "/x/./y") (str "/x/./y").length
        (some mget_buffer_t.empty)).string (str "/x/./y")) =
      some (str "http://a:8080/x/y") := by
  have hp : mget_iri_parse Env.plain (str "http://a:8080/b/c/") none =
      some ⟨str "http://a:8080/b/c/", Scheme.http, none, some (str "a"), some (str "8080"),
        some (str "8080"), some (str "b/c/"), none, none, none, false⟩ := by decide
  rw [hp]
  exact ((absolute_path_ref_resolution
    ⟨str "http://a:8080/b/c/", Scheme.http, none, some (str "a"), some (str "8080"),
      some (str "8080"), some (str "b/c/"), none, none, none, false⟩
    mget_buffer_t.empty (str "/x/./y") (str "a")
    (by decide) rfl (by decide) (by decide) (by decide)).2).trans (by decide)

/-- Witness of C13: the base parsed from "http://a/b/c/" and the reference "//x/y" give
"http://x/y". -/
theorem network_path_ref_resolution_witness :
    (mget_iri_parse Env.plain (str "http://a/b/c/") none).bind
      (fun base => (mget_iri_relative_to_abs (some base) (str "//" ++ str "x/y")
        (str "//" ++ str "x/y").length (some mget_buffer_t.empty)).string
          (str "//" ++ str "x/y")) =
      some (str "http://x/y") := by
  have hp : mget_iri_parse Env.plain (str "http://a/b/c/") none =
      some ⟨str "http://a/b/c/", Scheme.http, none, some (str "a"), none,
        some (str "80"), some (str "b/c/"), none, none, none, false⟩ := by decide
  rw [hp]
  exact ((network_path_ref_resolution
    ⟨str "http://a/b/c/", Scheme.http, none, some (str "a"), none,
      some (str "80"), some (str "b/c/"), none, none, none, false⟩
    mget_buffer_t.empty (str "x/y")
    (by decide) (by decide)).1 (str "x") (str "y") (by decide) rfl).trans (by decide)

/-! ### Parsed IRIs hold C strings -/

theorem iri_prepare_no_nul (env : Env) (url : List Nat) (encoding : Option (List Nat))
    (u : List Nat) (h : iri_prepare env url encoding = some u) : ∀ c ∈ u, c ≠ 0 := by
  have hd : ∀ c ∈ (cstr url).dropWhile isspace, c ≠ 0 := fun c hc =>
    cstr_no_nul url c ((List.dropWhile_suffix isspace).subset hc)
  unfold iri_prepare at h
  simp only at h
  split_ifs at h
  · split at h
    · cases h
      exact cstr_no_nul _
    · cases h
      exact cstr_no_nul _
  · cases h
    exact hd
  · split at h
    · cases h
      exact cstr_no_nul _
    · cases h
      exact hd
  · cases h
    exact hd

theorem lower_ne_zero (c : Nat) (h : c ≠ 0) : lower c ≠ 0 := by
  unfold lower
  split <;> omega

theorem iri_scheme_rest_subset (u : List Nat) : (iri_scheme u).2.2 ⊆ u := by
  have hs : (u.dropWhile (fun c => !_iri_isgendelim c)).tail ⊆ u :=
    fun x hx => (List.dropWhile_suffix _).subset (List.mem_of_mem_tail hx)
  unfold iri_scheme
  simp only
  split_ifs
  all_goals first
    | exact fun x hx => hs (List.mem_of_mem_drop hx)
    | exact hs
    | exact List.drop_subset 2 u
    | exact fun x hx => hx

theorem iri_scheme_text_no_nul (u : List Nat) (h0 : ∀ c ∈ u, c ≠ 0) :
    ∀ c ∈ (iri_scheme u).1.text, c ≠ 0 := by
  have hh : ∀ c ∈ Scheme.http.text, c ≠ 0 := by decide
  have hhs : ∀ c ∈ Scheme.https.text, c ≠ 0 := by decide
  unfold iri_scheme
  simp only
  split_ifs
  · exact hh
  · exact hhs
  · intro c hc
    simp only [Scheme.text] at hc
    rcases List.mem_map.1 hc with ⟨d, hd, rfl⟩
    exact lower_ne_zero d (h0 d ((List.takeWhile_prefix _).subset hd))
  · exact hh

theorem iri_split_subset (s : List Nat) :
    (iri_split s).authority ⊆ s ∧ (iri_split s).path.getD [] ⊆ s := by
  unfold iri_split
  simp only
  refine ⟨(List.takeWhile_prefix _).subset, ?_⟩
  split_ifs
  · intro x hx
    simp only [Option.getD_some] at hx
    exact (List.dropWhile_suffix _).subset
      (List.mem_of_mem_tail ((List.takeWhile_prefix _).subset hx))
  · intro x hx
    cases hx

theorem splitLast_subset (c : Nat) (s h r : List Nat) (hs : splitLast c s = some (h, r)) :
    h ⊆ s ∧ r ⊆ s := by
  unfold splitLast at hs
  split_ifs at hs
  simp only [Option.some.injEq, Prod.mk.injEq] at hs
  obtain ⟨rfl, rfl⟩ := hs
  constructor
  · intro x hx
    have := List.mem_of_mem_tail (List.mem_reverse.1 hx)
    exact List.mem_reverse.1 ((List.dropWhile_suffix _).subset this)
  · intro x hx
    exact List.mem_reverse.1 ((List.takeWhile_prefix _).subset (List.mem_reverse.1 hx))

theorem auth_host_subset (s : List Nat) : (auth_host s).1 ⊆ s ∧ (auth_host s).2 ⊆ s := by
  unfold auth_host
  split_ifs
  · cases hs : splitLast 93 s.tail with
    | none =>
      exact ⟨List.tail_subset s, fun x hx => (by cases hx)⟩
    | some hr =>
      obtain ⟨h, r⟩ := hr
      have := splitLast_subset 93 s.tail h r hs
      exact ⟨fun x hx => List.tail_subset s (this.1 hx),
        fun x hx => List.tail_subset s (this.2 hx)⟩
  · exact ⟨(List.takeWhile_prefix _).subset, (List.dropWhile_suffix _).subset⟩

theorem auth_after_userinfo_subset (a : List Nat) : auth_after_userinfo a ⊆ a := by
  unfold auth_after_userinfo
  split_ifs
  · exact fun x hx => (List.dropWhile_suffix _).subset (List.mem_of_mem_tail hx)
  · exact fun x hx => hx

theorem iri_authority_subset (d : Option (List Nat)) (a : List Nat) :
    (iri_authority d a).host.getD [] ⊆ a ∧ (iri_authority d a).port.getD [] ⊆ a := by
  unfold iri_authority
  by_cases ha : a = []
  · rw [if_pos ha]
    exact ⟨fun x hx => (by cases hx), fun x hx => (by cases hx)⟩
  · rw [if_neg ha]
    have h1 := auth_host_subset (auth_after_userinfo a)
    have h2 := auth_after_userinfo_subset a
    refine ⟨fun x hx => h2 (h1.1 hx), ?_⟩
    simp only
    unfold auth_port
    split_ifs
    · exact fun x hx => h2 (h1.2 (List.mem_of_mem_tail hx))
    · exact fun x hx => (by cases hx)

theorem iri_host_no_nul (env : Env) (h : List Nat) (h0 : ∀ c ∈ h, c ≠ 0) :
    ∀ c ∈ (iri_host env h).1, c ≠ 0 := by
  have hl : ∀ c ∈ h.map lower, c ≠ 0 := by
    intro c hc
    rcases List.mem_map.1 hc with ⟨d, hd, rfl⟩
    exact lower_ne_zero d (h0 d hd)
  unfold iri_host
  simp only
  split_ifs
  · cases env.idn_to_ascii (List.map lower h) with
    | none => exact hl
    | some a => exact cstr_no_nul a
  · exact hl

/-- Every IRI that `mget_iri_parse` returns is well formed: its strings have no NUL inside
and no connection part is cached yet. -/
theorem parse_wf (env : Env) (url : List Nat) (encoding : Option (List Nat))
    (iri : MGET_IRI) (hparse : mget_iri_parse env url encoding = some iri) : iri.wf := by
  unfold mget_iri_parse at hparse
  split at hparse
  · cases hparse
  · rename_i u hu
    have h0 := iri_prepare_no_nul env url encoding u hu
    have hrest : ∀ c ∈ (iri_scheme u).2.2, c ≠ 0 :=
      fun c hc => h0 c (iri_scheme_rest_subset u hc)
    have hsp := iri_split_subset (iri_scheme u).2.2
    have hau := iri_authority_subset (iri_scheme u).2.1 (iri_split (iri_scheme u).2.2).authority
    have hport : ∀ c ∈ (iri_authority (iri_scheme u).2.1
        (iri_split (iri_scheme u).2.2).authority).port.getD [], c ≠ 0 :=
      fun c hc => hrest c (hsp.1 (hau.2 hc))
    have hpath : ∀ c ∈ (iri_split (iri_scheme u).2.2).path.getD [], c ≠ 0 :=
      fun c hc => hrest c (hsp.2 hc)
    simp only at hparse
    split at hparse
    · rename_i h hh
      cases hparse
      refine ⟨iri_scheme_text_no_nul u h0, ?_, hport, hpath, Or.inl rfl⟩
      simp only [Option.getD_some]
      apply iri_host_no_nul
      intro c hc
      have : c ∈ (iri_authority (iri_scheme u).2.1
          (iri_split (iri_scheme u).2.2).authority).host.getD [] := by
        rw [hh]
        exact hc
      exact hrest c (hsp.1 (hau.1 this))
    · split at hparse
      · cases hparse
      · cases hparse
        exact ⟨iri_scheme_text_no_nul u h0, fun c hc => (by cases hc), hport, hpath,
          Or.inl rfl⟩

/-! ### Escaping and unescaping -/

theorem unescape_cons_ne (c : Nat) (l : List Nat) (hc : c ≠ 37) :
    (_unescape (c :: l)).1 = c :: (_unescape l).1 := by
  match l with
  | [] => rfl
  | [a] => rfl
  | a :: b :: rest =>
    rw [_unescape]
    simp only [hc, false_and, if_false]

theorem hexdigit_unhex :
    ∀ n, n < 16 → isxdigit (hexdigit n) = true ∧ _unhex (hexdigit n) = n := by
  decide

theorem unescape_pct (c : Nat) (l : List Nat) (hc : c < 256) :
    (_unescape (pct c ++ l)).1 = c :: (_unescape l).1 := by
  have h1 := hexdigit_unhex (c % 256 / 16) (by omega)
  have h2 := hexdigit_unhex (c % 256 % 16) (by omega)
  have e : pct c ++ l = 37 :: hexdigit (c % 256 / 16) :: hexdigit (c % 256 % 16) :: l := rfl
  rw [e, _unescape]
  simp only [h1.1, h2.1, and_self, if_true, h1.2, h2.2]
  congr 1
  omega

theorem unescape_escaped (B : List Nat) (hB : ∀ c ∈ B, c < 256) :
    (_unescape (B.flatMap
      (fun c => if mget_iri_isunreserved c = true then [c] else pct c))).1 = B := by
  induction B with
  | nil => rfl
  | cons c B ih =>
    have hc := hB c (List.mem_cons_self _ _)
    have ih2 := ih (fun x hx => hB x (List.mem_cons_of_mem _ hx))
    rw [List.flatMap_cons]
    by_cases hu : mget_iri_isunreserved c = true
    · have h37 : c ≠ 37 := by
        intro e
        rw [e] at hu
        exact absurd hu (by decide)
      rw [if_pos hu, List.singleton_append, unescape_cons_ne c _ h37, ih2]
    · rw [if_neg hu, unescape_pct c _ hc, ih2]

/-- C21: for every NUL-free byte string B, percent-unescaping what `mget_iri_escape`
writes for B into an empty buffer gives back B.  This holds whether or not B has a `%`
(the escaper writes it as "%25"), so in particular for every B without `%`. -/
theorem unescape_escape_roundtrip (B : List Nat) (hB : ∀ c ∈ B, c ≠ 0 ∧ c < 256) :
    (_unescape (mget_iri_escape B mget_buffer_t.empty).data).1 = B := by
  rw [(escape_data B mget_buffer_t.empty empty_tight).1,
    cstr_of_no_nul B (fun c hc => (hB c hc).1)]
  exact unescape_escaped B (fun c hc => (hB c hc).2)

/-- Witness of C21 on the bytes of "a b/~" followed by the byte 0xE9: the escaped form is
"a%20b%2F~%E9" and unescaping it gives the bytes back. -/
theorem unescape_escape_roundtrip_witness :
    (mget_iri_escape (str "a b/~" ++ [233]) mget_buffer_t.empty).data = str "a%20b%2F~%E9" ∧
    (_unescape (mget_iri_escape (str "a b/~" ++ [233]) mget_buffer_t.empty).data).1 =
      str "a b/~" ++ [233] :=
  ⟨by decide, unescape_escape_roundtrip (str "a b/~" ++ [233]) (by decide)⟩

/-- C23 (code defect): "http://example.com/foo%00%51" is stored with the path
"foo%00%51", escapes and all, and its escaped resource is "foo%2500%2551"; the unescaped
copy of the URL, which ends at the decoded NUL ("http://example.com/foo"), is not the text
that is parsed. -/
theorem parse_percent_nul_kept (env : Env) (encoding : Option (List Nat)) :
    cstr (_unescape (str "http://example.com/foo%00%51")).1 = str "http://example.com/foo" ∧
    (mget_iri_parse env (str "http://example.com/foo%00%51") encoding).map
        (fun iri => (iri.path,
          (mget_iri_get_escaped_resource iri mget_buffer_t.empty).data)) =
      some (some (str "foo%00%51"), str "foo%2500%2551") := by
  have hp : mget_iri_parse env (str "http://example.com/foo%00%51") encoding =
      some ⟨str "http://example.com/foo%00%51", Scheme.http, none,
        some (str "example.com"), none, some (str "80"), some (str "foo%00%51"),
        none, none, none, false⟩ := rfl
  have he : (mget_iri_get_escaped_resource
      ⟨str "http://example.com/foo%00%51", Scheme.http, none,
        some (str "example.com"), none, some (str "80"), some (str "foo%00%51"),
        none, none, none, false⟩ mget_buffer_t.empty).data = str "foo%2500%2551" := by
    decide
  refine ⟨by decide, ?_⟩
  rw [hp]
  simp only [Option.map_some']
  rw [he]

/-- C24 (code defect): for "http://example.com/a?x/y" (query "x/y"), encoding "utf-8", an
empty buffer and the default page "index.html", `mget_iri_get_filename` gives
"a?x%2Fyx/y": the query with "%2F" for `/` is followed by the query as it is, so the file
name has a `/`.  (A query without `/` is written once: "http://example.com/a/?x" gives
"index.html?x".) -/
theorem filename_repeats_query_with_slash (env : Env) (encoding : Option (List Nat)) :
    (mget_iri_parse env (str "http://example.com/a?x/y") encoding).map
        (fun iri => (iri.path, iri.query,
          (mget_iri_get_filename env (some (str "index.html")) iri mget_buffer_t.empty
            (some (str "utf-8"))).data)) =
      some (some (str "a"), some (str "x/y"), str "a?x%2Fyx/y") ∧
    47 ∈ str "a?x%2Fyx/y" ∧
    (mget_iri_parse env (str "http://example.com/a/?x") encoding).map
        (fun iri => (iri.path, iri.query,
          (mget_iri_get_filename env (some (str "index.html")) iri mget_buffer_t.empty
            (some (str "utf-8"))).data)) =
      some (some (str "a/"), some (str "x"), str "index.html?x") := by
  have hp : mget_iri_parse env (str "http://example.com/a?x/y") encoding =
      some ⟨str "http://example.com/a?x/y", Scheme.http, none,
        some (str "example.com"), none, some (str "80"), some (str "a"),
        some (str "x/y"), none, none, false⟩ := rfl
  have he : (mget_iri_get_filename env (some (str "index.html"))
      ⟨str "http://example.com/a?x/y", Scheme.http, none,
        some (str "example.com"), none, some (str "80"), some (str "a"),
        some (str "x/y"), none, none, false⟩ mget_buffer_t.empty
      (some (str "utf-8"))).data = str "a?x%2Fyx/y" := by
    rfl
  have hp2 : mget_iri_parse env (str "http://example.com/a/?x") encoding =
      some ⟨str "http://example.com/a/?x", Scheme.http, none,
        some (str "example.com"), none, some (str "80"), some (str "a/"),
        some (str "x"), none, none, false⟩ := rfl
  have he2 : (mget_iri_get_filename env (some (str "index.html"))
      ⟨str "http://example.com/a/?x", Scheme.http, none,
        some (str "example.com"), none, some (str "80"), some (str "a/"),
        some (str "x"), none, none, false⟩ mget_buffer_t.empty
      (some (str "utf-8"))).data = str "index.html?x" := by
    rfl
  refine ⟨?_, by decide, ?_⟩
  · rw [hp]
    simp only [Option.map_some']
    rw [he]
  · rw [hp2]
    simp only [Option.map_some']
    rw [he2]

/-! ### The local path -/

theorem rd_last (p : List Nat) (hne : p ≠ []) : some (rd p (p.length - 1)) = p.getLast? := by
  rw [List.getLast?_eq_getElem?]
  unfold rd
  have hl : p.length - 1 < p.length := by
    have := List.length_pos.2 hne
    omega
  rw [List.getD_eq_getElem?_getD, List.getElem?_eq_getElem hl]
  rfl

theorem utf8_is_utf8 : mget_strcasecmp (some (str "utf-8")) (some (str "utf-8")) = 0 := by
  decide

/-- C25: for every IRI whose path is a C string, with encoding "utf-8", an empty output
buffer and the default page name D, `mget_iri_get_path` returns the stored path when it is
not empty and does not end in `/`, and otherwise the stored path (empty when the IRI has
no path) followed by D. -/
theorem get_path_appends_default_page (env : Env) (iri : MGET_IRI) (D : List Nat)
    (hp : ∀ c ∈ iri.path.getD [], c ≠ 0) (hD : ∀ c ∈ D, c ≠ 0) :
    (mget_iri_get_path env (some D) iri mget_buffer_t.empty (some (str "utf-8"))).data =
      if iri.path.getD [] ≠ [] ∧ (iri.path.getD []).getLast? ≠ some 47 then
        iri.path.getD []
      else iri.path.getD [] ++ D := by
  unfold mget_iri_get_path
  simp only [utf8_is_utf8, ne_eq, not_true_eq_false, if_false, mget_buffer_t.empty,
    Option.isSome_some, and_true, Option.getD_some, cstr_of_no_nul D hD]
  cases hpath : iri.path with
  | none =>
    simp [mget_buffer_memcat]
  | some p =>
    rw [hpath] at hp
    simp only [Option.getD_some] at hp ⊢
    simp only [mget_buffer_strcat, mget_buffer_memcat, cstr_of_no_nul p hp, List.take_zero,
      List.nil_append, Nat.zero_add]
    by_cases hne : p = []
    · subst hne
      simp
    · have hl := rd_last p hne
      have hlen : p.length ≠ 0 := fun e => hne (List.length_eq_zero.1 e)
      by_cases h47 : p.getLast? = some 47
      · rw [h47] at hl
        have hr : rd p (p.length - 1) = 47 := Option.some.inj hl
        simp [hne, h47, hr]
      · have hr : rd p (p.length - 1) ≠ 47 := by
          intro e
          rw [e] at hl
          exact h47 hl.symm
        simp [hne, h47, hr, hlen]

/-- Witness of C25 with the default page "index.html": the path "a/b" is returned as it
is, the path "a/" gives "a/index.html", and an IRI without a path gives "index.html". -/
theorem get_path_appends_default_page_witness :
    (mget_iri_get_path Env.plain (some (str "index.html"))
        ⟨str "http://h/a/b", Scheme.http, none, some (str "h"), none, some (str "80"),
          some (str "a/b"), none, none, none, false⟩
        mget_buffer_t.empty (some (str "utf-8"))).data = str "a/b" ∧
    (mget_iri_get_path Env.plain (some (str "index.html"))
        ⟨str "http://h/a/", Scheme.http, none, some (str "h"), none, some (str "80"),
          some (str "a/"), none, none, none, false⟩
        mget_buffer_t.empty (some (str "utf-8"))).data = str "a/index.html" ∧
    (mget_iri_get_path Env.plain (some (str "index.html"))
        ⟨str "http://h", Scheme.http, none, some (str "h"), none, some (str "80"),
          none, none, none, none, false⟩
        mget_buffer_t.empty (some (str "utf-8"))).data = str "index.html" :=
  ⟨(get_path_appends_default_page Env.plain
      ⟨str "http://h/a/b", Scheme.http, none, some (str "h"), none, some (str "80"),
        some (str "a/b"), none, none, none, false⟩ (str "index.html")
      (by decide) (by decide)).trans (by decide),
   (get_path_appends_default_page Env.plain
      ⟨str "http://h/a/", Scheme.http, none, some (str "h"), none, some (str "80"),
        some (str "a/"), none, none, none, false⟩ (str "index.html")
      (by decide) (by decide)).trans (by decide),
   (get_path_appends_default_page Env.plain
      ⟨str "http://h", Scheme.http, none, some (str "h"), none, some (str "80"),
        none, none, none, none, false⟩ (str "index.html")
      (by decide) (by decide)).trans (by decide)⟩

/-! ### Comparison -/

theorem strcasecmp_self (a : List Nat) : strcasecmp a a = 0 := by
  induction a with
  | nil => rfl
  | cons x a ih => simp [strcasecmp, ih]

theorem strcmp_self (a : List Nat) : strcmp a a = 0 := by
  induction a with
  | nil => rfl
  | cons x a ih => simp [strcmp, ih]

theorem mget_strcasecmp_self (a : Option (List Nat)) : mget_strcasecmp a a = 0 := by
  cases a with
  | none => rfl
  | some a => exact strcasecmp_self a

theorem mget_strcmp_self (a : Option (List Nat)) : mget_strcmp a a = 0 := by
  cases a with
  | none => rfl
  | some a => exact strcmp_self a

theorem compare_defined (before : SchemePtr → SchemePtr → Bool) (a1 a2 : Nat)
    (A B : MGET_IRI) (hA : A.host ≠ none) (hB : B.host ≠ none) :
    mget_iri_compare before a1 A a2 B ≠ none := by
  unfold mget_iri_compare
  cases hhA : A.host with
  | none => exact absurd hhA hA
  | some h1 =>
    cases hhB : B.host with
    | none => exact absurd hhB hB
    | some h2 =>
      simp only
      split_ifs <;> simp

theorem compare_without_host (before : SchemePtr → SchemePtr → Bool) (a : Nat)
    (A : MGET_IRI) (hA : A.host = none) : mget_iri_compare before a A a A = none := by
  unfold mget_iri_compare
  simp only [mget_strcasecmp_self, mget_strcmp_self, ne_eq, not_true_eq_false, if_false]
  rw [hA]

theorem compare_two_objects (before : SchemePtr → SchemePtr → Bool) (a1 a2 : Nat)
    (A : MGET_IRI) (name : List Nat) (hs : A.scheme = Scheme.other name) (ha : a1 ≠ a2) :
    mget_iri_compare before a1 A a2 A ≠ some 0 := by
  have hne : scheme_ptr a1 A.scheme ≠ scheme_ptr a2 A.scheme := by
    rw [hs]
    intro e
    exact ha (SchemePtr.inside.inj e)
  unfold mget_iri_compare
  simp only [mget_strcasecmp_self, ne_eq, not_true_eq_false, if_false, hne,
    not_false_eq_true, if_true]
  cases before (scheme_ptr a1 A.scheme) (scheme_ptr a2 A.scheme) <;> simp

/-- C26 (as stated, refuted): two IRIs parsed from the same URL "ftp://h/p" agree on
path, query, scheme name, port and host, but when they are two objects (here at the
addresses 1 and 2) their `scheme` pointers differ, each pointing into its own object, and
`mget_iri_compare` does not return 0, whatever the order of the two addresses.  And for
the IRI parsed from "file:///foo", which has no host, the comparison with itself reads
through a NULL pointer. -/
theorem compare_unknown_scheme_objects_differ :
    (∃ A, mget_iri_parse Env.plain (str "ftp://h/p") none = some A ∧
      ∀ before, mget_iri_compare before 1 A 2 A ≠ some 0) ∧
    (∃ F, mget_iri_parse Env.plain (str "file:///foo") none = some F ∧
      ∀ before a, mget_iri_compare before a F a F = none) :=
  ⟨⟨⟨str "ftp://h/p", Scheme.other (str "ftp"), none, some (str "h"), none, none,
      some (str "p"), none, none, none, false⟩, rfl,
      fun before => compare_two_objects before 1 2 _ (str "ftp") rfl (by decide)⟩,
    ⟨⟨str "file:///foo", Scheme.other (str "file"), none, none, none, none,
      some (str "foo"), none, none, none, false⟩, rfl,
      fun before a => compare_without_host before a _ rfl⟩⟩

/-- C26 (amended): for all IRIs A and B (objects at the addresses a1 and a2) that have
the same path, query, scheme, port and host, where the host is present and the scheme is
http or https or A and B are one object, `mget_iri_compare(A, B)` is 0, whatever the
fragments and userinfo are.  In particular `mget_iri_compare(A, A)` is 0 for every IRI A
that has a host. -/
theorem compare_equal_components (before : SchemePtr → SchemePtr → Bool) (a1 a2 : Nat)
    (A B : MGET_IRI) (hpath : A.path = B.path) (hquery : A.query = B.query)
    (hscheme : A.scheme = B.scheme)
    (hptr : A.scheme = Scheme.http ∨ A.scheme = Scheme.https ∨ a1 = a2)
    (hport : A.port = B.port) (hhost : A.host = B.host) (hh : A.host ≠ none) :
    mget_iri_compare before a1 A a2 B = some 0 := by
  have hsp : scheme_ptr a1 A.scheme = scheme_ptr a2 B.scheme := by
    rw [← hscheme]
    rcases hptr with h | h | h
    · rw [h]; rfl
    · rw [h]; rfl
    · rw [h]
  unfold mget_iri_compare
  rw [← hpath, ← hquery, ← hport, ← hhost, hsp]
  simp only [mget_strcasecmp_self, mget_strcmp_self, ne_eq, not_true_eq_false, if_false]
  cases hA : A.host with
  | none => exact absurd hA hh
  | some h => simp [strcmp_self]

/-- Witness of C26 (amended): the IRIs of "http://u@h/p?q#f" and "http://h/p?q#g", two
objects at the addresses 1 and 2, compare equal. -/
theorem compare_equal_components_witness :
    mget_iri_compare (fun _ _ => true)
      1 ⟨str "http://u@h/p?q#f", Scheme.http, some (str "u"), some (str "h"), none,
        some (str "80"), some (str "p"), some (str "q"), some (str "f"), none, false⟩
      2 ⟨str "http://h/p?q#g", Scheme.http, none, some (str "h"), none,
        some (str "80"), some (str "p"), some (str "q"), some (str "g"), none, false⟩ =
      some 0 :=
  compare_equal_components (fun _ _ => true) 1 2
    ⟨str "http://u@h/p?q#f", Scheme.http, some (str "u"), some (str "h"), none,
      some (str "80"), some (str "p"), some (str "q"), some (str "f"), none, false⟩
    ⟨str "http://h/p?q#g", Scheme.http, none, some (str "h"), none,
      some (str "80"), some (str "p"), some (str "q"), some (str "g"), none, false⟩
    rfl rfl rfl (Or.inl rfl) rfl rfl (by decide)

/-! ### Reads of the host -/

/-- C30 (as stated, refuted): "file:///foo" is parsed (scheme "file", path "foo") into an
IRI without a host, and on it `mget_iri_get_connection_part`, `mget_iri_get_escaped_host`
and `mget_iri_compare` read through the NULL host. -/
theorem parse_unknown_scheme_without_host :
    ∃ iri, mget_iri_parse Env.plain (str "file:///foo") none = some iri ∧
      iri.scheme = Scheme.other (str "file") ∧ iri.host = none ∧
      mget_iri_get_connection_part iri = none ∧
      mget_iri_get_escaped_host iri mget_buffer_t.empty = none ∧
      mget_iri_compare (fun _ _ => true) 1 iri 1 iri = none :=
  ⟨⟨str "file:///foo", Scheme.other (str "file"), none, none, none, none,
      some (str "foo"), none, none, none, false⟩, rfl, rfl, rfl, rfl, rfl, by decide⟩

/-- C30 (amended): for every input URL on which `mget_iri_parse` succeeds with the scheme
http or https, the result has a host (its text may be empty), so
`mget_iri_get_connection_part`, `mget_iri_get_escaped_host` and `mget_iri_compare` (with
itself or with any IRI that has a host) are defined on it. -/
theorem parsed_http_iri_has_host (env : Env) (url : List Nat)
    (encoding : Option (List Nat)) (iri : MGET_IRI)
    (hparse : mget_iri_parse env url encoding = some iri)
    (hs : iri.scheme = Scheme.http ∨ iri.scheme = Scheme.https) :
    iri.host ≠ none ∧ mget_iri_get_connection_part iri ≠ none ∧
    (∀ buf, mget_iri_get_escaped_host iri buf ≠ none) ∧
    (∀ before a, mget_iri_compare before a iri a iri ≠ none) ∧
    (∀ before a b other, other.host ≠ none →
      mget_iri_compare before a iri b other ≠ none ∧
      mget_iri_compare before b other a iri ≠ none) := by
  have hh := parse_http_host_present env url encoding iri hparse hs
  refine ⟨hh, ?_, ?_, fun before a => compare_defined before a a iri iri hh hh,
    fun before a b other ho => ⟨compare_defined before a b iri other hh ho,
      compare_defined before b a other iri ho hh⟩⟩
  · unfold mget_iri_get_connection_part _iri_build_connection_part
    cases hc : iri.connection_part with
    | some c => simp
    | none =>
      cases hhost : iri.host with
      | none => exact absurd hhost hh
      | some h =>
        cases iri.port <;> simp
  · intro buf
    unfold mget_iri_get_escaped_host
    cases hhost : iri.host with
    | none => exact absurd hhost hh
    | some h => simp

/-- Witness of C30 (amended) on "https://example.com/x". -/
theorem parsed_http_iri_has_host_witness :
    ∃ iri, mget_iri_parse Env.plain (str "https://example.com/x") none = some iri ∧
      iri.scheme = Scheme.https ∧ iri.host = some (str "example.com") ∧
      mget_iri_get_connection_part iri = some (str "https://example.com") ∧
      mget_iri_get_connection_part iri ≠ none :=
  ⟨⟨str "https://example.com/x", Scheme.https, none, some (str "example.com"), none,
      some (str "443"), some (str "x"), none, none, none, false⟩, rfl, rfl, rfl, rfl,
    (parsed_http_iri_has_host Env.plain (str "https://example.com/x") none
      ⟨str "https://example.com/x", Scheme.https, none, some (str "example.com"), none,
        some (str "443"), some (str "x"), none, none, none, false⟩ rfl (Or.inr rfl)).2.1⟩

/-! ### Parsing a URL and building it again -/

theorem iri_scheme_https (r : List Nat) :
    iri_scheme (str "https://" ++ r) = (Scheme.https, some (str "443"), r) := by
  have e : str "https://" ++ r = 104 :: 116 :: 116 :: 112 :: 115 :: 58 :: 47 :: 47 :: r := rfl
  have e1 : strcasecmp (str "http") [104, 116, 116, 112, 115] ≠ 0 := by decide
  have e2 : strcasecmp (str "https") [104, 116, 116, 112, 115] = 0 := by decide
  rw [e]
  unfold iri_scheme
  simp [_iri_isgendelim, e1, e2]

theorem parse_https_host_path (env : Env) (encoding : Option (List Nat))
    (H P : List Nat) (hH : H ≠ []) (aH : ascii_text H) (aP : ascii_text P)
    (dH : avoids H [47, 63, 35, 64, 58, 91]) (dP : avoids P [63, 35]) :
    mget_iri_parse env (str "https://" ++ (H ++ 47 :: P)) encoding =
      some ⟨str "https://" ++ (H ++ 47 :: P), Scheme.https, none, some (H.map lower), none,
        some (str "443"), some P, none, none, none, false⟩ := by
  have hpre : ∀ x ∈ str "https://", 0 < x ∧ x < 128 ∧ x ≠ 37 := by decide
  have hU : ∀ x ∈ str "https://" ++ (H ++ 47 :: P), 0 < x ∧ x < 128 ∧ x ≠ 37 := by
    intro x hx
    simp only [List.mem_append, List.mem_cons] at hx
    rcases hx with hx | hx | hx | hx
    · exact hpre x hx
    · exact aH x hx
    · subst hx; decide
    · exact aP x hx
  have h1 := needs_encoding_ascii _ (fun x hx => ⟨(hU x hx).1, (hU x hx).2.1⟩)
  have h0 : ∀ x ∈ str "https://" ++ (H ++ 47 :: P), x ≠ 0 :=
    fun x hx => Nat.pos_iff_ne_zero.1 (hU x hx).1
  have hprep := iri_prepare_no_conversion env _ encoding h0 rfl (by
      intro e
      have : (104 : Nat) ∈ str "https://" ++ (H ++ 47 :: P) :=
        List.mem_append_left _ (by decide)
      rw [e] at this
      cases this) h1 (by
      rw [unescape_no_percent _ (fun x hx => (hU x hx).2.2), cstr_of_no_nul _ h0]
      exact h1)
  have hauth := iri_authority_host_only (some (str "443")) H hH
    (fun x hx hm => dH x hx (by
      simp only [List.mem_cons, List.mem_singleton, List.not_mem_nil, or_false] at hm ⊢
      omega))
  have hsplit := iri_split_path_only H P
    (fun x hx hm => dH x hx (by
      simp only [List.mem_cons, List.mem_singleton, List.not_mem_nil, or_false] at hm ⊢
      omega)) dP
  have hhost := iri_host_ascii env H (fun x hx => ⟨(aH x hx).1, (aH x hx).2.1⟩)
  unfold mget_iri_parse
  rw [hprep]
  simp only [iri_scheme_https, hsplit, hauth, hhost]
  rfl

theorem unreserved_path_plain (c : Nat) (h : mget_iri_isunreserved_path c = true) :
    (0 < c ∧ c < 128 ∧ c ≠ 37) ∧ c ∉ [63, 35] ∧ (c ≠ 47 → c ∉ [47, 63, 35, 64, 58, 91]) := by
  have h2 := (isunreserved_path_iff c).1 h
  unfold isalnum at h2
  simp only [Bool.and_eq_true, Bool.or_eq_true, decide_eq_true_eq] at h2
  simp only [List.mem_cons, List.mem_singleton, List.not_mem_nil, or_false]
  omega

theorem unreserved_is_path (c : Nat) (h : mget_iri_isunreserved c = true) :
    mget_iri_isunreserved_path c = true ∧ c ≠ 47 := by
  have h2 := (isunreserved_iff c).1 h
  refine ⟨(isunreserved_path_iff c).2 ?_, ?_⟩
  · rcases h2 with x | x | x | x | x
    · exact Or.inl x
    · exact Or.inr (Or.inl x)
    · exact Or.inr (Or.inr (Or.inl x))
    · exact Or.inr (Or.inr (Or.inr (Or.inl x)))
    · exact Or.inr (Or.inr (Or.inr (Or.inr (Or.inl x))))
  · unfold isalnum at h2
    simp only [Bool.and_eq_true, Bool.or_eq_true, decide_eq_true_eq] at h2
    omega

theorem flatMap_keep (keep : Nat → Bool) (enc : Nat → List Nat) (l : List Nat)
    (h : ∀ c ∈ l, keep c = true) :
    l.flatMap (fun c => if keep c = true then [c] else enc c) = l := by
  induction l with
  | nil => rfl
  | cons c l ih =>
    rw [List.flatMap_cons, if_pos (h c (List.mem_cons_self _ _)),
      ih (fun x hx => h x (List.mem_cons_of_mem _ hx))]
    rfl

theorem rebuild_parsed (U : List Nat) (sch : Scheme) (H P : List Nat) (dp : List Nat)
    (uP : ∀ c ∈ P, mget_iri_isunreserved_path c = true) :
    rebuild_url ⟨U, sch, none, some H, none, some dp, some P, none, none, none, false⟩ =
      sch.text ++ str "://" ++ H ++ str "/" ++ P := by
  have h0 : ∀ c ∈ P, c ≠ 0 := fun c hc =>
    Nat.pos_iff_ne_zero.1 (unreserved_path_plain c (uP c hc)).1.1
  unfold rebuild_url
  rw [escaped_resource_data]
  simp only [List.append_nil, Option.getD_some]
  rw [(escape_path_data P mget_buffer_t.empty empty_tight).1, cstr_of_no_nul P h0,
    flatMap_keep _ _ P uP]
  rfl

/-- C22 (as stated, refuted): "http://Example.com/a" has only unreserved characters in
its host and path, and parsing and rebuilding it gives "http://example.com/a"; and
"http://example.com", which has no path, is rebuilt as "http://example.com/". -/
theorem rebuild_changes_url :
    (mget_iri_parse Env.plain (str "http://Example.com/a") none).map rebuild_url =
      some (str "http://example.com/a") ∧
    str "http://example.com/a" ≠ str "http://Example.com/a" ∧
    (mget_iri_parse Env.plain (str "http://example.com") none).map rebuild_url =
      some (str "http://example.com/") ∧
    str "http://example.com/" ≠ str "http://example.com" := by
  have h1 : mget_iri_parse Env.plain (str "http://Example.com/a") none =
      some ⟨str "http://Example.com/a", Scheme.http, none, some (str "example.com"), none,
        some (str "80"), some (str "a"), none, none, none, false⟩ := rfl
  have h2 : mget_iri_parse Env.plain (str "http://example.com") none =
      some ⟨str "http://example.com", Scheme.http, none, some (str "example.com"), none,
        some (str "80"), none, none, none, none, false⟩ := rfl
  rw [h1, h2]
  exact ⟨by decide, by decide, by decide, by decide⟩

/-- C22 (amended): for every URL U = S + "://" + H + "/" + P where S is "http" or
"https", the host H is a non-empty string of unreserved characters and P is a string of
unreserved characters and `/`, parsing U and rebuilding scheme + "://" + host + "/" +
escaped_resource gives S + "://" + H' + "/" + P, where H' is H with its letters in lower
case; so U is reproduced byte for byte when H has no upper-case letter. -/
theorem rebuild_of_unreserved_url (env : Env) (encoding : Option (List Nat))
    (S H P : List Nat) (hS : S = str "http" ∨ S = str "https") (hH : H ≠ [])
    (uH : ∀ c ∈ H, mget_iri_isunreserved c = true)
    (uP : ∀ c ∈ P, mget_iri_isunreserved c = true ∨ c = 47) :
    (mget_iri_parse env (S ++ str "://" ++ H ++ str "/" ++ P) encoding).map rebuild_url =
      some (S ++ str "://" ++ H.map lower ++ str "/" ++ P) ∧
    ((∀ c ∈ H, ¬ (65 ≤ c ∧ c ≤ 90)) →
      (mget_iri_parse env (S ++ str "://" ++ H ++ str "/" ++ P) encoding).map rebuild_url =
        some (S ++ str "://" ++ H ++ str "/" ++ P)) := by
  have uP2 : ∀ c ∈ P, mget_iri_isunreserved_path c = true := by
    intro c hc
    rcases uP c hc with h | h
    · exact (unreserved_is_path c h).1
    · rw [h]; decide
  have aH : ascii_text H := fun c hc =>
    (unreserved_path_plain c (unreserved_is_path c (uH c hc)).1).1
  have aP : ascii_text P := fun c hc => (unreserved_path_plain c (uP2 c hc)).1
  have dH : avoids H [47, 63, 35, 64, 58, 91] := fun c hc =>
    (unreserved_path_plain c (unreserved_is_path c (uH c hc)).1).2.2
      (unreserved_is_path c (uH c hc)).2
  have dP : avoids P [63, 35] := fun c hc => (unreserved_path_plain c (uP2 c hc)).2.1
  have main : (mget_iri_parse env (S ++ str "://" ++ H ++ str "/" ++ P) encoding).map
      rebuild_url = some (S ++ str "://" ++ H.map lower ++ str "/" ++ P) := by
    rcases hS with h | h
    · have eU : S ++ str "://" ++ H ++ str "/" ++ P = str "http://" ++ (H ++ 47 :: P) := by
        rw [h]
        simp [str]
      rw [eU, parse_http_host_path env encoding H P hH aH aP dH dP, Option.map_some',
        rebuild_parsed _ _ _ _ _ uP2, h]
      rfl
    · have eU : S ++ str "://" ++ H ++ str "/" ++ P = str "https://" ++ (H ++ 47 :: P) := by
        rw [h]
        simp [str]
      rw [eU, parse_https_host_path env encoding H P hH aH aP dH dP, Option.map_some',
        rebuild_parsed _ _ _ _ _ uP2, h]
      rfl
  refine ⟨main, fun hl => ?_⟩
  rw [main]
  have e : H.map lower = H := by
    conv_rhs => rw [← List.map_id H]
    apply List.map_congr_left
    intro c hc
    unfold lower
    rw [if_neg (hl c hc)]
    rfl
  rw [e]

/-- Witness of C22 (amended): "https://example.com/a/b.html" is reproduced, and
"http://Example.com/a" is rebuilt as "http://example.com/a". -/
theorem rebuild_of_unreserved_url_witness :
    (mget_iri_parse Env.plain (str "https://example.com/a/b.html") none).map rebuild_url =
      some (str "https://example.com/a/b.html") ∧
    (mget_iri_parse Env.plain (str "http://Example.com/a") none).map rebuild_url =
      some (str "http://example.com/a") :=
  ⟨(rebuild_of_unreserved_url Env.plain none (str "https") (str "example.com")
      (str "a/b.html") (Or.inr rfl) (by decide) (by decide) (by decide)).2 (by decide),
   (rebuild_of_unreserved_url Env.plain none (str "http") (str "Example.com")
      (str "a") (Or.inl rfl) (by decide) (by decide) (by decide)).1⟩

/-! ### The robots.txt parser, line by line -/

theorem lower_eq_lf (b : Nat) (h : b ≠ 10) : lower b ≠ 10 := by
  unfold lower
  split <;> omega

theorem starts_with_nil (l : List Nat) : starts_with [] l = true := by
  simp [starts_with]

theorem starts_with_of_nil (b : Nat) (bs : List Nat) : starts_with (b :: bs) [] = false := by
  simp [starts_with]

theorem starts_with_cons (b : Nat) (bs : List Nat) (a : Nat) (as : List Nat) :
    starts_with (b :: bs) (a :: as) = true ↔ lower a = lower b ∧ starts_with bs as = true := by
  simp [starts_with]

theorem strncase_cut (s : List Nat) (hs : ∀ b ∈ s, b ≠ 0 ∧ b ≠ 10) (l tail : List Nat)
    (ht : tail.headD 10 = 10) :
    wget_strncasecmp_ascii (l ++ tail) s s.length = 0 ↔ starts_with s l = true := by
  induction s generalizing l with
  | nil => simp [wget_strncasecmp_ascii, starts_with_nil]
  | cons b bs ih =>
    have hb := hs b (List.mem_cons_self _ _)
    have ih2 := ih (fun x hx => hs x (List.mem_cons_of_mem _ hx))
    have hl0 : (lower b : Int) ≠ 0 := by
      have := lower_ne_zero b hb.1
      omega
    cases l with
    | nil =>
      rw [List.nil_append, starts_with_of_nil]
      cases tail with
      | nil =>
        simp only [List.length_cons, wget_strncasecmp_ascii]
        constructor
        · intro h
          omega
        · intro h
          cases h
      | cons t rest =>
        have e : t = 10 := ht
        subst e
        have hne : lower 10 ≠ lower b := by
          have := lower_eq_lf b hb.2
          intro e
          exact this e.symm
        simp only [List.length_cons, wget_strncasecmp_ascii, hne, if_false]
        constructor
        · intro h
          have : (lower 10 : Int) = (lower b : Int) := by omega
          exact absurd (Int.ofNat_inj.1 this) hne
        · intro h
          cases h
    | cons a as =>
      rw [List.cons_append, starts_with_cons]
      simp only [List.length_cons, wget_strncasecmp_ascii]
      by_cases he : lower a = lower b
      · simp only [he, if_true, true_and]
        exact ih2 as
      · simp only [he, if_false, false_and]
        constructor
        · intro h
          have : (lower a : Int) = (lower b : Int) := by omega
          exact absurd (Int.ofNat_inj.1 this) he
        · intro h
          cases h

theorem starts_with_length (s l : List Nat) (h : starts_with s l = true) :
    s.length ≤ l.length := by
  unfold starts_with at h
  have h2 := congrArg List.length (of_decide_eq_true h)
  simp only [List.length_map, List.length_take] at h2
  omega

theorem starts_with_head (a b : Nat) (s t l : List Nat)
    (h1 : starts_with (a :: s) l = true) (h2 : starts_with (b :: t) l = true) :
    lower a = lower b := by
  cases l with
  | nil => rw [starts_with_of_nil] at h1; cases h1
  | cons c l =>
    rw [starts_with_cons] at h1 h2
    rw [← h1.1, ← h2.1]

theorem dropWhile_append_tail (p : Nat → Bool) (m tail : List Nat)
    (ht : tail = [] ∨ ∃ c t, tail = c :: t ∧ p c = false) :
    (m ++ tail).dropWhile p = m.dropWhile p ++ tail := by
  induction m with
  | nil =>
    rcases ht with h | ⟨c, t, h, hc⟩
    · rw [h]; rfl
    · rw [h]; simp [List.dropWhile, hc]
  | cons a m ih =>
    by_cases ha : p a = true
    · simp only [List.cons_append, List.dropWhile_cons, ha, if_true]
      exact ih
    · simp only [List.cons_append, List.dropWhile_cons, ha, if_false, Bool.false_eq_true]

theorem takeWhile_append_tail (p : Nat → Bool) (m tail : List Nat)
    (ht : tail = [] ∨ ∃ c t, tail = c :: t ∧ p c = false) :
    (m ++ tail).takeWhile p = m.takeWhile p := by
  induction m with
  | nil =>
    rcases ht with h | ⟨c, t, h, hc⟩
    · rw [h]; rfl
    · rw [h]; simp [List.takeWhile, hc]
  | cons a m ih =>
    by_cases ha : p a = true
    · simp only [List.cons_append, List.takeWhile_cons, ha, if_true]
      rw [ih]
    · simp only [List.cons_append, List.takeWhile_cons, ha, if_false, Bool.false_eq_true]

theorem tail_cases (tail : List Nat) (ht : tail.headD 10 = 10) :
    tail = [] ∨ ∃ t, tail = 10 :: t := by
  cases tail with
  | nil => exact Or.inl rfl
  | cons c t =>
    have e : c = 10 := ht
    exact Or.inr ⟨t, by rw [e]⟩

theorem skip_blanks_cut (s l tail : List Nat) (ht : tail.headD 10 = 10)
    (hs : starts_with s l = true) :
    skip_blanks s.length (l ++ tail) = directive_rest s l ++ tail := by
  unfold skip_blanks directive_rest
  rw [List.drop_append_of_le_length (starts_with_length s l hs)]
  apply dropWhile_append_tail
  rcases tail_cases tail ht with h | ⟨t, h⟩
  · exact Or.inl h
  · exact Or.inr ⟨10, t, h, by decide⟩

theorem token_cut (v tail : List Nat) (ht : tail.headD 10 = 10) :
    token (v ++ tail) = token v := by
  unfold token
  apply takeWhile_append_tail
  rcases tail_cases tail ht with h | ⟨t, h⟩
  · exact Or.inl h
  · exact Or.inr ⟨10, t, h, by decide⟩

theorem directive_rest_subset (s l : List Nat) : ∀ c ∈ directive_rest s l, c ∈ l := by
  intro c hc
  unfold directive_rest at hc
  exact List.mem_of_mem_drop ((List.dropWhile_suffix _).subset hc)

theorem head_cut (v tail : List Nat) (ht : tail.headD 10 = 10) (c : Nat)
    (h0 : c ≠ 0) (h10 : c ≠ 10) : (v ++ tail).headD 0 = c ↔ v.headD 0 = c := by
  cases v with
  | nil =>
    rcases tail_cases tail ht with h | ⟨t, h⟩
    · rw [h]
      rfl
    · rw [h]
      simp only [List.nil_append, List.headD_cons, List.headD_nil]
      constructor
      · intro e; exact absurd e.symm h10
      · intro e; exact absurd e.symm h0
  | cons a v => rfl

theorem empty_cut (v tail : List Nat) (ht : tail.headD 10 = 10)
    (hv : ∀ c ∈ v, c ≠ 10 ∧ c ≠ 0) :
    ((v ++ tail).headD 0 = 13 ∨ (v ++ tail).headD 0 = 10 ∨ (v ++ tail).headD 0 = 0) ↔
      (v == [] || v.headD 0 == 13) = true := by
  cases v with
  | nil =>
    rcases tail_cases tail ht with h | ⟨t, h⟩
    · rw [h]; simp
    · rw [h]; simp
  | cons a v =>
    have ha := hv a (List.mem_cons_self _ _)
    simp [ha.1, ha.2]

theorem robots_line_cut (client : Option (List Nat)) (st : RobotsState) (l tail : List Nat)
    (hl : ∀ c ∈ l, c ≠ 10 ∧ c ≠ 0) (ht : tail.headD 10 = 10) :
    (robots_line client st (l ++ tail)).1 =
      line_step (agent_test client (directive_rest (str "User-agent:") l ++ tail)) st l ∧
    ∃ l', (∀ c ∈ l', c ≠ 10) ∧ (robots_line client st (l ++ tail)).2 = l' ++ tail := by
  have hua : wget_strncasecmp_ascii (l ++ tail) (str "User-agent:") 11 = 0 ↔
      starts_with (str "User-agent:") l = true :=
    strncase_cut (str "User-agent:") (by decide) l tail ht
  have hdis : wget_strncasecmp_ascii (l ++ tail) (str "Disallow:") 9 = 0 ↔
      starts_with (str "Disallow:") l = true :=
    strncase_cut (str "Disallow:") (by decide) l tail ht
  have hsm : wget_strncasecmp_ascii (l ++ tail) (str "Sitemap:") 8 = 0 ↔
      starts_with (str "Sitemap:") l = true :=
    strncase_cut (str "Sitemap:") (by decide) l tail ht
  have hrest : ∀ s, ∀ c ∈ directive_rest s l, c ≠ 10 :=
    fun s c hc => (hl c (directive_rest_subset s l c hc)).1
  have hl10 : ∀ c ∈ l, c ≠ 10 := fun c hc => (hl c hc).1
  unfold robots_line line_step
  simp only [hua, hdis, hsm]
  by_cases h1 : st.collect < 2 ∧ starts_with (str "User-agent:") l = true
  · rw [if_pos h1, if_pos h1]
    have hs : skip_blanks 11 (l ++ tail) = directive_rest (str "User-agent:") l ++ tail :=
      skip_blanks_cut (str "User-agent:") l tail ht h1.2
    by_cases h0 : st.collect = 0
    · rw [if_pos h0, if_pos h0]
      simp only [hs]
      cases agent_test client (directive_rest (str "User-agent:") l ++ tail)
      · exact ⟨rfl, _, hrest _, rfl⟩
      · exact ⟨rfl, _, hrest _, rfl⟩
    · rw [if_neg h0, if_neg h0]
      exact ⟨rfl, l, hl10, rfl⟩
  · rw [if_neg h1, if_neg h1]
    by_cases h2 : st.collect = 1 ∧ starts_with (str "Disallow:") l = true
    · rw [if_pos h2, if_pos h2]
      have hs : skip_blanks 9 (l ++ tail) = directive_rest (str "Disallow:") l ++ tail :=
        skip_blanks_cut (str "Disallow:") l tail ht h2.2
      have he := empty_cut (directive_rest (str "Disallow:") l) tail ht
        (fun c hc => hl c (directive_rest_subset _ l c hc))
      have hde : disallow_empty l =
          (directive_rest (str "Disallow:") l == [] ||
            (directive_rest (str "Disallow:") l).headD 0 == 13) := by
        unfold disallow_empty
        rw [h2.2, Bool.true_and]
      rw [← hde] at he
      simp only [hs, he, token_cut _ tail ht]
      unfold directive_value
      cases disallow_empty l
      · exact ⟨rfl, _, hrest _, rfl⟩
      · exact ⟨rfl, _, hrest _, rfl⟩
    · rw [if_neg h2, if_neg h2]
      by_cases h3 : starts_with (str "Sitemap:") l = true
      · rw [if_pos h3, if_pos h3]
        have hs : skip_blanks 8 (l ++ tail) = directive_rest (str "Sitemap:") l ++ tail :=
          skip_blanks_cut (str "Sitemap:") l tail ht h3
        simp only [hs, token_cut _ tail ht]
        exact ⟨rfl, _, hrest _, rfl⟩
      · rw [if_neg h3, if_neg h3]
        exact ⟨rfl, l, hl10, rfl⟩

theorem lines_cons_line (l rest : List Nat) (hl : ∀ c ∈ l, c ≠ 10) :
    lines (l ++ 10 :: rest) = l :: lines rest := by
  induction l with
  | nil => simp [lines]
  | cons c l ih =>
    have hc := hl c (List.mem_cons_self _ _)
    rw [List.cons_append, lines, if_neg hc, ih (fun x hx => hl x (List.mem_cons_of_mem _ hx))]

theorem lines_single (l : List Nat) (hl : ∀ c ∈ l, c ≠ 10) (hne : l ≠ []) :
    lines l = [l] := by
  induction l with
  | nil => exact absurd rfl hne
  | cons c l ih =>
    have hc := hl c (List.mem_cons_self _ _)
    rw [lines, if_neg hc]
    cases l with
    | nil => rfl
    | cons d l =>
      rw [ih (fun x hx => hl x (List.mem_cons_of_mem _ hx)) (by simp)]

theorem line_span (data : List Nat) :
    ∃ l tail, data = l ++ tail ∧ (∀ c ∈ l, c ≠ 10) ∧ tail.headD 10 = 10 := by
  refine ⟨data.takeWhile (fun c => c != 10), data.dropWhile (fun c => c != 10),
    (List.takeWhile_append_dropWhile _ _).symm, ?_, ?_⟩
  · intro c hc
    have := (span_decomp (fun c => c != 10) data).1 c hc
    simpa using this
  · rcases (span_decomp (fun c => c != 10) data).2 with h | ⟨c, t, h, hc⟩
    · rw [h]; rfl
    · rw [h]
      simpa using hc

theorem robots_loop_fold {α : Type} (client : Option (List Nat)) (f : RobotsState → α)
    (g : α → List Nat → α)
    (hstep : ∀ st l tail, (∀ c ∈ l, c ≠ 10 ∧ c ≠ 0) → tail.headD 10 = 10 →
      f (robots_line client st (l ++ tail)).1 = g (f st) l) :
    ∀ fuel st data, (∀ c ∈ data, c ≠ 0) → data ≠ [] → data.length ≤ fuel →
      f (robots_loop client fuel st data) = (lines data).foldl g (f st) := by
  intro fuel
  induction fuel with
  | zero =>
    intro st data _ hne hlen
    exact absurd (List.length_eq_zero.1 (Nat.le_zero.1 hlen)) hne
  | succ fuel ih =>
    intro st data h0 hne hlen
    obtain ⟨l, tail, hd, hl, ht⟩ := line_span data
    subst hd
    have hl2 : ∀ c ∈ l, c ≠ 10 ∧ c ≠ 0 :=
      fun c hc => ⟨hl c hc, h0 c (List.mem_append_left _ hc)⟩
    obtain ⟨l', hl', h2⟩ := (robots_line_cut client st l tail hl2 ht).2
    have hs := hstep st l tail hl2 ht
    have hp : ∀ x ∈ l', (fun c => c != 10) x = true := fun x hx => by simpa using hl' x hx
    rw [robots_loop]
    simp only [h2]
    rcases tail_cases tail ht with h | ⟨t, h⟩
    · subst h
      rw [List.append_nil, dropWhile_all _ l' hp]
      simp only [if_true]
      rw [List.append_nil] at hs hne ⊢
      rw [lines_single l hl hne, hs]
      rfl
    · subst h
      rw [dropWhile_append_stop _ l' 10 t hp (by decide)]
      simp only [List.tail_cons, if_false, List.cons_ne_nil]
      rw [lines_cons_line l t hl]
      by_cases hte : t = []
      · subst hte
        simp only [if_true, lines, List.foldl_cons, List.foldl_nil]
        exact hs
      · rw [if_neg hte, List.foldl_cons, ← hs]
        apply ih
        · exact fun c hc => h0 c (List.mem_append_right _ (List.mem_cons_of_mem _ hc))
        · exact hte
        · simp only [List.length_append, List.length_cons] at hlen
          omega

/-! ### The sitemaps of a robots.txt body -/

theorem agent_line_not_sitemap (l : List Nat) (h : starts_with (str "User-agent:") l = true) :
    starts_with (str "Sitemap:") l = false := by
  cases hs : starts_with (str "Sitemap:") l with
  | false => rfl
  | true =>
    have e := starts_with_head 85 83 (str "ser-agent:") (str "itemap:") l h hs
    exact absurd e (by decide)

theorem disallow_line_not_sitemap (l : List Nat) (h : starts_with (str "Disallow:") l = true) :
    starts_with (str "Sitemap:") l = false := by
  cases hs : starts_with (str "Sitemap:") l with
  | false => rfl
  | true =>
    have e := starts_with_head 68 83 (str "isallow:") (str "itemap:") l h hs
    exact absurd e (by decide)

theorem agent_line_not_disallow (l : List Nat) (h : starts_with (str "User-agent:") l = true) :
    starts_with (str "Disallow:") l = false := by
  cases hs : starts_with (str "Disallow:") l with
  | false => rfl
  | true =>
    have e := starts_with_head 85 68 (str "ser-agent:") (str "isallow:") l h hs
    exact absurd e (by decide)

theorem line_step_sitemaps (named : Bool) (st : RobotsState) (l : List Nat) :
    (line_step named st l).sitemaps =
      if starts_with (str "Sitemap:") l = true then
        st.sitemaps ++ [directive_value (str "Sitemap:") l]
      else st.sitemaps := by
  unfold line_step
  by_cases h1 : st.collect < 2 ∧ starts_with (str "User-agent:") l = true
  · rw [if_pos h1, agent_line_not_sitemap l h1.2]
    simp only [Bool.false_eq_true, if_false]
    split_ifs <;> rfl
  · rw [if_neg h1]
    by_cases h2 : st.collect = 1 ∧ starts_with (str "Disallow:") l = true
    · rw [if_pos h2, disallow_line_not_sitemap l h2.2]
      simp only [Bool.false_eq_true, if_false]
      split_ifs <;> rfl
    · rw [if_neg h2]
      split_ifs <;> rfl

theorem foldl_collect {β : Type} (p : List Nat → Bool) (v : List Nat → β) (ls : List (List Nat))
    (acc : List β) :
    ls.foldl (fun sm l => if p l = true then sm ++ [v l] else sm) acc =
      acc ++ (ls.filter p).map v := by
  induction ls generalizing acc with
  | nil => simp
  | cons l ls ih =>
    rw [List.foldl_cons, ih]
    by_cases hp : p l = true
    · simp [hp]
    · simp [hp]

/-- C29: for every non-empty robots.txt body and every client (also for none), the
sitemaps returned by `wget_robots_parse` are the whitespace-delimited values of all the
lines that start with "Sitemap:", letters compared without regard to case, in the order
of the file.  The client does not occur in this list, and neither does the place of a
line among the "User-agent:" blocks. -/
theorem robots_sitemaps_of_all_lines (data : List Nat) (client : Option (List Nat))
    (hd : ∀ c ∈ data, c ≠ 0) (hne : data ≠ []) :
    (wget_robots_parse (some data) client).map (fun r => r.sitemaps) =
      some (((lines data).filter (starts_with (str "Sitemap:"))).map
        (directive_value (str "Sitemap:"))) := by
  have hfold := robots_loop_fold (client.map cstr) (fun st => st.sitemaps)
    (fun sm l => if starts_with (str "Sitemap:") l = true then
      sm ++ [directive_value (str "Sitemap:") l] else sm)
    (fun st l tail hl ht => by
      simp only
      rw [(robots_line_cut (client.map cstr) st l tail hl ht).1, line_step_sitemaps])
    data.length ⟨0, [], []⟩ data hd hne (le_refl _)
  simp only at hfold
  unfold wget_robots_parse
  simp only [cstr_of_no_nul data hd, hne, if_false, Option.map_some', Option.some.injEq]
  rw [hfold, foldl_collect]
  rfl

/-- Witness of C29: in "Sitemap: u1\nUser-agent: x\nsitemap:\tu2 z\nDisallow: /a\n" the
sitemaps are "u1" and "u2", for the client "bot". -/
theorem robots_sitemaps_of_all_lines_witness :
    (wget_robots_parse (some (str "Sitemap: u1\nUser-agent: x\nsitemap:\tu2 z\nDisallow: /a\n"))
        (some (str "bot"))).map (fun r => r.sitemaps) = some [str "u1", str "u2"] :=
  (robots_sitemaps_of_all_lines
    (str "Sitemap: u1\nUser-agent: x\nsitemap:\tu2 z\nDisallow: /a\n") (some (str "bot"))
    (by decide) (by decide)).trans (by decide)

/-! ### The disallowed paths of a robots.txt body -/

theorem agent_test_cut (client : Option (List Nat))
    (hc : ∀ c ∈ client.getD [], c ≠ 0 ∧ c ≠ 10) (l tail : List Nat)
    (ht : tail.headD 10 = 10) (hua : starts_with (str "User-agent:") l = true) :
    agent_test client (directive_rest (str "User-agent:") l ++ tail) =
      agent_matches client l := by
  unfold agent_test agent_matches
  rw [hua, Bool.true_and]
  have hh := head_cut (directive_rest (str "User-agent:") l) tail ht 42 (by decide)
    (by decide)
  have hhead : ((directive_rest (str "User-agent:") l ++ tail).headD 0 == 42) =
      ((directive_rest (str "User-agent:") l).headD 0 == 42) := by
    by_cases h : (directive_rest (str "User-agent:") l).headD 0 = 42
    · rw [beq_iff_eq.2 h, beq_iff_eq.2 (hh.2 h)]
    · have h2 : (directive_rest (str "User-agent:") l ++ tail).headD 0 ≠ 42 :=
        fun e => h (hh.1 e)
      rw [beq_eq_false_iff_ne.2 h, beq_eq_false_iff_ne.2 h2]
  rw [hhead]
  cases client with
  | none => rfl
  | some c =>
    have hs := strncase_cut c hc (directive_rest (str "User-agent:") l) tail ht
    simp only
    congr 1
    by_cases h : starts_with c (directive_rest (str "User-agent:") l) = true
    · rw [h]
      exact decide_eq_true (hs.2 h)
    · have h2 : ¬ wget_strncasecmp_ascii (directive_rest (str "User-agent:") l ++ tail) c
          c.length = 0 := fun e => h (hs.1 e)
      rw [Bool.not_eq_true] at h
      rw [h]
      exact decide_eq_false h2

theorem robots_line_state (client : Option (List Nat))
    (hc : ∀ c ∈ client.getD [], c ≠ 0 ∧ c ≠ 10) (st : RobotsState) (l tail : List Nat)
    (hl : ∀ c ∈ l, c ≠ 10 ∧ c ≠ 0) (ht : tail.headD 10 = 10) :
    (robots_line client st (l ++ tail)).1 = line_step (agent_matches client l) st l := by
  rw [(robots_line_cut client st l tail hl ht).1]
  by_cases hua : starts_with (str "User-agent:") l = true
  · rw [agent_test_cut client hc l tail ht hua]
  · have hn : ¬ (st.collect < 2 ∧ starts_with (str "User-agent:") l = true) :=
      fun h => hua h.2
    unfold line_step
    simp only [hn, if_false]

theorem line_step_done (named : Bool) (st : RobotsState) (l : List Nat)
    (h : st.collect = 2) :
    (line_step named st l).collect = 2 ∧ (line_step named st l).paths = st.paths := by
  unfold line_step
  simp only [h, Nat.lt_irrefl, false_and, if_false, OfNat.ofNat_ne_one]
  split_ifs
  · exact ⟨rfl, rfl⟩
  · exact ⟨h, rfl⟩

theorem line_step_other (named : Bool) (st : RobotsState) (l : List Nat)
    (h1 : starts_with (str "User-agent:") l = false)
    (h2 : starts_with (str "Disallow:") l = false) :
    (line_step named st l).collect = st.collect ∧
      (line_step named st l).paths = st.paths := by
  unfold line_step
  simp only [h1, h2, Bool.false_eq_true, and_false, if_false]
  split_ifs <;> exact ⟨rfl, rfl⟩

theorem steps_done (named : List Nat → Bool) (ls : List (List Nat)) (st : RobotsState)
    (h : st.collect = 2) :
    (ls.foldl (fun st l => line_step (named l) st l) st).paths = st.paths := by
  induction ls generalizing st with
  | nil => rfl
  | cons l ls ih =>
    rw [List.foldl_cons, ih _ (line_step_done (named l) st l h).1,
      (line_step_done (named l) st l h).2]

theorem steps_collecting (named : List Nat → Bool) (ls : List (List Nat))
    (st : RobotsState) (h : st.collect = 1) :
    ((∀ l ∈ ls.takeWhile (fun l => !starts_with (str "User-agent:") l),
        disallow_empty l = false) →
      (ls.foldl (fun st l => line_step (named l) st l) st).paths =
        st.paths ++ ((ls.takeWhile (fun l => !starts_with (str "User-agent:") l)).filter
          (starts_with (str "Disallow:"))).map
          (fun l => ⟨directive_value (str "Disallow:") l,
            (directive_value (str "Disallow:") l).length⟩)) ∧
    ((∃ l ∈ ls.takeWhile (fun l => !starts_with (str "User-agent:") l),
        disallow_empty l = true) →
      (ls.foldl (fun st l => line_step (named l) st l) st).paths = []) := by
  induction ls generalizing st with
  | nil =>
    refine ⟨fun _ => by simp, ?_⟩
    rintro ⟨l, hl, -⟩
    simp at hl
  | cons l ls ih =>
    rw [List.foldl_cons]
    cases hua : starts_with (str "User-agent:") l with
    | true =>
      have hst : line_step (named l) st l = ⟨2, st.paths, st.sitemaps⟩ := by
        unfold line_step
        simp [h, hua]
      have htw : (l :: ls).takeWhile (fun l => !starts_with (str "User-agent:") l) = [] := by
        simp [List.takeWhile, hua]
      rw [htw, hst, steps_done named ls _ rfl]
      refine ⟨fun _ => by simp, ?_⟩
      rintro ⟨l, hl, -⟩
      simp at hl
    | false =>
      have htw : (l :: ls).takeWhile (fun l => !starts_with (str "User-agent:") l) =
          l :: ls.takeWhile (fun l => !starts_with (str "User-agent:") l) := by
        simp [List.takeWhile, hua]
      rw [htw]
      cases hdis : starts_with (str "Disallow:") l with
      | false =>
        have ho := line_step_other (named l) st l hua hdis
        have hne : disallow_empty l = false := by
          unfold disallow_empty
          rw [hdis, Bool.false_and]
        have ih2 := ih (line_step (named l) st l) (ho.1.trans h)
        rw [ho.2] at ih2
        constructor
        · intro hall
          rw [ih2.1 (fun x hx => hall x (List.mem_cons_of_mem _ hx))]
          simp [List.filter, hdis]
        · rintro ⟨x, hx, hxe⟩
          apply ih2.2
          rcases List.mem_cons.1 hx with e | hx2
          · rw [e, hne] at hxe
            cases hxe
          · exact ⟨x, hx2, hxe⟩
      | true =>
        cases hemp : disallow_empty l with
        | true =>
          have hst : line_step (named l) st l = ⟨2, [], st.sitemaps⟩ := by
            unfold line_step
            simp [h, hua, hdis, hemp]
          rw [hst, steps_done named ls _ rfl]
          constructor
          · intro hall
            have := hall l (List.mem_cons_self _ _)
            rw [hemp] at this
            cases this
          · intro _
            rfl
        | false =>
          have hst : line_step (named l) st l =
              ⟨1, st.paths ++ [⟨directive_value (str "Disallow:") l,
                (directive_value (str "Disallow:") l).length⟩], st.sitemaps⟩ := by
            unfold line_step
            simp [h, hua, hdis, hemp]
          have ih2 := ih (line_step (named l) st l) (by rw [hst])
          rw [hst] at ih2 ⊢
          constructor
          · intro hall
            rw [ih2.1 (fun x hx => hall x (List.mem_cons_of_mem _ hx))]
            simp [List.filter, hdis]
          · rintro ⟨x, hx, hxe⟩
            apply ih2.2
            rcases List.mem_cons.1 hx with e | hx2
            · rw [e, hemp] at hxe
              cases hxe
            · exact ⟨x, hx2, hxe⟩

theorem steps_from_start (client : Option (List Nat)) (ls : List (List Nat))
    (st : RobotsState) (h : st.collect = 0) :
    ((∀ l ∈ collected_block client ls, disallow_empty l = false) →
      (ls.foldl (fun st l => line_step (agent_matches client l) st l) st).paths =
        st.paths ++ ((collected_block client ls).filter
          (starts_with (str "Disallow:"))).map
          (fun l => ⟨directive_value (str "Disallow:") l,
            (directive_value (str "Disallow:") l).length⟩)) ∧
    ((∃ l ∈ collected_block client ls, disallow_empty l = true) →
      (ls.foldl (fun st l => line_step (agent_matches client l) st l) st).paths = []) := by
  induction ls generalizing st with
  | nil =>
    refine ⟨fun _ => by simp [collected_block], ?_⟩
    rintro ⟨l, hl, -⟩
    simp [collected_block] at hl
  | cons l ls ih =>
    rw [List.foldl_cons]
    cases hm : agent_matches client l with
    | true =>
      have hua : starts_with (str "User-agent:") l = true := by
        unfold agent_matches at hm
        simp only [Bool.and_eq_true] at hm
        exact hm.1
      have hst : line_step true st l = ⟨1, st.paths, st.sitemaps⟩ := by
        unfold line_step
        simp [h, hua]
      have hb : collected_block client (l :: ls) =
          ls.takeWhile (fun l => !starts_with (str "User-agent:") l) := by
        unfold collected_block
        simp [List.dropWhile, hm]
      rw [hb, hst]
      exact steps_collecting (agent_matches client) ls _ rfl
    | false =>
      have hb : collected_block client (l :: ls) = collected_block client ls := by
        unfold collected_block
        simp [List.dropWhile, hm]
      have hst : (line_step false st l).collect = 0 ∧
          (line_step false st l).paths = st.paths := by
        cases hua : starts_with (str "User-agent:") l with
        | true =>
          unfold line_step
          simp [h, hua]
        | false =>
          unfold line_step
          simp only [h, hua, Bool.false_eq_true, and_false, if_false, zero_ne_one, false_and]
          split_ifs
          · exact ⟨rfl, rfl⟩
          · exact ⟨h, rfl⟩
      have ih2 := ih (line_step false st l) hst.1
      rw [hst.2] at ih2
      rw [hb]
      exact ih2

theorem robots_paths_fold (data client : List Nat)
    (hd : ∀ c ∈ data, c ≠ 0) (hne : data ≠ []) (hc : ∀ c ∈ client, c ≠ 0 ∧ c ≠ 10) :
    (wget_robots_parse (some data) (some client)).map (fun r => r.paths) =
      some ((lines data).foldl
        (fun st l => line_step (agent_matches (some client) l) st l) ⟨0, [], []⟩).paths := by
  have hcs : cstr client = client := cstr_of_no_nul client (fun c h => (hc c h).1)
  have hfold := robots_loop_fold (some client) (fun st => st)
    (fun st l => line_step (agent_matches (some client) l) st l)
    (fun st l tail hl ht => robots_line_state (some client) hc st l tail hl ht)
    data.length ⟨0, [], []⟩ data hd hne (le_refl _)
  simp only at hfold
  unfold wget_robots_parse
  simp only [cstr_of_no_nul data hd, hne, if_false, Option.map_some', Option.some.injEq, hcs]
  rw [hfold]

/-- C27: for every non-empty robots.txt body and every client name (C strings, the name
without a line feed), when the collected block has no "Disallow:" line with an empty
value, the paths returned by `wget_robots_parse` are the whitespace-delimited values of
the "Disallow:" lines of the collected block, in the order of the file, each with `len`
the length of the value.  The collected block is made of the lines after the first
"User-agent:" line whose value has the client name as a prefix or starts with `*`, and
before the next "User-agent:" line; directives and the client name are compared without
regard to the case of letters. -/
theorem robots_paths_of_collected_block (data client : List Nat)
    (hd : ∀ c ∈ data, c ≠ 0) (hne : data ≠ []) (hc : ∀ c ∈ client, c ≠ 0 ∧ c ≠ 10)
    (hblock : ∀ l ∈ collected_block (some client) (lines data), disallow_empty l = false) :
    (wget_robots_parse (some data) (some client)).map (fun r => r.paths) =
      some (((collected_block (some client) (lines data)).filter
        (starts_with (str "Disallow:"))).map
        (fun l => ⟨directive_value (str "Disallow:") l,
          (directive_value (str "Disallow:") l).length⟩)) := by
  rw [robots_paths_fold data client hd hne hc,
    (steps_from_start (some client) (lines data) ⟨0, [], []⟩ rfl).1 hblock]
  rfl

/-- Witness of C27: "User-agent: *\nDisallow: /priv\nSitemap: http://s/s.xml\n" with the
client "bot" gives the one path "/priv", of length 5. -/
theorem robots_paths_of_collected_block_witness :
    (wget_robots_parse (some (str "User-agent: *\nDisallow: /priv\nSitemap: http://s/s.xml\n"))
        (some (str "bot"))).map (fun r => r.paths) = some [⟨str "/priv", 5⟩] :=
  (robots_paths_of_collected_block
    (str "User-agent: *\nDisallow: /priv\nSitemap: http://s/s.xml\n") (str "bot")
    (by decide) (by decide) (by decide) (by decide)).trans (by decide)

/-- C28: for every robots.txt body and client name (C strings, the name without a line
feed) such that the collected block, the lines after the first "User-agent:" line for the
client and before the next "User-agent:" line, has a "Disallow:" line with an empty value
(after the blanks the line ends, or a carriage return follows), `wget_robots_parse`
returns no paths. -/
theorem robots_empty_disallow_clears_paths (data client : List Nat)
    (hd : ∀ c ∈ data, c ≠ 0) (hc : ∀ c ∈ client, c ≠ 0 ∧ c ≠ 10)
    (hblock : ∃ l ∈ collected_block (some client) (lines data), disallow_empty l = true) :
    (wget_robots_parse (some data) (some client)).map (fun r => r.paths) = some [] := by
  have hne : data ≠ [] := by
    intro e
    obtain ⟨l, hl, -⟩ := hblock
    rw [e] at hl
    simp [lines, collected_block] at hl
  rw [robots_paths_fold data client hd hne hc,
    (steps_from_start (some client) (lines data) ⟨0, [], []⟩ rfl).2 hblock]

/-- Witness of C28: in
"User-agent: *\nDisallow: /priv\nDisallow:\nDisallow: /x\nSitemap: http://s/s.xml\n" the
second "Disallow:" line has an empty value, and no path is returned for the client
"bot". -/
theorem robots_empty_disallow_clears_paths_witness :
    (wget_robots_parse
        (some (str "User-agent: *\nDisallow: /priv\nDisallow:\nDisallow: /x\nSitemap: http://s/s.xml\n"))
        (some (str "bot"))).map (fun r => r.paths) = some [] :=
  robots_empty_disallow_clears_paths
    (str "User-agent: *\nDisallow: /priv\nDisallow:\nDisallow: /x\nSitemap: http://s/s.xml\n")
    (str "bot") (by decide) (by decide) ⟨str "Disallow:", by decide, by decide⟩

/-! ### The write position of `_normalize_path` stays behind the read position -/

theorem rd_set (buf : List Nat) (j c i : Nat) :
    rd (buf.set j c) i = if i = j ∧ j < buf.length then c else rd buf i := by
  unfold rd
  rw [List.getD_eq_getElem?_getD, List.getD_eq_getElem?_getD, List.getElem?_set]
  by_cases hij : j = i
  · subst hij
    by_cases hj : j < buf.length
    · simp [hj]
    · simp [hj, List.getElem?_eq_none (Nat.le_of_not_lt hj)]
  · have hji : ¬ i = j := fun e => hij e.symm
    simp [hij, hji]

theorem pop_level_le (buf : List Nat) (p : Nat) : pop_level buf p ≤ p := by
  induction p with
  | zero => exact le_refl _
  | succ n ih =>
    rw [pop_level]
    split_ifs
    · omega
    · omega

theorem rd_cstr_length (P : List Nat) : rd P (cstr P).length = 0 := by
  induction P with
  | nil => rfl
  | cons a P ih =>
    unfold cstr
    by_cases ha : a = 0
    · simp [List.takeWhile, ha, rd]
    · simp only [List.takeWhile_cons, bne_iff_ne, ne_eq, ha, not_false_eq_true, decide_True,
        if_true, List.length_cons]
      unfold cstr at ih
      unfold rd at ih ⊢
      simpa using ih

theorem cstr_length_le (b : List Nat) (i : Nat) (h : rd b i = 0) : (cstr b).length ≤ i := by
  induction b generalizing i with
  | nil => simp [cstr]
  | cons a b ih =>
    unfold cstr
    by_cases ha : a = 0
    · simp [List.takeWhile, ha]
    · cases i with
      | zero =>
        exact absurd h ha
      | succ i =>
        simp only [List.takeWhile_cons, bne_iff_ne, ne_eq, ha, not_false_eq_true,
          decide_True, if_true, List.length_cons]
        have := ih i (by simpa [rd] using h)
        unfold cstr at this
        omega

theorem cstr_length_ge (b : List Nat) (n : Nat) (h : ∀ i, i < n → rd b i ≠ 0) :
    n ≤ (cstr b).length := by
  by_contra hlt
  exact h _ (Nat.lt_of_not_le hlt) (rd_cstr_length b)

theorem ok_advance (P : List Nat) (st : NState) (h : st.ok P) (p1 p2 : Nat)
    (h1 : p1 ≤ st.p1) (h2 : st.p2 ≤ p2) (hs : ∀ i, st.p2 ≤ i → i < p2 → rd st.buf i ≠ 0) :
    NState.ok P ⟨st.buf, p1, p2⟩ := by
  obtain ⟨a, b, c, d, e⟩ := h
  refine ⟨by simp only; omega, b, fun i hi => c i (by simp only at hi; omega), ?_,
    fun i hi => e i (by simp only at hi; omega)⟩
  intro i hi
  simp only at hi
  by_cases hlt : i < st.p2
  · exact d i hlt
  · rw [← c i (by omega)]
    exact hs i (by omega) hi

theorem ok_put (P : List Nat) (st : NState) (h : st.ok P) (c : Nat) (hc : c ≠ 0)
    (hlt : st.p1 < st.p2) : (put st c).ok P := by
  obtain ⟨a, b, cc, d, e⟩ := h
  have hlen : st.p1 < st.buf.length := by
    have := rd_lt_of_ne_zero P (st.p2 - 1) (d _ (by omega))
    omega
  unfold put
  refine ⟨by simp only; omega, by simp [b], ?_, d, ?_⟩
  · intro i hi
    simp only at hi ⊢
    rw [rd_set, if_neg (by omega)]
    exact cc i hi
  · intro i hi
    simp only at hi ⊢
    rw [rd_set]
    by_cases hi1 : i = st.p1
    · rw [if_pos ⟨hi1, hlen⟩]
      exact hc
    · rw [if_neg (fun x => hi1 x.1)]
      exact e i (by omega)

theorem skip_loop_nonzero (P : List Nat) (fuel p2 : Nat) (h : ∀ i, i < p2 → rd P i ≠ 0) :
    ∀ i, i < skip_loop P fuel p2 → rd P i ≠ 0 := by
  induction fuel generalizing p2 with
  | zero => exact h
  | succ n ih =>
    rw [skip_loop]
    split_ifs with h1 h2 h3 h4 h5 h6 h7
    · apply ih
      intro i hi
      by_cases hlt : i < p2
      · exact h i hlt
      · have e : i = p2 := by omega
        rw [e, h1]; decide
    · apply ih
      intro i hi
      by_cases hlt : i < p2
      · exact h i hlt
      · have e : i = p2 ∨ i = p2 + 1 := by omega
        rcases e with e | e
        · rw [e, h2]; decide
        · rw [e, h3]; decide
    · apply ih
      intro i hi
      by_cases hlt : i < p2
      · exact h i hlt
      · have e : i = p2 ∨ i = p2 + 1 ∨ i = p2 + 2 := by omega
        rcases e with e | e | e
        · rw [e, h2]; decide
        · rw [e, h4]; decide
        · rw [e, h5]; decide
    · apply ih
      intro i hi
      by_cases hlt : i < p2
      · exact h i hlt
      · have e : i = p2 ∨ i = p2 + 1 := by omega
        rcases e with e | e
        · rw [e, h2]; decide
        · rw [e, h4]; decide
    · exact h
    · apply ih
      intro i hi
      by_cases hlt : i < p2
      · exact h i hlt
      · have e : i = p2 := by omega
        rw [e, h2]; decide
    · exact h
    · exact h

theorem start_ok (P : List Nat) : NState.ok P ⟨P, 0, skip_loop P (P.length + 1) 0⟩ :=
  ⟨Nat.zero_le _, rfl, fun _ _ => rfl,
    skip_loop_nonzero P _ 0 (fun i hi => absurd hi (Nat.not_lt_zero i)),
    fun i hi => absurd hi (Nat.not_lt_zero i)⟩

theorem ok_skip1 (P : List Nat) (st : NState) (h : st.ok P) (p1 : Nat) (h1 : p1 ≤ st.p1)
    (h0 : rd st.buf st.p2 ≠ 0) : NState.ok P ⟨st.buf, p1, st.p2 + 1⟩ := by
  apply ok_advance P st h p1 (st.p2 + 1) h1 (by omega)
  intro i hi hi2
  have e : i = st.p2 := by omega
  rw [e]
  exact h0

theorem ok_skip2 (P : List Nat) (st : NState) (h : st.ok P) (p1 : Nat) (h1 : p1 ≤ st.p1)
    (h0 : rd st.buf st.p2 ≠ 0) (h01 : rd st.buf (st.p2 + 1) ≠ 0) :
    NState.ok P ⟨st.buf, p1, st.p2 + 2⟩ := by
  apply ok_advance P st h p1 (st.p2 + 2) h1 (by omega)
  intro i hi hi2
  have e : i = st.p2 ∨ i = st.p2 + 1 := by omega
  rcases e with e | e
  · rw [e]; exact h0
  · rw [e]; exact h01

theorem ok_skip3 (P : List Nat) (st : NState) (h : st.ok P) (p1 : Nat) (h1 : p1 ≤ st.p1)
    (h0 : rd st.buf st.p2 ≠ 0) (h01 : rd st.buf (st.p2 + 1) ≠ 0)
    (h02 : rd st.buf (st.p2 + 2) ≠ 0) : NState.ok P ⟨st.buf, p1, st.p2 + 3⟩ := by
  apply ok_advance P st h p1 (st.p2 + 3) h1 (by omega)
  intro i hi hi2
  have e : i = st.p2 ∨ i = st.p2 + 1 ∨ i = st.p2 + 2 := by omega
  rcases e with e | e | e
  · rw [e]; exact h0
  · rw [e]; exact h01
  · rw [e]; exact h02

/-- Every round of the main loop of `_normalize_path` keeps the invariant. -/
theorem norm_loop_ok (P : List Nat) (fuel : Nat) (st : NState) (h : st.ok P) :
    (norm_loop fuel st).ok P := by
  induction fuel generalizing st with
  | zero => exact h
  | succ n ih =>
    rw [norm_loop]
    simp only
    by_cases hc : rd st.buf st.p2 = 0 ∨ rd st.buf st.p2 = 63 ∨ rd st.buf st.p2 = 35
    · rw [if_pos hc]
      exact h
    · rw [if_neg hc]
      have h0 : rd st.buf st.p2 ≠ 0 := fun e => hc (Or.inl e)
      have hle := h.1
      have hpop := pop_level_le st.buf st.p1
      split_ifs
      all_goals apply ih
      all_goals first
        | exact ok_skip3 P st h _ hpop (by omega) (by omega) (by omega)
        | exact ok_skip2 P st h _ (le_refl _) (by omega) (by omega)
        | exact ok_skip1 P st h _ (le_refl _) (by omega)
        | exact ok_put P _ (ok_skip3 P st h _ hpop (by omega) (by omega) (by omega)) 47
            (by decide) (by simp only; omega)
        | exact ok_put P _ (ok_skip2 P st h _ (le_refl _) (by omega) (by omega)) 47
            (by decide) (by simp only; omega)
        | exact ok_put P _ (ok_skip1 P st h _ (le_refl _) (by omega)) _ h0
            (by simp only; omega)

/-- Every round of the copy loop of `_normalize_path` keeps the invariant. -/
theorem copy_rest_ok (P : List Nat) (fuel : Nat) (st : NState) (h : st.ok P) :
    (copy_rest fuel st).ok P := by
  induction fuel generalizing st with
  | zero => exact h
  | succ n ih =>
    rw [copy_rest]
    split_ifs with hc
    · exact h
    · apply ih
      apply ok_put P _ (ok_skip1 P st h _ (le_refl _) hc) _ hc
      have := h.1
      simp only
      omega

theorem copy_rest_gap (fuel : Nat) (st : NState) (h : st.p1 < st.p2) :
    (copy_rest fuel st).p1 < (copy_rest fuel st).p2 := by
  induction fuel generalizing st with
  | zero => exact h
  | succ n ih =>
    rw [copy_rest]
    split_ifs with hc
    · exact h
    · apply ih
      simp only [put]
      omega

theorem ok_read_le (P : List Nat) (st : NState) (h : st.ok P) :
    st.p2 ≤ (cstr P).length := cstr_length_ge P st.p2 h.2.2.2.1

theorem cstr_length_le_length (P : List Nat) : (cstr P).length ≤ P.length := by
  unfold cstr
  exact (List.takeWhile_sublist _).length_le

/-- The value `_normalize_path` returns and the string it leaves, in terms of the state
`st` in which the main loop ends: the string left has at least as many bytes as the value
returned, and at most as many as the string in `P`. -/
theorem normalize_path_bounds (P : List Nat) :
    (_normalize_path P).2 ≤ (normalize P).length ∧
    (normalize P).length ≤ (cstr P).length := by
  have hok := norm_loop_ok P (P.length + 1) _ (start_ok P)
  unfold normalize _normalize_path
  simp only
  generalize norm_loop (P.length + 1) ⟨P, 0, skip_loop P (P.length + 1) 0⟩ = st at hok
  by_cases hne : st.p1 ≠ st.p2
  · rw [if_pos hne]
    simp only
    have hok2 := copy_rest_ok P (P.length + 1) st hok
    have hgap := copy_rest_gap (P.length + 1) st
      (Nat.lt_of_le_of_ne hok.1 hne)
    generalize copy_rest (P.length + 1) st = st2 at hok2 hgap
    have hp2 := ok_read_le P st2 hok2
    have hlen : st2.p1 < st2.buf.length := by
      have := cstr_length_le_length P
      rw [hok2.2.1]
      omega
    constructor
    · apply cstr_length_ge
      intro i hi
      rw [rd_set, if_neg (by omega)]
      exact hok2.2.2.2.2 i hi
    · have : (cstr (st2.buf.set st2.p1 0)).length ≤ st2.p1 := by
        apply cstr_length_le
        rw [rd_set, if_pos ⟨rfl, hlen⟩]
      omega
  · rw [if_neg hne]
    simp only
    constructor
    · exact cstr_length_ge st.buf st.p1 hok.2.2.2.2
    · apply cstr_length_le
      rw [hok.2.2.1 _ (ok_read_le P st hok)]
      exact rd_cstr_length P

/-- C31 (code defect): on "a?b" `_normalize_path` leaves the buffer as it is, a string of
3 bytes, and returns 1, the length of the path part only; so for the base
"http://a/b/c/d" and the reference "g?y", `mget_iri_relative_to_abs` leaves the 16 bytes
"http://a/b/c/g?y" in the buffer and records the length 14.  On every buffer the value
returned is at most the length of the string left, and the two agree when the path part
was changed, as on "a/./b?q", which becomes "a/b?q" with the value 5. -/
theorem normalize_path_return_misses_suffix :
    _normalize_path (str "a?b") = (str "a?b", 1) ∧
    (normalize (str "a?b")).length = 3 ∧
    mget_iri_relative_to_abs
      (some ⟨str "http://a/b/c/d", Scheme.http, none, some (str "a"), none, some (str "80"),
        some (str "b/c/d"), none, none, none, false⟩)
      (str "g?y") 3 (some mget_buffer_t.empty) =
        Ret.data ⟨str "http://a/b/c/g?y", 14⟩ ∧
    (str "http://a/b/c/g?y").length = 16 ∧
    (∀ P, (_normalize_path P).2 ≤ (normalize P).length) ∧
    normalize (str "a/./b?q") = str "a/b?q" ∧
    (_normalize_path (str "a/./b?q")).2 = 5 :=
  ⟨by decide, by decide, by decide, by decide, fun P => (normalize_path_bounds P).1,
    by decide, by decide⟩

/-- C32: for every path buffer P, after any number k of rounds of the main loop of
`_normalize_path`, and of its copy loop, the write position is not ahead of the read
position and the read position is not past the end of the string in P; the string left in
the buffer is never longer than the string in P.  Positions are offsets from the start of
the buffer, and going one level up stops at offset 0, so ".." segments that would climb
above the root are dropped: "a/../../b" becomes "b" and "../../x" becomes "x". -/
theorem normalize_path_write_behind_read (P : List Nat) :
    (∀ k,
      (norm_loop k ⟨P, 0, skip_loop P (P.length + 1) 0⟩).p1 ≤
        (norm_loop k ⟨P, 0, skip_loop P (P.length + 1) 0⟩).p2 ∧
      (norm_loop k ⟨P, 0, skip_loop P (P.length + 1) 0⟩).p2 ≤ (cstr P).length) ∧
    (∀ k,
      (copy_rest k (norm_loop (P.length + 1) ⟨P, 0, skip_loop P (P.length + 1) 0⟩)).p1 ≤
        (copy_rest k (norm_loop (P.length + 1) ⟨P, 0, skip_loop P (P.length + 1) 0⟩)).p2 ∧
      (copy_rest k (norm_loop (P.length + 1) ⟨P, 0, skip_loop P (P.length + 1) 0⟩)).p2 ≤
        (cstr P).length) ∧
    (∀ buf p, pop_level buf p ≤ p) ∧
    (normalize P).length ≤ (cstr P).length ∧
    normalize (str "a/../../b") = str "b" ∧
    normalize (str "../../x") = str "x" := by
  refine ⟨fun k => ?_, fun k => ?_, pop_level_le, (normalize_path_bounds P).2, by decide,
    by decide⟩
  · have h := norm_loop_ok P k _ (start_ok P)
    exact ⟨h.1, ok_read_le P _ h⟩
  · have h := copy_rest_ok P k _ (norm_loop_ok P (P.length + 1) _ (start_ok P))
    exact ⟨h.1, ok_read_le P _ h⟩

/-! ### References resolved against a base without a host -/

/-- C11 (as stated, refuted): "file:///foo/bar" is parsed into an IRI without a host.
With it as the base, the reference "g" (no '/' at the start, no ':') has no result: the
call reads through the NULL host when it builds the connection part. -/
theorem relative_ref_base_without_host :
    ∃ base, mget_iri_parse Env.plain (str "file:///foo/bar") none = some base ∧
      base.host = none ∧ mget_iri_get_connection_part base = none ∧
      rd (str "g") 0 ≠ 47 ∧ 58 ∉ str "g" ∧
      mget_iri_relative_to_abs (some base) (str "g") (str "g").length
        (some mget_buffer_t.empty) = Ret.fault ∧
      (mget_iri_relative_to_abs (some base) (str "g") (str "g").length
        (some mget_buffer_t.empty)).string (str "g") = none :=
  ⟨⟨str "file:///foo/bar", Scheme.other (str "file"), none, none, none, none,
      some (str "foo/bar"), none, none, none, false⟩,
    rfl, rfl, rfl, by decide, by decide, by decide, by decide⟩

/-- C12 (as stated, refuted): "file:///foo" is parsed into an IRI without a host.  With
it as the base, the reference "/x" (a '/' at the start, not followed by '/') has no
result: the call reads through the NULL host when it builds the connection part. -/
theorem absolute_path_ref_base_without_host :
    ∃ base, mget_iri_parse Env.plain (str "file:///foo") none = some base ∧
      base.host = none ∧ mget_iri_get_connection_part base = none ∧
      rd (str "/x") 0 = 47 ∧ rd (str "/x") 1 ≠ 47 ∧
      mget_iri_relative_to_abs (some base) (str "/x") (str "/x").length
        (some mget_buffer_t.empty) = Ret.fault ∧
      (mget_iri_relative_to_abs (some base) (str "/x") (str "/x").length
        (some mget_buffer_t.empty)).string (str "/x") = none :=
  ⟨⟨str "file:///foo", Scheme.other (str "file"), none, none, none, none,
      some (str "foo"), none, none, none, false⟩,
    rfl, rfl, rfl, by decide, by decide, by decide, by decide⟩

/-! ### When a resolved reference is an absolute URI -/

theorem lower_no_gendelim (c : Nat) (h : _iri_isgendelim c = false) :
    _iri_isgendelim (lower c) = false := by
  unfold lower
  split
  · unfold _iri_isgendelim
    simp only [Bool.or_eq_false_iff, beq_eq_false_iff_ne]
    omega
  · exact h

/-- The scheme name of a parsed IRI has no gen-delim: it is a scheme name as soon as it is
not empty. -/
theorem parse_scheme_no_gendelim (env : Env) (url : List Nat) (encoding : Option (List Nat))
    (iri : MGET_IRI) (hparse : mget_iri_parse env url encoding = some iri) :
    ∀ c ∈ iri.scheme.text, _iri_isgendelim c = false := by
  obtain ⟨u, -, -, hs, -⟩ := parse_fields env url encoding iri hparse
  rw [hs]
  have hh : ∀ c ∈ Scheme.http.text, _iri_isgendelim c = false := by decide
  have hhs : ∀ c ∈ Scheme.https.text, _iri_isgendelim c = false := by decide
  unfold iri_scheme
  simp only
  split_ifs
  · exact hh
  · exact hhs
  · intro c hc
    simp only [Scheme.text] at hc
    rcases List.mem_map.1 hc with ⟨d, hd, rfl⟩
    apply lower_no_gendelim
    have := List.mem_takeWhile_imp hd
    simpa using this
  · exact hh

theorem absolute_of_scheme (name rest : List Nat) (h : scheme_name name) :
    absolute_uri (name ++ 58 :: rest) := by
  have hp : ∀ x ∈ name, (fun c => !_iri_isgendelim c) x = true := by
    intro x hx
    simp only [h.2 x hx, Bool.not_false]
  unfold absolute_uri
  rw [takeWhile_append_stop _ name 58 rest hp (by decide),
    dropWhile_append_stop _ name 58 rest hp (by decide)]
  exact ⟨h.1, rfl⟩

theorem not_absolute_of_no_colon (s : List Nat) (h : 58 ∉ s) : ¬ absolute_uri s := by
  intro ha
  apply h
  have hm : (58 : Nat) ∈ s.dropWhile (fun c => !_iri_isgendelim c) :=
    List.mem_of_mem_head? ha.2
  exact (List.dropWhile_suffix _).subset hm

theorem absolute_of_prefix (l₁ l₂ : List Nat) (h : 58 ∈ l₁) :
    absolute_uri (l₁ ++ l₂) ↔ absolute_uri l₁ := by
  have hstop : ∃ a b c, l₁ = a ++ c :: b ∧ (∀ x ∈ a, (fun c => !_iri_isgendelim c) x = true) ∧
      (fun c => !_iri_isgendelim c) c = false := by
    rcases span_decomp (fun c => !_iri_isgendelim c) l₁ with ⟨h1, h2⟩
    rcases h2 with h2 | ⟨c, t, h2, hc⟩
    · exfalso
      have hall : l₁.takeWhile (fun c => !_iri_isgendelim c) = l₁ := by
        have := List.takeWhile_append_dropWhile (fun c => !_iri_isgendelim c) l₁
        rw [h2, List.append_nil] at this
        exact this
      have := h1 58 (by rw [hall]; exact h)
      exact absurd this (by decide)
    · refine ⟨l₁.takeWhile (fun c => !_iri_isgendelim c), t, c, ?_, h1, hc⟩
      rw [← h2]
      exact (List.takeWhile_append_dropWhile _ _).symm
  obtain ⟨a, b, c, e, ha, hc⟩ := hstop
  unfold absolute_uri
  rw [e, List.append_assoc, List.cons_append,
    takeWhile_append_stop _ a c (b ++ l₂) ha hc, dropWhile_append_stop _ a c (b ++ l₂) ha hc,
    takeWhile_append_stop _ a c b ha hc, dropWhile_append_stop _ a c b ha hc]
  rfl

theorem resolved_without_buffer (b : MGET_IRI) (val : List Nat) (len : Nat)
    (hcase : rd val 0 = 47 ∨ (val.take len).contains 58 = false) :
    (mget_iri_relative_to_abs (some b) val len none).string val = none := by
  unfold mget_iri_relative_to_abs
  by_cases h1 : rd val 0 = 47
  · rw [if_pos h1]
    simp only
    by_cases h2 : len ≥ 2 ∧ rd val 1 = 47
    · rw [if_pos h2]
      rfl
    · rw [if_neg h2]
      cases mget_iri_get_connection_part b <;> rfl
  · have hcol : (val.take len).contains 58 = false := by
      rcases hcase with h | h
      · exact absurd h h1
      · exact h
    rw [if_neg h1, hcol]
    simp only [Bool.false_eq_true, if_false]
    cases mget_iri_get_connection_part b <;> rfl

theorem resolved_shape (b : MGET_IRI) (obuf : Option mget_buffer_t) (val : List Nat)
    (len : Nat) (r : List Nat) (hwf : b.wf)
    (hcase : rd val 0 = 47 ∨ (val.take len).contains 58 = false)
    (hr : (mget_iri_relative_to_abs (some b) val len obuf).string val = some r) :
    ∃ rest, r = b.scheme.text ++ 58 :: rest := by
  have ec : str ":" = [58] := rfl
  cases obuf with
  | none =>
    rw [resolved_without_buffer b val len hcase] at hr
    cases hr
  | some buf =>
    cases hc : mget_iri_get_connection_part b with
    | some conn =>
      obtain ⟨rest, h⟩ := (resolved_with_connection_part b buf none val conn len hwf hc).1 hcase
      rw [h] at hr
      refine ⟨rest, ?_⟩
      rw [← Option.some.inj hr, ec]
      simp
    | none =>
      unfold mget_iri_relative_to_abs at hr
      by_cases h1 : rd val 0 = 47
      · rw [if_pos h1] at hr
        simp only at hr
        by_cases h2 : len ≥ 2 ∧ rd val 1 = 47
        · rw [if_pos h2] at hr
          have h := strcpy_strcat_strcat buf b.scheme.text (str ":")
            (if (List.drop 2 (cstr (List.take len val))).contains 47 = true then
              List.take 2 (cstr (List.take len val)) ++
                List.takeWhile (fun c => c != 47) (List.drop 2 (cstr (List.take len val))) ++
                [47] ++
                (_normalize_path (List.dropWhile (fun c => c != 47)
                  (List.drop 2 (cstr (List.take len val)))).tail).1
            else cstr (List.take len val)) hwf.1
          unfold Ret.string at h hr
          simp only at h hr
          rw [h] at hr
          have e58 : cstr (str ":") = [58] := by decide
          rw [e58] at hr
          exact ⟨_, by rw [← Option.some.inj hr, List.append_assoc, List.singleton_append]⟩
        · rw [if_neg h2, hc] at hr
          cases hr
      · have hcol : (val.take len).contains 58 = false := by
          rcases hcase with h | h
          · exact absurd h h1
          · exact h
        rw [if_neg h1, hcol] at hr
        simp only [Bool.false_eq_true, if_false, hc] at hr
        cases hr

theorem rd_ne_zero_of_lt (l : List Nat) (i : Nat) (h0 : ∀ c ∈ l, c ≠ 0) (hi : i < l.length) :
    rd l i ≠ 0 := by
  unfold rd
  rw [List.getD_eq_getElem?_getD, List.getElem?_eq_getElem hi]
  exact h0 _ (List.getElem_mem _)

theorem take_no_nul (l : List Nat) (n : Nat) (h0 : ∀ c ∈ l, c ≠ 0) :
    ∀ c ∈ l.take n, c ≠ 0 := fun c hc => h0 c (List.mem_of_mem_take hc)

theorem resolved_verbatim (base : Option MGET_IRI) (obuf : Option mget_buffer_t)
    (val : List Nat) (len : Nat) (h0 : ∀ c ∈ val, c ≠ 0) (h1 : rd val 0 ≠ 47)
    (hcol : (val.take len).contains 58 = true) :
    (mget_iri_relative_to_abs base val len obuf).string val =
      some (match obuf with
        | some _ => val.take len
        | none => val) := by
  unfold mget_iri_relative_to_abs
  rw [if_neg h1, hcol]
  simp only [if_true]
  cases obuf with
  | none =>
    simp only [Ret.string, cstr_of_no_nul val h0]
  | some buf =>
    simp only [Ret.string, mget_buffer_memcpy, mget_buffer_memcat, List.take_zero,
      List.nil_append, cstr_of_no_nul _ (take_no_nul val len h0)]

theorem resolved_without_base (obuf : Option mget_buffer_t) (val : List Nat) (len : Nat)
    (r : List Nat) (h0 : ∀ c ∈ val, c ≠ 0) (hcol : (val.take len).contains 58 = false)
    (hr : (mget_iri_relative_to_abs none val len obuf).string val = some r) :
    r = val ∧ 58 ∉ val := by
  unfold mget_iri_relative_to_abs at hr
  by_cases h1 : rd val 0 = 47
  · rw [if_pos h1] at hr
    cases hr
  · rw [if_neg h1, hcol] at hr
    simp only [Bool.false_eq_true, if_false] at hr
    by_cases hend : rd val len = 0
    · rw [if_pos hend] at hr
      simp only [Ret.string, cstr_of_no_nul val h0, Option.some.injEq] at hr
      have hlen : val.length ≤ len := by
        by_contra hlt
        exact rd_ne_zero_of_lt val len h0 (Nat.lt_of_not_le hlt) hend
      rw [List.take_of_length_le hlen] at hcol
      refine ⟨hr.symm, ?_⟩
      intro hm
      have : val.contains 58 = true := by simpa using hm
      rw [hcol] at this
      cases this
    · rw [if_neg hend] at hr
      cases hr

/-- C14 (amended): for every base (present or absent), every output buffer (present or
absent), every reference of `len` bytes at the C string `val`, if
`mget_iri_relative_to_abs` returns a result, then: (1) with a base whose scheme name is
not empty, and a reference that begins with '/' or has no ':' among its `len` bytes, the
result is an absolute URI: it begins with a non-empty scheme name followed by ':';
(2) for a reference that does not begin with '/' and has a ':' among its `len` bytes, the
result is the reference as it is (its `len` bytes, or the whole of `val` when there is no
buffer), so it is an absolute URI exactly when the reference is one; (3) without a base,
for a reference that has no ':', the result is `val` as it is and not an absolute URI. -/
theorem resolution_result_absolute (base : Option MGET_IRI) (obuf : Option mget_buffer_t)
    (val : List Nat) (len : Nat) (r : List Nat)
    (hb : ∀ b, base = some b → b.wf ∧ scheme_name b.scheme.text)
    (h0 : ∀ c ∈ val, c ≠ 0)
    (hr : (mget_iri_relative_to_abs base val len obuf).string val = some r) :
    ((rd val 0 = 47 ∨ (val.take len).contains 58 = false) → base ≠ none →
      absolute_uri r) ∧
    (rd val 0 ≠ 47 → (val.take len).contains 58 = true →
      (r = val.take len ∨ r = val) ∧ (absolute_uri r ↔ absolute_uri (val.take len))) ∧
    (base = none → (val.take len).contains 58 = false → r = val ∧ ¬ absolute_uri r) := by
  refine ⟨fun hcase hbase => ?_, fun h1 hcol => ?_, fun hbase hcol => ?_⟩
  · cases base with
    | none => exact absurd rfl hbase
    | some b =>
      obtain ⟨hwf, hs⟩ := hb b rfl
      obtain ⟨rest, e⟩ := resolved_shape b obuf val len r hwf hcase hr
      rw [e]
      exact absolute_of_scheme _ rest hs
  · rw [resolved_verbatim base obuf val len h0 h1 hcol] at hr
    have hm : (58 : Nat) ∈ val.take len := by simpa using hcol
    cases obuf with
    | some buf =>
      simp only [Option.some.injEq] at hr
      rw [← hr]
      exact ⟨Or.inl rfl, Iff.rfl⟩
    | none =>
      simp only [Option.some.injEq] at hr
      rw [← hr]
      refine ⟨Or.inr rfl, ?_⟩
      conv_lhs => rw [← List.take_append_drop len val]
      exact absolute_of_prefix _ _ hm
  · rw [hbase] at hr
    obtain ⟨e, hno⟩ := resolved_without_base obuf val len r h0 hcol hr
    rw [e]
    exact ⟨rfl, not_absolute_of_no_colon val hno⟩

/-- Witness of C14 (amended): with the base parsed from "http://a/b/c/d" the reference
"../g" resolves to "http://a/b/g", an absolute URI. -/
theorem resolution_result_absolute_witness :
    (mget_iri_relative_to_abs
        (some ⟨str "http://a/b/c/d", Scheme.http, none, some (str "a"), none,
          some (str "80"), some (str "b/c/d"), none, none, none, false⟩)
        (str "../g") 4 (some mget_buffer_t.empty)).string (str "../g") =
      some (str "http://a/b/g") ∧
    absolute_uri (str "http://a/b/g") :=
  ⟨by decide,
    (resolution_result_absolute
      (some ⟨str "http://a/b/c/d", Scheme.http, none, some (str "a"), none,
        some (str "80"), some (str "b/c/d"), none, none, none, false⟩)
      (some mget_buffer_t.empty) (str "../g") 4 (str "http://a/b/g")
      (fun b hb => by
        cases hb
        exact ⟨by decide, by decide⟩)
      (by decide) (by decide)).1 (Or.inr (by decide)) (by simp)⟩

end Iri
